import Mathlib

/-! # Sassena multipole scatter devices: embedding and verified properties

Shallow embedding of `src/scatter_devices/all_multipole.cpp`
(`AllMSScatterDevice`, `AllMCScatterDevice`) together with the collectives
it relies on, of `main` of `tests/unit_broadcast.cpp`, and of
`concurrent_queue` of `scatter_devices/abstract_scatter_device.hpp`.  Real
numbers (`double`) are an arbitrary field `R` (exact arithmetic);
`std::complex<double>` is the pair type `Cplx R`, and a
`double` factor of a complex product enters as `Cplx.ofReal`.  The sign
factor of the cylindrical kernel, where rounding changes the outcome, is
given a second time in `double` arithmetic (namespace `binary64`).  A run on
the ranks of a communicator is a list of devices, entry `r` being rank `r`;
the collectives are functions of the per-rank send buffers. -/

set_option autoImplicit false

/-! ## Complex numbers over `R` (`std::complex<double>`) -/

/-- Pair of a real and an imaginary part, the layout of `std::complex<double>`. -/
@[ext]
structure Cplx (R : Type) where
  re : R
  im : R
deriving DecidableEq

namespace Cplx

variable {R : Type}

section Ring

variable [CommRing R]

instance : Zero (Cplx R) := ⟨⟨0, 0⟩⟩
instance : One (Cplx R) := ⟨⟨1, 0⟩⟩
instance : Add (Cplx R) := ⟨fun z w => ⟨z.re + w.re, z.im + w.im⟩⟩
instance : Neg (Cplx R) := ⟨fun z => ⟨-z.re, -z.im⟩⟩
instance : Sub (Cplx R) := ⟨fun z w => ⟨z.re - w.re, z.im - w.im⟩⟩
instance : Mul (Cplx R) :=
  ⟨fun z w => ⟨z.re * w.re - z.im * w.im, z.re * w.im + z.im * w.re⟩⟩

instance : CommRing (Cplx R) where
  add_assoc a b c := by ext <;> apply add_assoc
  zero_add a := by ext <;> apply zero_add
  add_zero a := by ext <;> apply add_zero
  add_comm a b := by ext <;> apply add_comm
  neg_add_cancel a := by ext <;> apply neg_add_cancel
  sub_eq_add_neg a b := by ext <;> apply sub_eq_add_neg
  mul_assoc a b c := by
    ext
    · show (a.re * b.re - a.im * b.im) * c.re - (a.re * b.im + a.im * b.re) * c.im
        = a.re * (b.re * c.re - b.im * c.im) - a.im * (b.re * c.im + b.im * c.re)
      ring
    · show (a.re * b.re - a.im * b.im) * c.im + (a.re * b.im + a.im * b.re) * c.re
        = a.re * (b.re * c.im + b.im * c.re) + a.im * (b.re * c.re - b.im * c.im)
      ring
  one_mul a := by
    ext
    · show 1 * a.re - 0 * a.im = a.re
      ring
    · show 1 * a.im + 0 * a.re = a.im
      ring
  mul_one a := by
    ext
    · show a.re * 1 - a.im * 0 = a.re
      ring
    · show a.re * 0 + a.im * 1 = a.im
      ring
  left_distrib a b c := by
    ext
    · show a.re * (b.re + c.re) - a.im * (b.im + c.im)
        = (a.re * b.re - a.im * b.im) + (a.re * c.re - a.im * c.im)
      ring
    · show a.re * (b.im + c.im) + a.im * (b.re + c.re)
        = (a.re * b.im + a.im * b.re) + (a.re * c.im + a.im * c.re)
      ring
  right_distrib a b c := by
    ext
    · show (a.re + b.re) * c.re - (a.im + b.im) * c.im
        = (a.re * c.re - a.im * c.im) + (b.re * c.re - b.im * c.im)
      ring
    · show (a.re + b.re) * c.im + (a.im + b.im) * c.re
        = (a.re * c.im + a.im * c.re) + (b.re * c.im + b.im * c.re)
      ring
  mul_comm a b := by
    ext
    · show a.re * b.re - a.im * b.im = b.re * a.re - b.im * a.im
      ring
    · show a.re * b.im + a.im * b.re = b.re * a.im + b.im * a.re
      ring
  zero_mul a := by
    ext
    · show 0 * a.re - 0 * a.im = 0
      ring
    · show 0 * a.im + 0 * a.re = 0
      ring
  mul_zero a := by
    ext
    · show a.re * 0 - a.im * 0 = 0
      ring
    · show a.re * 0 + a.im * 0 = 0
      ring
  nsmul := nsmulRec
  zsmul := zsmulRec

/-- The value `std::complex<double>(x, 0)` a real converts to. -/
def ofReal (x : R) : Cplx R := ⟨x, 0⟩

/-- The imaginary unit `complex<double>(0, 1.0)`. -/
def I : Cplx R := ⟨0, 1⟩

/-- Complex conjugate, `std::conj`. -/
def conj (z : Cplx R) : Cplx R := ⟨z.re, -z.im⟩

/-- Product `complex * double`: both components are scaled. -/
def scale (z : Cplx R) (x : R) : Cplx R := ⟨z.re * x, z.im * x⟩

end Ring

/-- Quotient `complex /= double`: both components are divided. -/
def divReal [Field R] (z : Cplx R) (x : R) : Cplx R := ⟨z.re / x, z.im / x⟩

end Cplx

/-! ## Faults, vectors, matrices -/

/-- Ways in which the program stops instead of returning. -/
inductive Fault where
  /-- An index outside a `ublas::matrix`: the checked access raises
  `bad_index`; nothing defined is read or written. -/
  | bad_index
  /-- A bare `throw;` with no exception in flight: `std::terminate`. -/
  | terminate
  /-- Dereferencing `rbegin()` of an empty vector. -/
  | empty_deref
deriving DecidableEq

/-- The `boost::numeric::ublas::matrix` holding the amplitudes: `size1` rows,
`size2` columns. -/
structure ublas.matrix (K : Type) where
  size1 : Nat
  size2 : Nat
  data : Nat → Nat → K

namespace ublas.matrix

variable {K : Type}

/-- The matrix `a.resize(n, m)` leaves behind: `n` rows and `m` columns of
value-initialised entries. -/
def resize [Zero K] (n m : Nat) : ublas.matrix K := ⟨n, m, fun _ _ => 0⟩

/-- Checked read `a(i,j)`. -/
def read (a : ublas.matrix K) (i j : Nat) : Except Fault K :=
  if i < a.size1 ∧ j < a.size2 then .ok (a.data i j) else .error .bad_index

/-- Store `a(i,j) = v` for an index already known to be in range. -/
def set (a : ublas.matrix K) (i j : Nat) (v : K) : ublas.matrix K :=
  { a with data := fun i2 j2 => if i2 = i ∧ j2 = j then v else a.data i2 j2 }

/-- Checked write `a(i,j) = v`. -/
def write (a : ublas.matrix K) (i j : Nat) (v : K) : Except Fault (ublas.matrix K) :=
  if i < a.size1 ∧ j < a.size2 then .ok (a.set i j v) else .error .bad_index

end ublas.matrix

/-! ## Decomposition of frames and lags over the ranks -/

namespace EvenDecompose

/-- Modelled from the spec: `EvenDecompose(N_items, N_bins).indexes_for(rank)`
of `decompose.hpp`, which is not among the sources.  The bins are contiguous
ascending blocks covering `0 .. NF-1`, of size `⌈NF/NN⌉` or `⌊NF/NN⌋`; the
first `NF % NN` bins take the larger size. -/
def indexes_for (NF NN rank : Nat) : List Nat :=
  List.range' (rank * (NF / NN) + min rank (NF % NN))
    (NF / NN + if rank < NF % NN then 1 else 0)

end EvenDecompose

namespace RModuloDecompose

/-- Modelled from the spec: `RModuloDecompose(N, N_bins).indexes_for(rank)`
of `decompose.hpp`, which is not among the sources: the lags `i < N` with
`i mod N_bins = rank`. -/
def indexes_for (N NN rank : Nat) : List Nat :=
  (List.range N).filter (fun i => i % NN = rank)

end RModuloDecompose

/-! ## Flattening and the collectives -/

section Transport

variable {R : Type}

/-- Modelled from the spec: `flatten` of `vector_unfold.hpp`, which is not
among the sources.  A complex vector becomes the real vector
`re₀, im₀, re₁, im₁, …`, the layout the receivers index with `2*j` and
`2*j+1`. -/
def flatten : List (Cplx R) → List R
  | [] => []
  | z :: zs => z.re :: z.im :: flatten zs

/-- Modelled from the spec: `compress` of `vector_unfold.hpp`, which is not
among the sources: the inverse of `flatten`. -/
def compress : List R → List (Cplx R)
  | x :: y :: rest => ⟨x, y⟩ :: compress rest
  | _ => []

/-- Result of `boost::mpi::all_reduce(comm, CSsize, maxCSsize, maximum)`:
the largest of the values the ranks contribute (one list entry per rank). -/
def all_reduce_max (CSsize : List Nat) : Nat :=
  CSsize.foldl max 0

/-- Receive buffer of `boost::mpi::gather` / `all_gather`: the send buffers
of ranks `0 .. NN-1` (one list entry per rank), one after the other. -/
def gather (send : List (List R)) : List R :=
  send.flatten

/-- Receive buffer on the root of `boost::mpi::reduce(..., std::plus<double>(), 0)`
for send buffers of `n` doubles: the element-wise sum over the ranks. -/
def reduce_plus [Add R] [Zero R] (n : Nat) (send : List (List R)) : List R :=
  send.foldl (fun acc buf => List.zipWith (· + ·) acc buf) (List.replicate n 0)

end Transport

/-! ## The multipole devices: state shared by both classes -/

/-- The part of a multipole scatter device that the reductions use: the frames
of this rank (`myframes`) and its amplitude matrix (`a`). -/
structure Device (R : Type) where
  myframes : List Nat
  a : ublas.matrix (Cplx R)

section Reducers

variable {R : Type} [Field R]

/-- The send vector `local_A`: `maxCSsize` zeros, overwritten at `ci < CSsize`
by `a(ci, mpindex)`. -/
def local_A (d : Device R) (mpindex maxCSsize : Nat) : Except Fault (List (Cplx R)) :=
  (List.range d.myframes.length).foldlM
    (fun acc ci => do
      let v ← d.a.read ci mpindex
      pure (acc.set ci v))
    (List.replicate maxCSsize 0)

/-- The send buffer `local_Ar = flatten(local_A)`. -/
def local_Ar (d : Device R) (mpindex maxCSsize : Nat) : Except Fault (List R) := do
  let la ← local_A d mpindex maxCSsize
  pure (flatten la)

/-- The loop that undoes the interleaving of the gathered buffer `all_Ar`:
`A[findexes[j]] = complex(all_Ar[2*maxCSsize*i + 2*j], all_Ar[2*maxCSsize*i + 2*j + 1])`
for every rank `i` and every position `j` of its frame list. -/
def deinterleave (NF NN maxCSsize : Nat) (all_Ar : List R) : List (Cplx R) :=
  (List.range NN).foldl
    (fun A i =>
      let findexes := EvenDecompose.indexes_for NF NN i
      (List.range findexes.length).foldl
        (fun A j =>
          A.set (findexes.getD j 0)
            ⟨all_Ar.getD (2 * maxCSsize * i + 2 * j) 0,
             all_Ar.getD (2 * maxCSsize * i + 2 * j + 1) 0⟩)
        A)
    (List.replicate NF 0)

/-- The vector `gather_frames()` returns on rank `rank`, for a sample of `NF`
coordinate sets and the devices `devs` of the communicator (entry `r` is
rank `r`).  Identical text in `AllMSScatterDevice` and `AllMCScatterDevice`. -/
def gather_frames (NF : Nat) (devs : List (Device R)) (rank : Nat) :
    Except Fault (List (Cplx R)) := do
  let maxCSsize := all_reduce_max (devs.map fun d => d.myframes.length)
  let local_Ars ← devs.mapM fun d => local_Ar d 0 maxCSsize
  let all_Ar := gather local_Ars
  if rank = 0 then
    pure (deinterleave NF devs.length maxCSsize all_Ar)
  else
    pure []

/-- One pass of the outer loop of `conjmultiply_frames` (row `i`). -/
def conjmultiply_row (a : ublas.matrix (Cplx R)) (i : Nat) : ublas.matrix (Cplx R) :=
  if a.size2 < 1 then a
  else
    (List.range' 1 (a.size2 - 1)).foldl
      (fun acc j => acc.set i 0 (acc.data i 0 + acc.data i j * Cplx.conj (acc.data i j)))
      (a.set i 0 (a.data i 0 * Cplx.conj (a.data i 0)))

/-- The matrix `conjmultiply_frames()` leaves in `a`.  Identical text in both
devices; every index it uses is below `size1` resp. `size2` by the loop
bounds. -/
def conjmultiply_frames (a : ublas.matrix (Cplx R)) : ublas.matrix (Cplx R) :=
  (List.range a.size1).foldl conjmultiply_row a

/-- The mean that `correlate_frames` subtracts: zero, or with the zero-mean
option the sum of the series times `1.0/NF`. -/
def series_mean (NF : Nat) (zeromean : Bool) (A : List (Cplx R)) : Cplx R :=
  if zeromean then
    Cplx.scale ((List.range NF).foldl (fun mean i => mean + A.getD i 0) 0) (1 / (NF : R))
  else 0

/-- One pass of the lag loop of `correlate_frames`: accumulate
`conj(A[k]-mean)*(A[k+tau]-mean)` over the starting frames `k` into
`correlated_a[tau]`, then divide by `last_starting_frame = NF - tau`. -/
def correlate_step (NF : Nat) (A : List (Cplx R)) (mean : Cplx R)
    (correlated_a : List (Cplx R)) (tau : Nat) : List (Cplx R) :=
  let last_starting_frame := NF - tau
  let c := (List.range last_starting_frame).foldl
    (fun c k =>
      let a1 := A.getD k 0 - mean
      let a2 := A.getD (k + tau) 0 - mean
      c.set tau (c.getD tau 0 + Cplx.conj a1 * a2))
    correlated_a
  c.set tau (Cplx.divReal (c.getD tau 0) (last_starting_frame : R))

/-- The vector `correlated_a` of rank `rank` before the reduction. -/
def correlated_a (NF NN : Nat) (zeromean : Bool) (A : List (Cplx R)) (rank : Nat) :
    List (Cplx R) :=
  let mysteps := RModuloDecompose.indexes_for NF NN rank
  let mean := series_mean NF zeromean A
  mysteps.foldl (correlate_step NF A mean) (List.replicate NF 0)

/-- The vector `correlate_frames(mpindex)` returns on rank `rank`, for a
sample of `NF` coordinate sets and the devices `devs` of the communicator.
Identical text in `AllMSScatterDevice` and `AllMCScatterDevice`.  Only the
root receives the sum; the other ranks return their untouched, zero
`aout_r`. -/
def correlate_frames (NF : Nat) (zeromean : Bool) (devs : List (Device R))
    (mpindex rank : Nat) : Except Fault (List (Cplx R)) := do
  let NN := devs.length
  let maxCSsize := all_reduce_max (devs.map fun d => d.myframes.length)
  let local_Ars ← devs.mapM fun d => local_Ar d mpindex maxCSsize
  let all_Ar := gather local_Ars
  let A := deinterleave NF NN maxCSsize all_Ar
  let ain_r := (List.range NN).map fun r => flatten (correlated_a NF NN zeromean A r)
  let aout_r := if rank = 0 then reduce_plus (2 * NF) ain_r else List.replicate (2 * NF) 0
  pure (compress aout_r)

end Reducers

/-! ## Collaborators: coordinates, sample, parameters, library functions -/

/-- Modelled from the spec: `CartesianCoor3D` of `coor3d.hpp`, which is not
among the sources: a vector of three doubles. -/
structure CartesianCoor3D (R : Type) where
  x : R
  y : R
  z : R

/-- Library functions the kernels call (`<cmath>`, `<complex>`,
`boost::math`), taken as given. -/
structure Numerics (R : Type) where
  /-- The function `sqrt(double)`. -/
  sqrt : R → R
  /-- The function `exp(complex<double>)`. -/
  exp : Cplx R → Cplx R
  /-- The function `cos(double)`. -/
  cos : R → R
  /-- The function `sin(double)`. -/
  sin : R → R
  /-- The constant `M_PI`. -/
  pi : R
  /-- The function `boost::math::cyl_bessel_j(n, x)`. -/
  cyl_bessel_j : Nat → R → R
  /-- The function `boost::math::sph_bessel(l, x)`. -/
  sph_bessel : Nat → R → R
  /-- The function `boost::math::spherical_harmonic(l, m, theta, phi)`. -/
  spherical_harmonic : Nat → Int → R → R → Cplx R

namespace CartesianCoor3D

variable {R : Type} [Field R]

/-- Scalar product `a*b` of two vectors. -/
def dot (a b : CartesianCoor3D R) : R := a.x * b.x + a.y * b.y + a.z * b.z

/-- Product `s*v` of a double and a vector. -/
def smul (s : R) (v : CartesianCoor3D R) : CartesianCoor3D R := ⟨s * v.x, s * v.y, s * v.z⟩

/-- Difference `a - b`. -/
def sub (a b : CartesianCoor3D R) : CartesianCoor3D R := ⟨a.x - b.x, a.y - b.y, a.z - b.z⟩

/-- Quotient `v / s` of a vector and a double. -/
def div (v : CartesianCoor3D R) (s : R) : CartesianCoor3D R := ⟨v.x / s, v.y / s, v.z / s⟩

/-- Euclidean norm `v.length()`. -/
def length (M : Numerics R) (v : CartesianCoor3D R) : R :=
  M.sqrt (v.x * v.x + v.y * v.y + v.z * v.z)

end CartesianCoor3D

/-- The coordinate set `coordinate_sets.load(frame)` returns: per selected
atom the three coordinates of the chosen representation (spherical:
`r, phi, theta`; cylindrical: `r, phi, z`). -/
structure CoordinateSet (R : Type) where
  c1 : List R
  c2 : List R
  c3 : List R

/-- What the devices read from the sample and its collaborators. -/
structure Sample (R : Type) where
  /-- Number of frames, `coordinate_sets.size()`. -/
  NF : Nat
  /-- Size of the selection, `coordinate_sets.get_selection().size()`. -/
  noa : Nat
  /-- The call `coordinate_sets.load(frame)`. -/
  load : Nat → CoordinateSet R
  /-- The call `coordinate_sets.get_postalignmentvectors(frame)`. -/
  get_postalignmentvectors : Nat → List (CartesianCoor3D R)
  /-- Scattering factors `scatterfactors.get_all()` after `scatterfactors.update(q)`. -/
  get_all : CartesianCoor3D R → List R

/-- The entries of `Params` the multipole devices read. -/
structure Params (R : Type) where
  /-- Option `scattering.center`. -/
  center : Bool
  /-- Option `scattering.correlation.type`. -/
  correlation_type : String
  /-- Option `scattering.correlation.method`. -/
  correlation_method : String
  /-- Option `scattering.correlation.zeromean`. -/
  zeromean : Bool
  /-- Option `scattering.average.orientation.multipole.resolution` (`L ≥ 0`). -/
  resolution : Nat
  /-- Option `scattering.average.orientation.multipole.axis`. -/
  axis : CartesianCoor3D R
  /-- Option `limits.memory.scattering_matrix`, in bytes. -/
  scattering_matrix : Nat

/-- Size of a `double` in bytes. -/
def sizeof_double : Nat := 8

/-- Width of `size_t`. -/
def size_t_bits : Nat := 64

/-- Store `v[i] = x` in a vector kept as a map from index to value. -/
def assign {K : Type} (v : Nat → K) (i : Nat) (x : K) : Nat → K :=
  fun k => if k = i then x else v k

section Alignment

variable {R : Type} [Field R]

/-- The device `multiply_alignmentfactors(q)` leaves behind: every entry of
row `i` multiplied by `exp(i q·R)`, `R` the last post-alignment vector of frame
`myframes[i]`.  Identical text in both devices. -/
def multiply_alignmentfactors (M : Numerics R) (sample : Sample R) (d : Device R)
    (q : CartesianCoor3D R) : Except Fault (Device R) := do
  let a ← (List.range d.a.size1).foldlM
    (fun (a : ublas.matrix (Cplx R)) i =>
      if a.size2 < 1 then pure a
      else
        let iframe := d.myframes.getD i 0
        let avectors := sample.get_postalignmentvectors iframe
        match avectors.getLast? with
        | none => .error .empty_deref
        | some bigR =>
          let factor := M.exp ⟨0, q.dot bigR⟩
          pure ((List.range a.size2).foldl
            (fun a j => a.set i j (a.data i j * factor)) a))
    d.a
  pure { d with a := a }

/-- Accumulation `spectrum[csi] += thisspectrum[csi]` for `csi < NF`. -/
def add_spectrum (NF : Nat) (spectrum thisspectrum : List (Cplx R)) : List (Cplx R) :=
  (List.range NF).foldl
    (fun s csi => s.set csi (s.getD csi 0 + thisspectrum.getD csi 0)) spectrum

/-- The branch of `execute` after the kernel and the alignment, run with
`ncorr` as the bound of the correlation loop: the spectrum of rank `rank`.
Identical text in both devices, which both use `ncorr = 1 + 4*resolution`. -/
def reduce_frames (params : Params R) (NF ncorr : Nat) (devs : List (Device R))
    (rank : Nat) : Except Fault (List (Cplx R)) :=
  if params.correlation_type = "time" then
    if params.correlation_method = "direct" then
      (List.range ncorr).foldlM
        (fun spectrum i => do
          let thisspectrum ← correlate_frames NF params.zeromean devs i rank
          pure (add_spectrum NF spectrum thisspectrum))
        (List.replicate NF 0)
    else if params.correlation_method = "fftw" then
      .error .terminate
    else
      .error .terminate
  else
    gather_frames NF (devs.map fun d => { d with a := conjmultiply_frames d.a }) rank

end Alignment

/-! ## The cylindrical device `AllMCScatterDevice` -/

namespace AllMCScatterDevice

variable {R : Type} [LinearOrderedField R]

/-- The constructor on rank `rank` of a communicator of `NN` ranks: the
frames of the rank, the memory check (rank 0 only, a bare `throw` when it
fails) and the `myframes.size() × (1 + 4*resolution)` matrix. -/
def new (params : Params R) (sample : Sample R) (NN rank : Nat) : Except Fault (Device R) :=
  let nf := sample.NF
  let myframes := EvenDecompose.indexes_for nf NN rank
  let memusage_scatmat := (2 * sizeof_double * myframes.length * 1) % 2 ^ size_t_bits
  if rank = 0 ∧ memusage_scatmat > params.scattering_matrix then
    .error .terminate
  else
    .ok ⟨myframes, ublas.matrix.resize myframes.length (1 + 4 * params.resolution)⟩

/-- The four coefficient vectors `A, B, C, D` of the kernel. -/
structure Coefficients (R : Type) where
  A : Nat → Cplx R
  B : Nat → Cplx R
  C : Nat → Cplx R
  D : Nat → Cplx R

/-- The sign factor `parallel_sign` of an atom at height `z`, in exact
arithmetic.  It is what the source computes in `double` arithmetic whenever
the product `abs(z)*abs(qz)` rounds to a finite non-zero double, and only
then: when the product of two non-zero doubles rounds to zero or to infinity,
the source divides `0/0` or `inf/inf` and its `parallel_sign` is not-a-number
(`binary64.parallel_sign`, the same lines in `double` arithmetic). -/
def parallel_sign (z qz : R) : R :=
  if z ≠ 0 ∧ qz ≠ 0 then (z * qz) / (|z| * |qz|) else 1

/-- One pass of the atom loop of `scatter_frame_norm1` (atom `j`). -/
def accumulate_atom (M : Numerics R) (lmax : Nat) (cs : CoordinateSet R) (sfs : List R)
    (qr qz : R) (acc : Coefficients R) (j : Nat) : Coefficients R :=
  let r := cs.c1.getD j 0
  let phi := cs.c2.getD j 0
  let z := cs.c3.getD j 0
  let esf := sfs.getD j 0
  let psiphi := phi
  let expi := M.exp ⟨0, parallel_sign z qz * z * qz⟩
  let acc0 : Coefficients R :=
    { acc with
      A := (assign acc.A 0
        (acc.A 0 + expi * Cplx.ofReal (M.cyl_bessel_j 0 (r * qr)) * Cplx.ofReal esf)) }
  (List.range' 1 lmax).foldl
    (fun acc l =>
      let fac1 : Cplx R := Cplx.ofReal (2 * (-1) ^ l * M.cyl_bessel_j (2 * l) (r * qr))
      let fac2 : Cplx R :=
        Cplx.I * Cplx.ofReal (2 * (-1) ^ (l - 1) * M.cyl_bessel_j (2 * l - 1) (r * qr))
      { A := (assign acc.A l
          (acc.A l + fac1 * expi * Cplx.ofReal (M.cos ((2 * l : R) * psiphi)) * Cplx.ofReal esf)),
        B := (assign acc.B l
          (acc.B l + fac1 * expi * Cplx.ofReal (M.sin ((2 * l : R) * psiphi)) * Cplx.ofReal esf)),
        C := (assign acc.C l
          (acc.C l + fac2 * expi * Cplx.ofReal (M.cos ((2 * l - 1 : R) * psiphi)) * Cplx.ofReal esf)),
        D := (assign acc.D l
          (acc.D l + fac2 * expi * Cplx.ofReal (M.sin ((2 * l - 1 : R) * psiphi)) * Cplx.ofReal esf)) })
    acc0

/-- The vectors `A, B, C, D` after the atom loop of `scatter_frame_norm1` for
the coordinate set of frame `frame`. -/
def coefficients (M : Numerics R) (params : Params R) (sample : Sample R)
    (q : CartesianCoor3D R) (frame : Nat) : Coefficients R :=
  let noa := sample.noa
  let cs := sample.load frame
  let sfs := sample.get_all q
  let lmax := params.resolution
  let o := params.axis.div (params.axis.length M)
  let qparallel := CartesianCoor3D.smul (o.dot q) o
  let qperpenticular := q.sub qparallel
  let qr := qperpenticular.length M
  let qz := qparallel.length M
  (List.range noa).foldl (accumulate_atom M lmax cs sfs qr qz)
    { A := fun _ => 0, B := fun _ => 0, C := fun _ => 0, D := fun _ => 0 }

/-- The matrix after `scatter_frame_norm1(iframe, q)`: the coefficients of
frame `myframes[iframe]` stored in row `iframe`. -/
def scatter_frame_norm1 (M : Numerics R) (params : Params R) (sample : Sample R)
    (d : Device R) (iframe : Nat) (q : CartesianCoor3D R) : Except Fault (Device R) := do
  let lmax := params.resolution
  let co := coefficients M params sample q (d.myframes.getD iframe 0)
  let a0 ← d.a.write iframe 0 (co.A 0)
  let a ← (List.range' 1 lmax).foldlM
    (fun (a : ublas.matrix (Cplx R)) l => do
      let a1 ← a.write iframe ((l - 1) * 4 + 1) (Cplx.ofReal (M.sqrt (1 / 2)) * co.A l)
      let a2 ← a1.write iframe ((l - 1) * 4 + 2) (Cplx.ofReal (M.sqrt (1 / 2)) * co.B l)
      let a3 ← a2.write iframe ((l - 1) * 4 + 3) (Cplx.ofReal (M.sqrt (1 / 2)) * co.C l)
      a3.write iframe ((l - 1) * 4 + 4) (Cplx.ofReal (M.sqrt (1 / 2)) * co.D l))
    a0
  pure { d with a := a }

/-- The device after `scatter_frames_norm1(q)`: the kernel run for every row. -/
def scatter_frames_norm1 (M : Numerics R) (params : Params R) (sample : Sample R)
    (d : Device R) (q : CartesianCoor3D R) : Except Fault (Device R) :=
  (List.range d.myframes.length).foldlM
    (fun d i => scatter_frame_norm1 M params sample d i q) d

/-- The spectrum `m_spectrum` of rank `rank` after `execute(q)` has run on
every rank of the communicator (`devs` lists the devices by rank). -/
def execute (M : Numerics R) (params : Params R) (sample : Sample R)
    (devs : List (Device R)) (q : CartesianCoor3D R) (rank : Nat) :
    Except Fault (List (Cplx R)) := do
  let devs1 ← devs.mapM fun d => scatter_frames_norm1 M params sample d q
  let devs2 ← (if params.center then
      devs1.mapM fun d => multiply_alignmentfactors M sample d q
    else pure devs1)
  reduce_frames params sample.NF (1 + 4 * params.resolution) devs2 rank

end AllMCScatterDevice

/-! ## The spherical device `AllMSScatterDevice` -/

namespace AllMSScatterDevice

variable {R : Type} [LinearOrderedField R]

/-- The values `m = -l, …, l` of the inner loops, in loop order. -/
def orders (l : Nat) : List Int :=
  (List.range (2 * l + 1)).map fun (k : Nat) => (k : Int) - (l : Int)

/-- The column count `maxoffset` the constructor counts with its two loops. -/
def maxoffset (lmax : Nat) : Nat :=
  (List.range (lmax + 1)).foldl
    (fun offset l => (orders l).foldl (fun offset _ => offset + 1) offset) 0

/-- The constructor on rank `rank` of a communicator of `NN` ranks: the
frames of the rank, the memory check (rank 0 only, a bare `throw` when it
fails) and the `myframes.size() × maxoffset` matrix. -/
def new (params : Params R) (sample : Sample R) (NN rank : Nat) : Except Fault (Device R) :=
  let nf := sample.NF
  let myframes := EvenDecompose.indexes_for nf NN rank
  let memusage_scatmat := (2 * sizeof_double * myframes.length * 1) % 2 ^ size_t_bits
  if rank = 0 ∧ memusage_scatmat > params.scattering_matrix then
    .error .terminate
  else
    .ok ⟨myframes, ublas.matrix.resize myframes.length (maxoffset params.resolution)⟩

/-- The vector of vectors `almv`, kept as a map from the two indices to the
value: `entry l k` is `almv[l][k]`. -/
structure Table (R : Type) where
  entry : Nat → Nat → Cplx R

/-- Store `almv[l][k] = x`. -/
def assign2 (almv : Table R) (l k : Nat) (x : Cplx R) : Table R :=
  ⟨fun l2 k2 => if l2 = l ∧ k2 = k then x else almv.entry l2 k2⟩

/-- One pass of the atom loop of `scatter_frame_norm1` (atom `j`). -/
def accumulate_atom (M : Numerics R) (lmax : Nat) (cs : CoordinateSet R) (sfs : List R)
    (ql : R) (almv : Table R) (j : Nat) : Table R :=
  let r := cs.c1.getD j 0
  let phi := cs.c2.getD j 0
  let theta := cs.c3.getD j 0
  let esf := sfs.getD j 0
  let M_PI_four := 4 * M.pi
  (List.range (lmax + 1)).foldl
    (fun almv l =>
      let fmpiilesf : Cplx R := Cplx.ofReal M_PI_four * Cplx.I ^ l * Cplx.ofReal esf
      let aabess := M.sph_bessel l (ql * r)
      (orders l).foldl
        (fun almv (m : Int) =>
          let aa := Cplx.conj (M.spherical_harmonic l m theta phi)
          assign2 almv l (m + (l : Int)).toNat
            (almv.entry l (m + (l : Int)).toNat + fmpiilesf * Cplx.ofReal aabess * aa))
        almv)
    almv

/-- The vector of vectors `almv` after the atom loop of `scatter_frame_norm1`
for the coordinate set of frame `frame`. -/
def almv (M : Numerics R) (params : Params R) (sample : Sample R)
    (q : CartesianCoor3D R) (frame : Nat) : Table R :=
  let noa := sample.noa
  let cs := sample.load frame
  let sfs := sample.get_all q
  let lmax := params.resolution
  let ql := q.length M
  (List.range noa).foldl (accumulate_atom M lmax cs sfs ql) ⟨fun _ _ => 0⟩

/-- The matrix after `scatter_frame_norm1(iframe, q)`: `almv[l][m+l] / sqrt(4π)`
stored in row `iframe` at the running `offset`. -/
def scatter_frame_norm1 (M : Numerics R) (params : Params R) (sample : Sample R)
    (d : Device R) (iframe : Nat) (q : CartesianCoor3D R) : Except Fault (Device R) := do
  let lmax := params.resolution
  let M_PI_four := 4 * M.pi
  let v := almv M params sample q (d.myframes.getD iframe 0)
  let (a, _) ← (List.range (lmax + 1)).foldlM
    (fun (st : ublas.matrix (Cplx R) × Nat) l =>
      (orders l).foldlM
        (fun (st : ublas.matrix (Cplx R) × Nat) m => do
          let a ← st.1.write iframe st.2
            (Cplx.divReal (v.entry l (m + (l : Int)).toNat) (M.sqrt M_PI_four))
          pure (a, st.2 + 1))
        st)
    (d.a, 0)
  pure { d with a := a }

/-- The device after `scatter_frames_norm1(q)`: the kernel run for every row. -/
def scatter_frames_norm1 (M : Numerics R) (params : Params R) (sample : Sample R)
    (d : Device R) (q : CartesianCoor3D R) : Except Fault (Device R) :=
  (List.range d.myframes.length).foldlM
    (fun d i => scatter_frame_norm1 M params sample d i q) d

/-- The spectrum `m_spectrum` of rank `rank` after `execute(q)` has run on
every rank of the communicator (`devs` lists the devices by rank).  The
correlation loop runs to `1 + 4*resolution`, as in the cylindrical device. -/
def execute (M : Numerics R) (params : Params R) (sample : Sample R)
    (devs : List (Device R)) (q : CartesianCoor3D R) (rank : Nat) :
    Except Fault (List (Cplx R)) := do
  let devs1 ← devs.mapM fun d => scatter_frames_norm1 M params sample d q
  let devs2 ← (if params.center then
      devs1.mapM fun d => multiply_alignmentfactors M sample d q
    else pure devs1)
  reduce_frames params sample.NF (1 + 4 * params.resolution) devs2 rank

end AllMSScatterDevice

/-! ## Reference quantities the properties are stated with -/

section Reference

variable {R : Type} [Field R]

/-- Sum of `a(i,c) * conj(a(i,c))` over all columns `c` of row `i`. -/
def row_norm2 (a : ublas.matrix (Cplx R)) (i : Nat) : Cplx R :=
  ∑ c in Finset.range a.size2, a.data i c * Cplx.conj (a.data i c)

/-- The vector `local_A` when no read faults. -/
def local_A_ok (d : Device R) (mpindex maxCSsize : Nat) : List (Cplx R) :=
  (List.range d.myframes.length).foldl
    (fun acc ci => acc.set ci (d.a.data ci mpindex)) (List.replicate maxCSsize 0)

/-- Row `i` of `a` with every entry multiplied by `factor`. -/
def scale_row (factor : Cplx R) (a : ublas.matrix (Cplx R)) (i : Nat) : ublas.matrix (Cplx R) :=
  (List.range a.size2).foldl (fun a j => a.set i j (a.data i j * factor)) a

/-- The phase factor `exp(i q·R)` of local row `i`: `R` is the last
post-alignment vector of frame `myframes[i]` (zero vector if there is none). -/
def alignment_factor (M : Numerics R) (sample : Sample R) (myframes : List Nat)
    (q : CartesianCoor3D R) (i : Nat) : Cplx R :=
  M.exp ⟨0, q.dot ((sample.get_postalignmentvectors (myframes.getD i 0)).getLastD ⟨0, 0, 0⟩)⟩

/-- The devices `devs` of a communicator of `NN` ranks hold the per-frame
values `v` in column `col`: rank `r` owns the frames `EvenDecompose` assigns
to it, its matrix has one row per owned frame and a column `col`, and row `j`
holds in that column the value of the frame at position `j`. -/
def HoldsColumn (NF NN col : Nat) (v : Nat → Cplx R) (devs : List (Device R)) : Prop :=
  devs.map (fun d => d.myframes) = (List.range NN).map (EvenDecompose.indexes_for NF NN) ∧
  ∀ d ∈ devs, d.a.size1 = d.myframes.length ∧ col < d.a.size2 ∧
    ∀ j, j < d.myframes.length → d.a.data j col = v (d.myframes.getD j 0)

/-- The autocorrelation the direct method is specified to produce at lag
`tau` for the global series `A 0, …, A (NF-1)`:
`(1/(NF-tau)) * Σ_{k < NF-tau} conj(A k - mu) * (A (k+tau) - mu)`, with `mu = 0`
or, for the zero-mean option, `mu = (1/NF) * Σ_k A k`. -/
def spec_autocorrelation (NF : Nat) (zeromean : Bool) (A : Nat → Cplx R) (tau : Nat) : Cplx R :=
  let mu : Cplx R :=
    if zeromean then Cplx.ofReal (1 / (NF : R)) * ∑ k in Finset.range NF, A k else 0
  Cplx.ofReal (1 / ((NF - tau : Nat) : R)) *
    ∑ k in Finset.range (NF - tau), Cplx.conj (A k - mu) * (A (k + tau) - mu)

/-- The phase factor `exp(i q·R)` of frame `f`: `R` is the last post-alignment
vector of the frame (zero vector if there is none). -/
def frame_factor (M : Numerics R) (sample : Sample R) (q : CartesianCoor3D R) (f : Nat) :
    Cplx R :=
  M.exp ⟨0, q.dot ((sample.get_postalignmentvectors f).getLastD ⟨0, 0, 0⟩)⟩

/-- The rows of device `d` hold the amplitudes `G`: the matrix has one row per
owned frame and `C` columns, and row `j` holds `G f c` in column `c`, `f`
being the frame at position `j`. -/
def RowsHold (C : Nat) (G : Nat → Nat → Cplx R) (d : Device R) : Prop :=
  d.a.size1 = d.myframes.length ∧ d.a.size2 = C ∧
  ∀ j c, j < d.myframes.length → c < C → d.a.data j c = G (d.myframes.getD j 0) c

/-- The devices `devs` of a communicator of `NN` ranks hold the global
`NF × C` amplitude matrix `G`, each rank its `EvenDecompose` block of rows. -/
def HoldsMatrix (NF NN C : Nat) (G : Nat → Nat → Cplx R) (devs : List (Device R)) : Prop :=
  devs.map (fun d => d.myframes) = (List.range NN).map (EvenDecompose.indexes_for NF NN) ∧
  ∀ d ∈ devs, RowsHold C G d

/-- The divisors `correlate_frames` uses on rank `rank`: `NF` in `1.0/NF` of the
mean (zero-mean option only), and `last_starting_frame = NF - tau` for every
lag `tau` of the rank. -/
def correlate_divisors (NF NN : Nat) (zeromean : Bool) (rank : Nat) : List Nat :=
  (if zeromean then [NF] else []) ++
    (RModuloDecompose.indexes_for NF NN rank).map fun tau => NF - tau

/-- The devices `devs` with the constant `c` added to every entry of their
matrices. -/
def shifted_devs (c : Cplx R) (devs : List (Device R)) : List (Device R) :=
  devs.map fun d => ⟨d.myframes, ⟨d.a.size1, d.a.size2, fun i j => d.a.data i j + c⟩⟩

/-- The devices of `NN` ranks for `NF` frames whose one column holds the same
value `c` in every row. -/
def constant_devs (NF NN : Nat) (c : Cplx R) : List (Device R) :=
  (List.range NN).map fun r =>
    ⟨EvenDecompose.indexes_for NF NN r,
      ⟨(EvenDecompose.indexes_for NF NN r).length, 1, fun _ _ => c⟩⟩

end Reference

section CylinderReference

variable {R : Type} [LinearOrderedField R]

/-- The factor `expi` of atom `j` in the cylindrical kernel. -/
def cyl_expi (M : Numerics R) (cs : CoordinateSet R) (qz : R) (j : Nat) : Cplx R :=
  M.exp ⟨0, AllMCScatterDevice.parallel_sign (cs.c3.getD j 0) qz * cs.c3.getD j 0 * qz⟩

/-- What atom `j` adds to `A[k]` in the cylindrical kernel. -/
def cyl_term_A (M : Numerics R) (lmax : Nat) (cs : CoordinateSet R) (sfs : List R)
    (qr qz : R) (j k : Nat) : Cplx R :=
  if k = 0 then
    cyl_expi M cs qz j * Cplx.ofReal (M.cyl_bessel_j 0 (cs.c1.getD j 0 * qr))
      * Cplx.ofReal (sfs.getD j 0)
  else if k ≤ lmax then
    Cplx.ofReal (2 * (-1) ^ k * M.cyl_bessel_j (2 * k) (cs.c1.getD j 0 * qr))
      * cyl_expi M cs qz j * Cplx.ofReal (M.cos ((2 * k : R) * cs.c2.getD j 0))
      * Cplx.ofReal (sfs.getD j 0)
  else 0

/-- What atom `j` adds to `B[k]` in the cylindrical kernel. -/
def cyl_term_B (M : Numerics R) (lmax : Nat) (cs : CoordinateSet R) (sfs : List R)
    (qr qz : R) (j k : Nat) : Cplx R :=
  if 1 ≤ k ∧ k ≤ lmax then
    Cplx.ofReal (2 * (-1) ^ k * M.cyl_bessel_j (2 * k) (cs.c1.getD j 0 * qr))
      * cyl_expi M cs qz j * Cplx.ofReal (M.sin ((2 * k : R) * cs.c2.getD j 0))
      * Cplx.ofReal (sfs.getD j 0)
  else 0

/-- What atom `j` adds to `C[k]` in the cylindrical kernel. -/
def cyl_term_C (M : Numerics R) (lmax : Nat) (cs : CoordinateSet R) (sfs : List R)
    (qr qz : R) (j k : Nat) : Cplx R :=
  if 1 ≤ k ∧ k ≤ lmax then
    Cplx.I * Cplx.ofReal (2 * (-1) ^ (k - 1) * M.cyl_bessel_j (2 * k - 1) (cs.c1.getD j 0 * qr))
      * cyl_expi M cs qz j * Cplx.ofReal (M.cos ((2 * k - 1 : R) * cs.c2.getD j 0))
      * Cplx.ofReal (sfs.getD j 0)
  else 0

/-- What atom `j` adds to `D[k]` in the cylindrical kernel. -/
def cyl_term_D (M : Numerics R) (lmax : Nat) (cs : CoordinateSet R) (sfs : List R)
    (qr qz : R) (j k : Nat) : Cplx R :=
  if 1 ≤ k ∧ k ≤ lmax then
    Cplx.I * Cplx.ofReal (2 * (-1) ^ (k - 1) * M.cyl_bessel_j (2 * k - 1) (cs.c1.getD j 0 * qr))
      * cyl_expi M cs qz j * Cplx.ofReal (M.sin ((2 * k - 1 : R) * cs.c2.getD j 0))
      * Cplx.ofReal (sfs.getD j 0)
  else 0

/-- The multipole axis scaled to unit length, `o / o.length()`. -/
def unit_axis (M : Numerics R) (params : Params R) : CartesianCoor3D R :=
  params.axis.div (params.axis.length M)

/-- Component of `q` along the unit axis. -/
def q_par (M : Numerics R) (params : Params R) (q : CartesianCoor3D R) : R :=
  (unit_axis M params).dot q

/-- Length of what remains of `q` once its part along the axis is taken off. -/
def q_perp (M : Numerics R) (params : Params R) (q : CartesianCoor3D R) : R :=
  (q.sub (CartesianCoor3D.smul (q_par M params q) (unit_axis M params))).length M

/-- The value the cylindrical kernel stores in column `c` of the row of frame
`frame`: `A[0]` for `c = 0`, and for `c = 4(l-1) + 1 + w` with `w = 0, 1, 2, 3`
the product of `sqrt(0.5)` with `A[l]`, `B[l]`, `C[l]`, `D[l]`. -/
def cyl_entry (M : Numerics R) (params : Params R) (sample : Sample R)
    (q : CartesianCoor3D R) (frame c : Nat) : Cplx R :=
  if c = 0 then (AllMCScatterDevice.coefficients M params sample q frame).A 0
  else if (c - 1) % 4 = 0 then
    Cplx.ofReal (M.sqrt (1 / 2))
      * (AllMCScatterDevice.coefficients M params sample q frame).A ((c - 1) / 4 + 1)
  else if (c - 1) % 4 = 1 then
    Cplx.ofReal (M.sqrt (1 / 2))
      * (AllMCScatterDevice.coefficients M params sample q frame).B ((c - 1) / 4 + 1)
  else if (c - 1) % 4 = 2 then
    Cplx.ofReal (M.sqrt (1 / 2))
      * (AllMCScatterDevice.coefficients M params sample q frame).C ((c - 1) / 4 + 1)
  else
    Cplx.ofReal (M.sqrt (1 / 2))
      * (AllMCScatterDevice.coefficients M params sample q frame).D ((c - 1) / 4 + 1)

/-- The devices `devs` of a communicator of `NN` ranks as the constructors
leave them: rank `r` owns the frames `EvenDecompose` assigns to it and its
matrix has one row per owned frame and `C` columns. -/
def Staged (NF NN C : Nat) (devs : List (Device R)) : Prop :=
  devs.map (fun d => d.myframes) = (List.range NN).map (EvenDecompose.indexes_for NF NN) ∧
  ∀ d ∈ devs, d.a.size1 = d.myframes.length ∧ d.a.size2 = C

/-- The amplitude of frame `f` in column `c` that the cylindrical device
reduces: the kernel's entry, times the alignment phase of the frame when
`scattering.center` is set. -/
def cyl_amplitude (M : Numerics R) (params : Params R) (sample : Sample R)
    (q : CartesianCoor3D R) (f c : Nat) : Cplx R :=
  if params.center then cyl_entry M params sample q f c * frame_factor M sample q f
  else cyl_entry M params sample q f c

/-- What atom `j` adds to `almv[l][m+l]` in the spherical kernel. -/
def sph_term (M : Numerics R) (cs : CoordinateSet R) (sfs : List R) (ql : R)
    (j l : Nat) (m : Int) : Cplx R :=
  Cplx.ofReal (4 * M.pi) * Cplx.I ^ l * Cplx.ofReal (sfs.getD j 0)
    * Cplx.ofReal (M.sph_bessel l (ql * cs.c1.getD j 0))
    * Cplx.conj (M.spherical_harmonic l m (cs.c3.getD j 0) (cs.c2.getD j 0))

/-- The value the spherical kernel stores in column `c` of the row of frame
`frame`: with `l = ⌊√c⌋` and `k = c - l²`, the entry `almv[l][k] / sqrt(4π)`. -/
def sph_entry (M : Numerics R) (params : Params R) (sample : Sample R)
    (q : CartesianCoor3D R) (frame c : Nat) : Cplx R :=
  Cplx.divReal
    ((AllMSScatterDevice.almv M params sample q frame).entry (Nat.sqrt c)
      (c - Nat.sqrt c * Nat.sqrt c))
    (M.sqrt (4 * M.pi))

/-- The function `M.sqrt` is the square root on the non-negative numbers. -/
def IsSqrt (M : Numerics R) : Prop :=
  ∀ x : R, 0 ≤ x → 0 ≤ M.sqrt x ∧ M.sqrt x * M.sqrt x = x

/-- The amplitude of frame `f` in column `c` that the spherical device
reduces: the kernel's entry, times the alignment phase of the frame when
`scattering.center` is set. -/
def sph_amplitude (M : Numerics R) (params : Params R) (sample : Sample R)
    (q : CartesianCoor3D R) (f c : Nat) : Cplx R :=
  if params.center then sph_entry M params sample q f c * frame_factor M sample q f
  else sph_entry M params sample q f c

/-- The function `sinc(x) = sin(x)/x` with `sinc(0) = 1`. -/
def sinc (M : Numerics R) (x : R) : R :=
  if x = 0 then 1 else M.sin x / x

/-- The isotropic average as the specification words it, for atoms at the
positions `r_j` with factors `f_j`:
`I(|q|) = Σ_j Σ_k f_j f_k sinc(|q| · |r_j − r_k|)`. -/
def spec_isotropic (M : Numerics R) (positions : List (CartesianCoor3D R)) (f : List R)
    (q : CartesianCoor3D R) : R :=
  ∑ j in Finset.range positions.length, ∑ k in Finset.range positions.length,
    f.getD j 0 * f.getD k 0 *
      sinc M (q.length M *
        ((positions.getD j ⟨0, 0, 0⟩).sub (positions.getD k ⟨0, 0, 0⟩)).length M)

end CylinderReference


/-! ## The test program `unit_broadcast` -/

namespace unit_broadcast

/-- The exception classes the three handlers of `main` tell apart:
`boost::exception`, `std::exception`, and anything else (`catch (...)`). -/
inductive Raised where
  | boost_exception
  | std_exception
  | unknown
deriving DecidableEq

/-- What a rank does in `main`, in program order: the `try` block with
`params->init`, `database->init`, `sample.init`; the broadcast of `initstatus`;
the barriers; the three `broadcast_class` calls. -/
inductive Step where
  | initialization
  | broadcast_initstatus
  | barrier
  | broadcast_params
  | broadcast_database
  | broadcast_sample
deriving DecidableEq

/-- The collective `broadcast(world, &value, 1, root)`: every rank ends with the
value of rank `root` (`values` lists the ranks' values before the call). -/
def broadcast (values : List Bool) (root : Nat) : List Bool :=
  values.map fun _ => values.getD root true

/-- The flag `initstatus` of rank `rank` before the broadcast: `true`, cleared
on rank 0 by the handler that catches what the `try` block raised. -/
def initstatus (raised : Option Raised) (rank : Nat) : Bool :=
  if rank = 0 then
    match raised with
    | none => true
    | some .boost_exception => false
    | some .std_exception => false
    | some .unknown => false
  else true

/-- Exit code and steps of rank `rank` of `main` in a world of `size` ranks,
when the initialisation on rank 0 raised `raised` (`none`: it returned).  A
rank that passes the test of `initstatus` runs to the end of `main`, which
returns 0; the calls `mpi::wrapper::broadcast_class` and `world.barrier()` on
the way are taken to complete. -/
def main (size : Nat) (raised : Option Raised) (rank : Nat) : Nat × List Step :=
  let start := if rank = 0 then [Step.initialization] else []
  let after := broadcast ((List.range size).map (initstatus raised)) 0
  if !(after.getD rank true) then
    (1, start ++ [Step.broadcast_initstatus])
  else
    (0, start ++ [Step.broadcast_initstatus, Step.barrier, Step.broadcast_params, Step.barrier,
      Step.broadcast_database, Step.barrier, Step.broadcast_sample, Step.barrier])

end unit_broadcast

/-! ## The queue `concurrent_queue` (one thread) -/

/-- The class `concurrent_queue<Data>` as one thread sees it: its
`std::queue<Data> the_queue`, oldest element first.  The mutex and the
condition variable have no state of their own for a single thread. -/
structure concurrent_queue (Data : Type) where
  the_queue : List Data

namespace concurrent_queue

variable {Data : Type}

/-- The call `push(data)`: `the_queue.push(data)`. -/
def push (q : concurrent_queue Data) (data : Data) : concurrent_queue Data :=
  ⟨q.the_queue ++ [data]⟩

/-- The call `empty()`: `the_queue.empty()`. -/
def empty (q : concurrent_queue Data) : Bool :=
  q.the_queue.isEmpty

/-- The call `size()`: `the_queue.size()`. -/
def size (q : concurrent_queue Data) : Nat :=
  q.the_queue.length

/-- The call `try_pop(popped_value)`: the value returned, the queue and the
output argument afterwards. -/
def try_pop (q : concurrent_queue Data) (popped_value : Data) :
    Bool × concurrent_queue Data × Data :=
  match q.the_queue with
  | [] => (false, q, popped_value)
  | front :: rest => (true, ⟨rest⟩, front)

/-- The call `wait_and_pop(popped_value)`: the queue and the output argument
afterwards.  With one thread nothing can push while the caller waits on the
condition variable, so on an empty queue the call does not return (`none`). -/
def wait_and_pop (q : concurrent_queue Data) (_popped_value : Data) :
    Option (concurrent_queue Data × Data) :=
  match q.the_queue with
  | [] => none
  | front :: rest => some (⟨rest⟩, front)

/-- A call of one of the three operations that change the queue. -/
inductive Call (Data : Type) where
  | push (data : Data)
  | try_pop
  | wait_and_pop

/-- The thread that runs a sequence of calls: the queue, its variable
`popped_value`, the values pushed and the values popped so far, and whether it
is stuck in a `wait_and_pop`. -/
structure Thread (Data : Type) where
  queue : concurrent_queue Data
  popped_value : Data
  pushed : List Data
  popped : List Data
  waiting : Bool

/-- The thread before its first call: an empty queue. -/
def Thread.start (popped_value : Data) : Thread Data :=
  ⟨⟨[]⟩, popped_value, [], [], false⟩

/-- The thread after one more call; a thread stuck in `wait_and_pop` makes no
further calls. -/
def Thread.step (t : Thread Data) (c : Call Data) : Thread Data :=
  if t.waiting then t
  else
    match c with
    | .push data => { t with queue := t.queue.push data, pushed := t.pushed ++ [data] }
    | .try_pop =>
      match t.queue.try_pop t.popped_value with
      | (true, q, v) => { t with queue := q, popped_value := v, popped := t.popped ++ [v] }
      | (false, q, v) => { t with queue := q, popped_value := v }
    | .wait_and_pop =>
      match t.queue.wait_and_pop t.popped_value with
      | some (q, v) => { t with queue := q, popped_value := v, popped := t.popped ++ [v] }
      | none => { t with waiting := true }

/-- The thread after the calls `calls`, made one after the other. -/
def Thread.run (calls : List (Call Data)) (t : Thread Data) : Thread Data :=
  calls.foldl Thread.step t

/-- The values the calls `calls` push, in order. -/
def pushes : List (Call Data) → List Data
  | [] => []
  | .push data :: rest => data :: pushes rest
  | _ :: rest => pushes rest

end concurrent_queue

/-! ## The arithmetic of `double` (IEEE 754 binary64, round to nearest even) -/

namespace binary64

/-- A value of type `double`: not-a-number, an infinity, or the finite number
`(-1)^neg * m * 2^e`.  A non-zero finite value has `2^52 ≤ m < 2^53` and
`-1074 ≤ e ≤ 971` (normal) or `m < 2^52` and `e = -1074` (subnormal); the
zeros are `m = 0`, `e = -1074`. -/
inductive Double where
  | nan
  | inf (neg : Bool)
  | finite (neg : Bool) (m : Nat) (e : Int)
deriving DecidableEq

/-- Number of binary digits of `m`, counted by halving (`fuel` bounds the
number of halvings). -/
def bits_loop : Nat → Nat → Nat
  | 0, _ => 0
  | fuel + 1, m => if m = 0 then 0 else bits_loop fuel (m / 2) + 1

/-- Number of binary digits of `m`. -/
def bits (m : Nat) : Nat :=
  bits_loop m m

/-- Mantissa and exponent of the double nearest to the exact number
`m * 2^e`, ties to the even mantissa: the result keeps 53 digits, or fewer
when the exponent would fall below `-1074` (gradual underflow, down to zero);
`none` when the result is beyond the largest double (overflow). -/
def round_magnitude (m : Nat) (e : Int) : Option (Nat × Int) :=
  let e2 := max (e + (bits m : Int) - 53) (-1074)
  let q :=
    if e2 ≤ e then m * 2 ^ (e - e2).toNat
    else
      let s := (e2 - e).toNat
      let q := m / 2 ^ s
      let r := m % 2 ^ s
      let half := 2 ^ (s - 1)
      if r > half ∨ (r = half ∧ q % 2 = 1) then q + 1 else q
  if q = 0 then some (0, -1074)
  else if q = 2 ^ 53 then (if e2 + 1 > 971 then none else some (2 ^ 52, e2 + 1))
  else if e2 > 971 then none
  else some (q, e2)

/-- The double nearest to the exact number `(-1)^neg * m * 2^e`: the rounded
magnitude with the sign, an infinity on overflow. -/
def round (neg : Bool) (m : Nat) (e : Int) : Double :=
  match round_magnitude m e with
  | none => .inf neg
  | some (q, e2) => .finite neg q e2

namespace Double

/-- The double `1.0`. -/
def one : Double := .finite false (2 ^ 52) (-52)

/-- Unary minus. -/
def neg : Double → Double
  | .nan => .nan
  | .inf n => .inf (!n)
  | .finite n m e => .finite (!n) m e

/-- The function `abs(double)`. -/
def abs : Double → Double
  | .nan => .nan
  | .inf _ => .inf false
  | .finite _ m e => .finite false m e

/-- The comparison `x != 0`. -/
def ne_zero : Double → Bool
  | .finite _ m _ => m != 0
  | _ => true

/-- The product `x * y`. -/
def mul : Double → Double → Double
  | .nan, _ => .nan
  | _, .nan => .nan
  | .inf n1, .inf n2 => .inf (xor n1 n2)
  | .inf n1, .finite n2 m _ => if m = 0 then .nan else .inf (xor n1 n2)
  | .finite n1 m _, .inf n2 => if m = 0 then .nan else .inf (xor n1 n2)
  | .finite n1 m1 e1, .finite n2 m2 e2 => round (xor n1 n2) (m1 * m2) (e1 + e2)

/-- The quotient `x / y`.  For finite non-zero operands the exact quotient is
cut after more than 64 digits, with one further digit that records whether
anything was cut off, and then rounded. -/
def div : Double → Double → Double
  | .nan, _ => .nan
  | _, .nan => .nan
  | .inf _, .inf _ => .nan
  | .inf n1, .finite n2 _ _ => .inf (xor n1 n2)
  | .finite n1 _ _, .inf n2 => .finite (xor n1 n2) 0 (-1074)
  | .finite n1 m1 e1, .finite n2 m2 e2 =>
    if m2 = 0 then (if m1 = 0 then .nan else .inf (xor n1 n2))
    else if m1 = 0 then .finite (xor n1 n2) 0 (-1074)
    else
      let k := 64 + bits m2
      let num := m1 * 2 ^ k
      round (xor n1 n2) (2 * (num / m2) + (if num % m2 = 0 then 0 else 1))
        (e1 - e2 - (k : Int) - 1)

end Double

/-- The sign factor `parallel_sign` of the cylindrical kernel as the source
computes it, in `double` arithmetic: `1.0`, replaced by
`(z*qz) / (abs(z)*abs(qz))` when `(z != 0) && (qz != 0)`. -/
def parallel_sign (z qz : Double) : Double :=
  if z.ne_zero && qz.ne_zero then (z.mul qz).div (z.abs.mul qz.abs) else Double.one

end binary64

/-! ## Concrete inputs -/

section Examples

/-- Two ranks sharing three frames: rank 0 owns frames 0 and 1, rank 1 owns
frame 2; two columns; frame `f` holds `(f+1) + c·i` in column `c`. -/
def example_devs : List (Device ℚ) :=
  [ { myframes := [0, 1], a := ⟨2, 2, fun i c => ⟨(i : ℚ) + 1, (c : ℚ)⟩⟩ },
    { myframes := [2], a := ⟨1, 2, fun _ c => ⟨3, (c : ℚ)⟩⟩ } ]

/-- The global series of column `c` of `example_devs`. -/
def example_series (c : Nat) : Nat → Cplx ℚ := fun f => ⟨(f : ℚ) + 1, (c : ℚ)⟩

/-- A 2 × 3 matrix with entries `(i+1) + (c+1)·i`. -/
def example_matrix : ublas.matrix (Cplx ℚ) := ⟨2, 3, fun i c => ⟨(i : ℚ) + 1, (c : ℚ) + 1⟩⟩

/-- Stand-ins over `ℚ` for the library functions (not the real ones: they
only serve to run the code on concrete inputs). -/
def example_numerics : Numerics ℚ :=
  { sqrt := fun x => x
    exp := fun z => ⟨1 - z.im, z.im⟩
    cos := fun x => 1 + x
    sin := fun x => x
    pi := 3
    cyl_bessel_j := fun n x => 1 + n + x
    sph_bessel := fun n x => 1 + n * x
    spherical_harmonic := fun l m theta phi => ⟨l + m, theta + phi⟩ }

/-- A sample of three frames and two selected atoms, one post-alignment
vector per frame. -/
def example_sample : Sample ℚ :=
  { NF := 3
    noa := 2
    load := fun f => ⟨[1, 2], [(f : ℚ), 1], [-1, (f : ℚ)]⟩
    get_postalignmentvectors := fun f => [⟨1, 0, (f : ℚ)⟩]
    get_all := fun _ => [1, 2] }

/-- Parameters with resolution `L`, correlation type `t` and method `m`,
centering `c`, axis `(0,0,1)` and a memory cap of `cap` bytes. -/
def example_params (L : Nat) (t m : String) (c : Bool) (cap : Nat) : Params ℚ :=
  { center := c
    correlation_type := t
    correlation_method := m
    zeromean := false
    resolution := L
    axis := ⟨0, 0, 1⟩
    scattering_matrix := cap }

/-- The devices of two ranks sharing three frames, as the constructors leave
them for a kernel with `C` columns. -/
def example_staged (C : Nat) : List (Device ℚ) :=
  [ ⟨[0, 1], ublas.matrix.resize 2 C⟩, ⟨[2], ublas.matrix.resize 1 C⟩ ]

/-- The scattering vector `(0, 0, 2)`. -/
def example_q : CartesianCoor3D ℚ := ⟨0, 0, 2⟩

/-- A sample of three frames whose selection is empty. -/
def example_empty_sample : Sample ℚ :=
  { NF := 3
    noa := 0
    load := fun _ => ⟨[], [], []⟩
    get_postalignmentvectors := fun _ => []
    get_all := fun _ => [] }

end Examples
/-! # Verified properties -/

/-! ## Complex arithmetic -/

namespace Cplx

variable {R : Type}

section Ring

variable [CommRing R]

@[simp] theorem zero_re : (0 : Cplx R).re = 0 := rfl
@[simp] theorem zero_im : (0 : Cplx R).im = 0 := rfl
@[simp] theorem one_re : (1 : Cplx R).re = 1 := rfl
@[simp] theorem one_im : (1 : Cplx R).im = 0 := rfl
@[simp] theorem add_re (z w : Cplx R) : (z + w).re = z.re + w.re := rfl
@[simp] theorem add_im (z w : Cplx R) : (z + w).im = z.im + w.im := rfl
@[simp] theorem neg_re (z : Cplx R) : (-z).re = -z.re := rfl
@[simp] theorem neg_im (z : Cplx R) : (-z).im = -z.im := rfl
@[simp] theorem sub_re (z w : Cplx R) : (z - w).re = z.re - w.re := rfl
@[simp] theorem sub_im (z w : Cplx R) : (z - w).im = z.im - w.im := rfl
@[simp] theorem mul_re (z w : Cplx R) : (z * w).re = z.re * w.re - z.im * w.im := rfl
@[simp] theorem mul_im (z w : Cplx R) : (z * w).im = z.re * w.im + z.im * w.re := rfl
@[simp] theorem ofReal_re (x : R) : (ofReal x).re = x := rfl
@[simp] theorem ofReal_im (x : R) : (ofReal x).im = 0 := rfl
@[simp] theorem I_re : (I : Cplx R).re = 0 := rfl
@[simp] theorem I_im : (I : Cplx R).im = 1 := rfl
@[simp] theorem conj_re (z : Cplx R) : (conj z).re = z.re := rfl
@[simp] theorem conj_im (z : Cplx R) : (conj z).im = -z.im := rfl
@[simp] theorem scale_re (z : Cplx R) (x : R) : (scale z x).re = z.re * x := rfl
@[simp] theorem scale_im (z : Cplx R) (x : R) : (scale z x).im = z.im * x := rfl

theorem scale_eq_mul (z : Cplx R) (x : R) : scale z x = z * ofReal x := by
  ext <;> simp

end Ring

section Field

variable [Field R]

@[simp] theorem divReal_re (z : Cplx R) (x : R) : (divReal z x).re = z.re / x := rfl
@[simp] theorem divReal_im (z : Cplx R) (x : R) : (divReal z x).im = z.im / x := rfl

theorem divReal_eq_mul (z : Cplx R) (x : R) : divReal z x = ofReal (1 / x) * z := by
  ext <;> simp <;> ring

end Field

end Cplx

/-! ## Lemmas: matrices and the static fold -/

section FoldLemmas

variable {R : Type} [Field R]

namespace ublas.matrix

variable {K : Type}

@[simp] theorem set_size1 (a : ublas.matrix K) (i j : Nat) (v : K) :
    (a.set i j v).size1 = a.size1 := rfl

@[simp] theorem set_size2 (a : ublas.matrix K) (i j : Nat) (v : K) :
    (a.set i j v).size2 = a.size2 := rfl

theorem set_data (a : ublas.matrix K) (i j : Nat) (v : K) (i2 j2 : Nat) :
    (a.set i j v).data i2 j2 = if i2 = i ∧ j2 = j then v else a.data i2 j2 := rfl

end ublas.matrix

theorem conjmultiply_inner (i : Nat) (js : List Nat) (hjs : ∀ j ∈ js, j ≠ 0)
    (acc : ublas.matrix (Cplx R)) :
    (js.foldl
      (fun acc j => acc.set i 0 (acc.data i 0 + acc.data i j * Cplx.conj (acc.data i j)))
      acc)
    = acc.set i 0
        (acc.data i 0 + (js.map fun j => acc.data i j * Cplx.conj (acc.data i j)).sum) := by
  induction js generalizing acc with
  | nil =>
    cases acc with
    | mk s1 s2 d =>
      simp only [List.foldl_nil, List.map_nil, List.sum_nil, add_zero, ublas.matrix.set]
      congr 1
      funext i2 j2
      by_cases h : i2 = i ∧ j2 = 0
      · simp [h.1, h.2]
      · simp [h]
  | cons j js ih =>
    have hj : j ≠ 0 := hjs j (List.mem_cons_self _ _)
    have hjs2 : ∀ k ∈ js, k ≠ 0 := fun k hk => hjs k (List.mem_cons_of_mem _ hk)
    rw [List.foldl_cons, ih hjs2]
    cases acc with
    | mk s1 s2 d =>
      simp only [ublas.matrix.set, List.map_cons, List.sum_cons]
      congr 1
      funext i2 j2
      by_cases h : i2 = i ∧ j2 = 0
      · simp only [h, and_self, if_true, true_and]
        have hmap : (js.map fun k =>
            (if k = 0 then d i 0 + d i j * Cplx.conj (d i j) else d i k) *
              Cplx.conj (if k = 0 then d i 0 + d i j * Cplx.conj (d i j) else d i k))
            = js.map fun k => d i k * Cplx.conj (d i k) := by
          apply List.map_congr_left
          intro k hk
          simp [hjs2 k hk]
        rw [hmap]
        ring
      · simp [h]

theorem sum_map_range' (f : Nat → Cplx R) (n : Nat) :
    ((List.range' 1 n).map f).sum = ∑ c in Finset.range n, f (c + 1) := by
  induction n with
  | zero => simp
  | succ n ih =>
    rw [List.range'_1_concat, List.map_append, List.sum_append, ih, Finset.sum_range_succ]
    simp [add_comm]

theorem conjmultiply_row_eq (a : ublas.matrix (Cplx R)) (i : Nat) (h : 1 ≤ a.size2) :
    conjmultiply_row a i = a.set i 0 (row_norm2 a i) := by
  unfold conjmultiply_row
  rw [if_neg (by omega)]
  rw [conjmultiply_inner i _ (by
    intro j hj
    rw [List.mem_range'_1] at hj
    omega)]
  have hsum : ((List.range' 1 (a.size2 - 1)).map fun j =>
      (a.set i 0 (a.data i 0 * Cplx.conj (a.data i 0))).data i j *
        Cplx.conj ((a.set i 0 (a.data i 0 * Cplx.conj (a.data i 0))).data i j))
      = (List.range' 1 (a.size2 - 1)).map fun j => a.data i j * Cplx.conj (a.data i j) := by
    apply List.map_congr_left
    intro j hj
    rw [List.mem_range'_1] at hj
    have : j ≠ 0 := by omega
    simp [ublas.matrix.set_data, this]
  rw [hsum, sum_map_range']
  have hrow : row_norm2 a i
      = a.data i 0 * Cplx.conj (a.data i 0)
        + ∑ c in Finset.range (a.size2 - 1), a.data i (c + 1) * Cplx.conj (a.data i (c + 1)) := by
    unfold row_norm2
    obtain ⟨n, hn⟩ : ∃ n, a.size2 = n + 1 := ⟨a.size2 - 1, by omega⟩
    rw [hn, Finset.sum_range_succ', add_comm]
    simp
  rw [hrow]
  cases a with
  | mk s1 s2 d =>
    simp only [ublas.matrix.set]
    congr 1
    funext i2 j2
    by_cases h2 : i2 = i ∧ j2 = 0
    · simp [h2]
    · simp [h2]

theorem conjmultiply_rows (a : ublas.matrix (Cplx R)) (h : 1 ≤ a.size2) (n : Nat) :
    ((List.range n).foldl conjmultiply_row a).size1 = a.size1 ∧
    ((List.range n).foldl conjmultiply_row a).size2 = a.size2 ∧
    ∀ i j, ((List.range n).foldl conjmultiply_row a).data i j
      = if i < n ∧ j = 0 then row_norm2 a i else a.data i j := by
  induction n with
  | zero => simp
  | succ n ih =>
    obtain ⟨h1, h2, h3⟩ := ih
    rw [List.range_succ, List.foldl_append, List.foldl_cons, List.foldl_nil]
    rw [conjmultiply_row_eq _ _ (by omega)]
    refine ⟨by simpa using h1, by simpa using h2, ?_⟩
    intro i j
    rw [ublas.matrix.set_data]
    by_cases hi : i = n ∧ j = 0
    · obtain ⟨rfl, rfl⟩ := hi
      simp only [and_self, if_true, Nat.lt_succ_self]
      unfold row_norm2
      rw [h2]
      apply Finset.sum_congr rfl
      intro c _
      rw [h3]
      simp
    · rw [if_neg hi, h3]
      by_cases hj : j = 0
      · have : i ≠ n := fun hh => hi ⟨hh, hj⟩
        have h4 : (i < n + 1) = (i < n) := by
          apply propext
          omega
        simp [hj, h4]
      · simp [hj]

end FoldLemmas


section TransportLemmas

variable {R : Type}

theorem length_flatten (l : List (Cplx R)) : (flatten l).length = 2 * l.length := by
  induction l with
  | nil => rfl
  | cons z zs ih => simp [flatten, ih]; omega

theorem getD_flatten_re [CommRing R] (l : List (Cplx R)) (j : Nat) :
    (flatten l).getD (2 * j) 0 = (l.getD j 0).re := by
  induction l generalizing j with
  | nil => simp [flatten]
  | cons z zs ih =>
    cases j with
    | zero => simp [flatten]
    | succ j =>
      have : 2 * (j + 1) = (2 * j) + 1 + 1 := by omega
      rw [this]
      simp only [flatten, List.getD_cons_succ]
      exact ih j

theorem getD_flatten_im [CommRing R] (l : List (Cplx R)) (j : Nat) :
    (flatten l).getD (2 * j + 1) 0 = (l.getD j 0).im := by
  induction l generalizing j with
  | nil => simp [flatten]
  | cons z zs ih =>
    cases j with
    | zero => simp [flatten]
    | succ j =>
      have : 2 * (j + 1) + 1 = (2 * j + 1) + 1 + 1 := by omega
      rw [this]
      simp only [flatten, List.getD_cons_succ]
      exact ih j

theorem compress_flatten (l : List (Cplx R)) : compress (flatten l) = l := by
  induction l with
  | nil => rfl
  | cons z zs ih => simp [flatten, compress, ih]

theorem getD_flatten_blocks [Zero R] (B : Nat) (L : List (List R))
    (hB : ∀ b ∈ L, b.length = B) (i k : Nat) (hi : i < L.length) (hk : k < B) :
    L.flatten.getD (B * i + k) 0 = (L.getD i []).getD k 0 := by
  induction L generalizing i with
  | nil => simp at hi
  | cons b bs ih =>
    have hb : b.length = B := hB b (List.mem_cons_self _ _)
    cases i with
    | zero =>
      simp only [List.flatten_cons, Nat.mul_zero, Nat.zero_add, List.getD_cons_zero]
      rw [List.getD_append _ _ _ _ (by omega)]
    | succ i =>
      simp only [List.flatten_cons, List.getD_cons_succ]
      rw [List.getD_append_right _ _ _ _ (by rw [hb]; nlinarith)]
      have : B * (i + 1) + k - b.length = B * i + k := by
        rw [hb, Nat.mul_succ]; omega
      rw [this]
      exact ih (fun b2 h2 => hB b2 (List.mem_cons_of_mem _ h2)) i (by simpa using hi)

theorem le_all_reduce_max (l : List Nat) (x : Nat) (hx : x ∈ l) : x ≤ all_reduce_max l := by
  unfold all_reduce_max
  have key : ∀ (l : List Nat) (m : Nat), m ≤ l.foldl max m ∧ ∀ x ∈ l, x ≤ l.foldl max m := by
    intro l
    induction l with
    | nil => intro m; simp
    | cons y ys ih =>
      intro m
      simp only [List.foldl_cons, List.mem_cons]
      obtain ⟨h1, h2⟩ := ih (max m y)
      refine ⟨le_trans (le_max_left _ _) h1, ?_⟩
      intro x hx
      rcases hx with rfl | hx
      · exact le_trans (le_max_right _ _) h1
      · exact h2 x hx
  exact (key l 0).2 x hx

end TransportLemmas

section SetLemmas

variable {α : Type}

theorem getD_set (l : List α) (i : Nat) (a d : α) (f : Nat) :
    (l.set i a).getD f d = if i = f ∧ i < l.length then a else l.getD f d := by
  simp only [List.getD_eq_getElem?_getD, List.getElem?_set]
  by_cases h : i = f
  · subst h
    by_cases h2 : i < l.length
    · simp [h2]
    · simp [h2, List.getElem?_eq_none (not_lt.mp h2)]
  · simp [h]

theorem foldl_set_range (d : α) (pos : Nat → Nat) (val g : Nat → α) (m : Nat) (A : List α)
    (hval : ∀ j < m, val j = g (pos j)) (hpos : ∀ j < m, pos j < A.length) :
    ((List.range m).foldl (fun A j => A.set (pos j) (val j)) A).length = A.length ∧
    ∀ f, ((∃ j, j < m ∧ pos j = f) →
        ((List.range m).foldl (fun A j => A.set (pos j) (val j)) A).getD f d = g f) ∧
      ((¬ ∃ j, j < m ∧ pos j = f) →
        ((List.range m).foldl (fun A j => A.set (pos j) (val j)) A).getD f d = A.getD f d) := by
  induction m with
  | zero => simp
  | succ m ih =>
    obtain ⟨h1, h2⟩ := ih (fun j hj => hval j (by omega)) (fun j hj => hpos j (by omega))
    rw [List.range_succ, List.foldl_append, List.foldl_cons, List.foldl_nil]
    refine ⟨by simp [h1], ?_⟩
    intro f
    rw [getD_set, h1]
    by_cases hf : pos m = f
    · rw [if_pos ⟨hf, hpos m (by omega)⟩]
      refine ⟨fun _ => by rw [hval m (by omega), hf], fun hne => absurd ⟨m, by omega, hf⟩ hne⟩
    · rw [if_neg (fun h => hf h.1)]
      constructor
      · rintro ⟨j, hj, hjf⟩
        rcases Nat.lt_succ_iff_lt_or_eq.mp hj with hlt | rfl
        · exact (h2 f).1 ⟨j, hlt, hjf⟩
        · exact absurd hjf hf
      · intro hne
        exact (h2 f).2 (fun ⟨j, hj, hjf⟩ => hne ⟨j, by omega, hjf⟩)

theorem foldl_overwrite (d : α) (g : Nat → α) (S : Nat → Nat → Prop) (len : Nat)
    (step : List α → Nat → List α) (n : Nat)
    (hstep : ∀ A i, i < n → A.length = len →
      (step A i).length = len ∧
      ∀ f, (S i f → (step A i).getD f d = g f) ∧ (¬ S i f → (step A i).getD f d = A.getD f d))
    (A : List α) (hA : A.length = len) :
    ((List.range n).foldl step A).length = len ∧
    ∀ f, ((∃ i, i < n ∧ S i f) → ((List.range n).foldl step A).getD f d = g f) ∧
      ((¬ ∃ i, i < n ∧ S i f) → ((List.range n).foldl step A).getD f d = A.getD f d) := by
  induction n with
  | zero => simp [hA]
  | succ n ih =>
    obtain ⟨h1, h2⟩ := ih (fun A i hi => hstep A i (by omega))
    rw [List.range_succ, List.foldl_append, List.foldl_cons, List.foldl_nil]
    obtain ⟨h3, h4⟩ := hstep _ n (by omega) h1
    refine ⟨h3, ?_⟩
    intro f
    by_cases hf : S n f
    · refine ⟨fun _ => (h4 f).1 hf, fun hne => absurd ⟨n, by omega, hf⟩ hne⟩
    · rw [(h4 f).2 hf]
      constructor
      · rintro ⟨i, hi, hif⟩
        rcases Nat.lt_succ_iff_lt_or_eq.mp hi with hlt | rfl
        · exact (h2 f).1 ⟨i, hlt, hif⟩
        · exact absurd hif hf
      · intro hne
        exact (h2 f).2 (fun ⟨i, hi, hif⟩ => hne ⟨i, by omega, hif⟩)

end SetLemmas

section DecomposeLemmas

theorem EvenDecompose.mem_block (NF NN rank f : Nat) :
    f ∈ EvenDecompose.indexes_for NF NN rank ↔
      rank * (NF / NN) + min rank (NF % NN) ≤ f ∧
      f < (rank + 1) * (NF / NN) + min (rank + 1) (NF % NN) := by
  unfold EvenDecompose.indexes_for
  rw [List.mem_range'_1, Nat.succ_mul]
  by_cases h : rank < NF % NN
  · rw [if_pos h, Nat.min_eq_left (by omega), Nat.min_eq_left (by omega)]
    constructor <;> intro ⟨h1, h2⟩ <;> constructor <;> omega
  · rw [if_neg h, Nat.min_eq_right (by omega), Nat.min_eq_right (by omega)]
    constructor <;> intro ⟨h1, h2⟩ <;> constructor <;> omega

theorem EvenDecompose.block_end_le (NF NN rank : Nat) (hr : rank < NN) :
    (rank + 1) * (NF / NN) + min (rank + 1) (NF % NN) ≤ NF := by
  have h1 : (rank + 1) * (NF / NN) ≤ NN * (NF / NN) := Nat.mul_le_mul_right _ (by omega)
  have h2 : NN * (NF / NN) + NF % NN = NF := Nat.div_add_mod NF NN
  have h3 : min (rank + 1) (NF % NN) ≤ NF % NN := Nat.min_le_right _ _
  by_cases h : rank + 1 = NN
  · rw [h]; omega
  · -- rank + 1 < NN: one more full block fits below the remainder
    have h4 : (rank + 1) * (NF / NN) + NF / NN ≤ NN * (NF / NN) := by
      have : (rank + 2) * (NF / NN) ≤ NN * (NF / NN) := Nat.mul_le_mul_right _ (by omega)
      have e : (rank + 2) * (NF / NN) = (rank + 1) * (NF / NN) + NF / NN := by ring
      omega
    by_cases hq : NF / NN = 0
    · have : min (rank + 1) (NF % NN) ≤ NF % NN := h3
      rw [hq] at h2 ⊢
      omega
    · have : NF % NN < NN := Nat.mod_lt _ (by omega)
      omega

theorem EvenDecompose.lt_of_mem (NF NN rank f : Nat) (hr : rank < NN)
    (hf : f ∈ EvenDecompose.indexes_for NF NN rank) : f < NF := by
  rw [EvenDecompose.mem_block] at hf
  have := EvenDecompose.block_end_le NF NN rank hr
  omega

theorem EvenDecompose.covered (NF NN f : Nat) (hNN : 1 ≤ NN) (hf : f < NF) :
    ∃ rank, rank < NN ∧ f ∈ EvenDecompose.indexes_for NF NN rank := by
  have key : ∀ n, f < n * (NF / NN) + min n (NF % NN) →
      ∃ rank, rank < n ∧ f ∈ EvenDecompose.indexes_for NF NN rank := by
    intro n
    induction n with
    | zero => intro h; simp at h
    | succ n ih =>
      intro h
      by_cases h2 : f < n * (NF / NN) + min n (NF % NN)
      · obtain ⟨r, hr, hm⟩ := ih h2
        exact ⟨r, by omega, hm⟩
      · exact ⟨n, by omega, (EvenDecompose.mem_block NF NN n f).mpr ⟨by omega, h⟩⟩
  apply key NN
  have h2 : NN * (NF / NN) + NF % NN = NF := Nat.div_add_mod NF NN
  have : NF % NN < NN := Nat.mod_lt _ (by omega)
  rw [Nat.min_eq_right (by omega)]
  omega

end DecomposeLemmas

section GatherLemmas

variable {R : Type} [Field R]

theorem foldlM_ok {β γ : Type} (f : β → γ → Except Fault β) (g : β → γ → β) (l : List γ)
    (h : ∀ b, ∀ x ∈ l, f b x = .ok (g b x)) (b : β) :
    l.foldlM f b = .ok (l.foldl g b) := by
  induction l generalizing b with
  | nil => rfl
  | cons x xs ih =>
    rw [List.foldlM_cons, h b x (List.mem_cons_self _ _)]
    exact ih (fun b y hy => h b y (List.mem_cons_of_mem _ hy)) (g b x)

theorem mapM_ok {β γ : Type} (f : γ → Except Fault β) (g : γ → β) (l : List γ)
    (h : ∀ x ∈ l, f x = .ok (g x)) :
    l.mapM f = .ok (l.map g) := by
  induction l with
  | nil => rfl
  | cons x xs ih =>
    rw [List.mapM_cons, h x (List.mem_cons_self _ _),
      ih (fun y hy => h y (List.mem_cons_of_mem _ hy))]
    rfl

theorem local_A_eq_ok (d : Device R) (mpindex maxCSsize : Nat)
    (h1 : d.a.size1 = d.myframes.length) (h2 : mpindex < d.a.size2) :
    local_A d mpindex maxCSsize = .ok (local_A_ok d mpindex maxCSsize) := by
  unfold local_A local_A_ok
  apply foldlM_ok
  intro b ci hci
  rw [List.mem_range] at hci
  simp only [ublas.matrix.read]
  rw [if_pos ⟨by omega, h2⟩]
  rfl

theorem local_A_ok_spec (d : Device R) (mpindex maxCSsize : Nat)
    (h : d.myframes.length ≤ maxCSsize) :
    (local_A_ok d mpindex maxCSsize).length = maxCSsize ∧
    ∀ j, j < d.myframes.length →
      (local_A_ok d mpindex maxCSsize).getD j 0 = d.a.data j mpindex := by
  unfold local_A_ok
  obtain ⟨h1, h2⟩ := foldl_set_range (0 : Cplx R) id (fun ci => d.a.data ci mpindex)
    (fun ci => d.a.data ci mpindex) d.myframes.length (List.replicate maxCSsize 0)
    (fun j _ => rfl) (fun j hj => by simp; omega)
  refine ⟨by simpa using h1, ?_⟩
  intro j hj
  exact (h2 j).1 ⟨j, hj, rfl⟩

theorem deinterleave_blocks (NF NN maxCS : Nat) (v : Nat → Cplx R)
    (las : List (List (Cplx R))) (hNN : 1 ≤ NN) (hlen : las.length = NN)
    (hla : ∀ r, r < NN →
      (las.getD r []).length = maxCS ∧
      (EvenDecompose.indexes_for NF NN r).length ≤ maxCS ∧
      ∀ j, j < (EvenDecompose.indexes_for NF NN r).length →
        (las.getD r []).getD j 0 = v ((EvenDecompose.indexes_for NF NN r).getD j 0)) :
    deinterleave NF NN maxCS (gather (las.map flatten)) = (List.range NF).map v := by
  have hblock : ∀ b ∈ las.map flatten, b.length = 2 * maxCS := by
    intro b hb
    rw [List.mem_map] at hb
    obtain ⟨la, hla1, rfl⟩ := hb
    obtain ⟨r, hr, rfl⟩ := List.getElem_of_mem hla1
    have := (hla r (by omega)).1
    rw [List.getD_eq_getElem _ _ hr] at this
    rw [length_flatten, this]
  have hget : ∀ i j k, i < NN → j < (EvenDecompose.indexes_for NF NN i).length → k < 2 →
      (gather (las.map flatten)).getD (2 * maxCS * i + (2 * j + k)) 0
        = (flatten (las.getD i [])).getD (2 * j + k) 0 := by
    intro i j k hi hj hk
    unfold gather
    rw [getD_flatten_blocks (2 * maxCS) _ hblock i (2 * j + k) (by simpa [hlen] using hi)
      (by have := (hla i hi).2.1; omega)]
    congr 1
    rw [List.getD_eq_getElem?_getD, List.getD_eq_getElem?_getD, List.getElem?_map]
    cases las[i]? <;> rfl
  unfold deinterleave
  obtain ⟨hL, hG⟩ := foldl_overwrite (0 : Cplx R) v
    (fun i f => ∃ j, j < (EvenDecompose.indexes_for NF NN i).length ∧
      (EvenDecompose.indexes_for NF NN i).getD j 0 = f) NF
    (fun A i =>
      (List.range (EvenDecompose.indexes_for NF NN i).length).foldl
        (fun A j =>
          A.set ((EvenDecompose.indexes_for NF NN i).getD j 0)
            ⟨(gather (las.map flatten)).getD (2 * maxCS * i + 2 * j) 0,
             (gather (las.map flatten)).getD (2 * maxCS * i + 2 * j + 1) 0⟩)
        A) NN
    (by
      intro A i hi hA
      have := foldl_set_range (0 : Cplx R)
        (fun j => (EvenDecompose.indexes_for NF NN i).getD j 0)
        (fun j => (⟨(gather (las.map flatten)).getD (2 * maxCS * i + 2 * j) 0,
             (gather (las.map flatten)).getD (2 * maxCS * i + 2 * j + 1) 0⟩ : Cplx R))
        v (EvenDecompose.indexes_for NF NN i).length A
        (by
          intro j hj
          have e0 := hget i j 0 hi hj (by omega)
          have e1 := hget i j 1 hi hj (by omega)
          rw [Nat.add_zero] at e0
          rw [← Nat.add_assoc] at e1
          show (⟨_, _⟩ : Cplx R) = v _
          rw [e0, e1, getD_flatten_re, getD_flatten_im, (hla i hi).2.2 j hj])
        (by
          intro j hj
          rw [hA]
          apply EvenDecompose.lt_of_mem NF NN i _ hi
          show (EvenDecompose.indexes_for NF NN i).getD j 0 ∈ _
          rw [List.getD_eq_getElem _ _ hj]
          exact List.getElem_mem _)
      exact ⟨this.1.trans hA, this.2⟩)
    (List.replicate NF 0) (by simp)
  apply List.ext_getElem
  · simpa using hL
  · intro f h1 h2
    have hf : f < NF := by simpa using h2
    obtain ⟨r, hr, hm⟩ := EvenDecompose.covered NF NN f hNN hf
    obtain ⟨j, hj, hjf⟩ := List.getElem_of_mem hm
    have := (hG f).1 ⟨r, hr, j, hj, by rw [List.getD_eq_getElem _ _ hj]; exact hjf⟩
    rw [List.getD_eq_getElem _ _ h1] at this
    rw [this]
    simp

end GatherLemmas

section GatherTheorems

variable {R : Type} [Field R]

omit [Field R] in
theorem holdsColumn_length (NF NN col : Nat) (v : Nat → Cplx R) (devs : List (Device R))
    (hold : HoldsColumn NF NN col v devs) : devs.length = NN := by
  have := congrArg List.length hold.1
  simpa using this

omit [Field R] in
theorem holdsColumn_myframes (NF NN col : Nat) (v : Nat → Cplx R) (devs : List (Device R))
    (hold : HoldsColumn NF NN col v devs) (r : Nat) (hr : r < devs.length) :
    (devs.get ⟨r, hr⟩).myframes = EvenDecompose.indexes_for NF NN r := by
  have hlen := holdsColumn_length NF NN col v devs hold
  have h1 : (devs.map fun d => d.myframes)[r]? = ((List.range NN).map
      (EvenDecompose.indexes_for NF NN))[r]? := by rw [hold.1]
  rw [List.getElem?_map, List.getElem?_map, List.getElem?_eq_getElem hr,
    List.getElem?_range (by omega)] at h1
  simpa using h1

theorem all_gather_series (NF NN col : Nat) (v : Nat → Cplx R) (devs : List (Device R))
    (hNN : 1 ≤ NN) (hold : HoldsColumn NF NN col v devs) :
    (devs.mapM fun d =>
        local_Ar d col (all_reduce_max (devs.map fun d => d.myframes.length)))
      = .ok ((devs.map fun d =>
          local_A_ok d col (all_reduce_max (devs.map fun d => d.myframes.length))).map flatten) ∧
    deinterleave NF devs.length (all_reduce_max (devs.map fun d => d.myframes.length))
      (gather ((devs.map fun d =>
          local_A_ok d col (all_reduce_max (devs.map fun d => d.myframes.length))).map flatten))
      = (List.range NF).map v := by
  have hlen := holdsColumn_length NF NN col v devs hold
  constructor
  · rw [List.map_map]
    apply mapM_ok
    intro d hd
    obtain ⟨h1, h2, _⟩ := hold.2 d hd
    unfold local_Ar
    rw [local_A_eq_ok d col _ h1 h2]
    rfl
  · rw [hlen]
    apply deinterleave_blocks NF NN _ v _ hNN (by simpa using hlen)
    intro r hr
    have hr2 : r < devs.length := by omega
    have hmf := holdsColumn_myframes NF NN col v devs hold r hr2
    have hmem : devs.get ⟨r, hr2⟩ ∈ devs := List.get_mem _ _ _
    have hle : (devs.get ⟨r, hr2⟩).myframes.length
        ≤ all_reduce_max (devs.map fun d => d.myframes.length) :=
      le_all_reduce_max _ _ (List.mem_map.mpr ⟨_, hmem, rfl⟩)
    have hget : (devs.map fun d =>
        local_A_ok d col (all_reduce_max (devs.map fun d => d.myframes.length))).getD r []
        = local_A_ok (devs.get ⟨r, hr2⟩) col
            (all_reduce_max (devs.map fun d => d.myframes.length)) := by
      rw [List.getD_eq_getElem?_getD, List.getElem?_map, List.getElem?_eq_getElem hr2]
      rfl
    obtain ⟨s1, s2⟩ := local_A_ok_spec (devs.get ⟨r, hr2⟩) col _ hle
    rw [hget]
    rw [← hmf]
    refine ⟨s1, hle, ?_⟩
    intro j hj
    rw [s2 j hj]
    exact (hold.2 _ hmem).2.2 j hj

theorem getD_map_range (v : Nat → Cplx R) (n i : Nat) (hi : i < n) :
    ((List.range n).map v).getD i 0 = v i := by
  rw [List.getD_eq_getElem _ _ (by simpa using hi)]
  simp

theorem gather_frames_eq (NF NN : Nat) (v : Nat → Cplx R) (devs : List (Device R))
    (hNN : 1 ≤ NN) (hold : HoldsColumn NF NN 0 v devs) :
    gather_frames NF devs 0 = .ok ((List.range NF).map v) := by
  obtain ⟨h1, h2⟩ := all_gather_series NF NN 0 v devs hNN hold
  unfold gather_frames
  simp only [h1, h2, if_true, bind, Except.bind, pure, Except.pure]

/-- C3. Static gather: when the `NN ≥ 1` ranks hold in column 0 the values `v f`
of the frames `EvenDecompose(NF, NN)` assigns to them, `gather_frames` returns
on rank 0 the vector `v 0, …, v (NF-1)`: length `NF`, entry `f` equal to `v f`,
whatever the partition size `NN` (also `NN > NF`). -/
theorem gather_frames_reconstructs (NF NN : Nat) (v : Nat → Cplx R) (devs : List (Device R))
    (_hNF : 1 ≤ NF) (hNN : 1 ≤ NN) (hold : HoldsColumn NF NN 0 v devs) :
    gather_frames NF devs 0 = .ok ((List.range NF).map v) ∧
    (∀ s, gather_frames NF devs 0 = .ok s → s.length = NF ∧ ∀ f, f < NF → s.getD f 0 = v f) := by
  refine ⟨gather_frames_eq NF NN v devs hNN hold, ?_⟩
  intro s hs
  rw [gather_frames_eq NF NN v devs hNN hold] at hs
  cases hs
  refine ⟨by simp, ?_⟩
  intro f hf
  exact getD_map_range v NF f hf

end GatherTheorems

section CorrelateLemmas

variable {R : Type} [Field R]

theorem foldl_add_range (f : Nat → Cplx R) (n : Nat) (z : Cplx R) :
    (List.range n).foldl (fun acc i => acc + f i) z = z + ∑ i in Finset.range n, f i := by
  induction n with
  | zero => simp
  | succ n ih =>
    rw [List.range_succ, List.foldl_append, List.foldl_cons, List.foldl_nil, ih,
      Finset.sum_range_succ, add_assoc]

theorem series_mean_eq (NF : Nat) (zeromean : Bool) (v : Nat → Cplx R) :
    series_mean NF zeromean ((List.range NF).map v)
      = if zeromean then Cplx.ofReal (1 / (NF : R)) * ∑ k in Finset.range NF, v k else 0 := by
  unfold series_mean
  cases zeromean with
  | false => rfl
  | true =>
    simp only [if_true]
    have : (List.range NF).foldl (fun mean i => mean + ((List.range NF).map v).getD i 0) 0
        = (List.range NF).foldl (fun mean i => mean + v i) 0 := by
      apply List.foldl_ext
      intro acc i hi
      rw [getD_map_range v NF i (List.mem_range.mp hi)]
    rw [this, foldl_add_range, zero_add, Cplx.scale_eq_mul, mul_comm]

theorem accumulate_at (tau : Nat) (term : Nat → Cplx R) (m : Nat) (c : List (Cplx R))
    (htau : tau < c.length) :
    ((List.range m).foldl (fun c k => c.set tau (c.getD tau 0 + term k)) c).length = c.length ∧
    ((List.range m).foldl (fun c k => c.set tau (c.getD tau 0 + term k)) c).getD tau 0
      = c.getD tau 0 + ∑ k in Finset.range m, term k ∧
    ∀ t, t ≠ tau →
      ((List.range m).foldl (fun c k => c.set tau (c.getD tau 0 + term k)) c).getD t 0
        = c.getD t 0 := by
  induction m with
  | zero => simp
  | succ m ih =>
    obtain ⟨h1, h2, h3⟩ := ih
    rw [List.range_succ, List.foldl_append, List.foldl_cons, List.foldl_nil]
    refine ⟨by rw [List.length_set]; exact h1, ?_, ?_⟩
    · rw [getD_set, if_pos ⟨rfl, by omega⟩, h2, Finset.sum_range_succ, add_assoc]
    · intro t ht
      rw [getD_set, if_neg (fun h => ht h.1.symm), h3 t ht]

theorem correlate_step_spec (NF : Nat) (A : List (Cplx R)) (mean : Cplx R)
    (c : List (Cplx R)) (tau : Nat) (hc : c.length = NF) (htau : tau < NF) :
    (correlate_step NF A mean c tau).length = NF ∧
    (correlate_step NF A mean c tau).getD tau 0
      = Cplx.divReal
          (c.getD tau 0 + ∑ k in Finset.range (NF - tau),
            Cplx.conj (A.getD k 0 - mean) * (A.getD (k + tau) 0 - mean))
          ((NF - tau : Nat) : R) ∧
    ∀ t, t ≠ tau → (correlate_step NF A mean c tau).getD t 0 = c.getD t 0 := by
  unfold correlate_step
  obtain ⟨h1, h2, h3⟩ := accumulate_at tau
    (fun k => Cplx.conj (A.getD k 0 - mean) * (A.getD (k + tau) 0 - mean)) (NF - tau) c
    (by omega)
  refine ⟨by simp only [List.length_set]; omega, ?_, ?_⟩
  · simp only []
    rw [getD_set, if_pos ⟨rfl, by omega⟩, h2]
  · intro t ht
    simp only []
    rw [getD_set, if_neg (fun h => ht h.1.symm), h3 t ht]

theorem correlate_steps_spec (NF : Nat) (A : List (Cplx R)) (mean : Cplx R)
    (steps : List Nat) (hnd : steps.Nodup) (hlt : ∀ t ∈ steps, t < NF)
    (c : List (Cplx R)) (hc : c.length = NF) (hzero : ∀ t ∈ steps, c.getD t 0 = 0) :
    (steps.foldl (correlate_step NF A mean) c).length = NF ∧
    ∀ t, (t ∈ steps → (steps.foldl (correlate_step NF A mean) c).getD t 0
        = Cplx.divReal
          (∑ k in Finset.range (NF - t),
            Cplx.conj (A.getD k 0 - mean) * (A.getD (k + t) 0 - mean))
          ((NF - t : Nat) : R)) ∧
      (t ∉ steps → (steps.foldl (correlate_step NF A mean) c).getD t 0 = c.getD t 0) := by
  induction steps generalizing c with
  | nil => simp [hc]
  | cons x xs ih =>
    have hx : x < NF := hlt x (List.mem_cons_self _ _)
    obtain ⟨s1, s2, s3⟩ := correlate_step_spec NF A mean c x hc hx
    have hnd2 := (List.nodup_cons.mp hnd)
    rw [List.foldl_cons]
    obtain ⟨i1, i2⟩ := ih hnd2.2 (fun t ht => hlt t (List.mem_cons_of_mem _ ht))
      (correlate_step NF A mean c x) s1
      (fun t ht => by
        have : t ≠ x := fun h => hnd2.1 (h ▸ ht)
        rw [s3 t this]
        exact hzero t (List.mem_cons_of_mem _ ht))
    refine ⟨i1, ?_⟩
    intro t
    constructor
    · intro ht
      rcases List.mem_cons.mp ht with rfl | ht2
      · rw [(i2 t).2 hnd2.1, s2, hzero t (List.mem_cons_self _ _), zero_add]
      · exact (i2 t).1 ht2
    · intro ht
      have h1 : t ≠ x := fun h => ht (h ▸ List.mem_cons_self _ _)
      have h2 : t ∉ xs := fun h => ht (List.mem_cons_of_mem _ h)
      rw [(i2 t).2 h2, s3 t h1]

theorem RModuloDecompose.mem_lags (N NN rank t : Nat) :
    t ∈ RModuloDecompose.indexes_for N NN rank ↔ t < N ∧ t % NN = rank := by
  unfold RModuloDecompose.indexes_for
  simp [List.mem_filter]

theorem RModuloDecompose.nodup_indexes_for (N NN rank : Nat) :
    (RModuloDecompose.indexes_for N NN rank).Nodup :=
  (List.nodup_range N).filter _

theorem correlated_a_spec (NF NN : Nat) (zeromean : Bool) (v : Nat → Cplx R) (rank : Nat) :
    (correlated_a NF NN zeromean ((List.range NF).map v) rank).length = NF ∧
    ∀ t, t < NF →
      (correlated_a NF NN zeromean ((List.range NF).map v) rank).getD t 0
        = if t % NN = rank then spec_autocorrelation NF zeromean v t else 0 := by
  unfold correlated_a
  obtain ⟨h1, h2⟩ := correlate_steps_spec NF ((List.range NF).map v)
    (series_mean NF zeromean ((List.range NF).map v))
    (RModuloDecompose.indexes_for NF NN rank)
    (RModuloDecompose.nodup_indexes_for NF NN rank)
    (fun t ht => ((RModuloDecompose.mem_lags NF NN rank t).mp ht).1)
    (List.replicate NF 0) (by simp)
    (fun t ht => by
      have := ((RModuloDecompose.mem_lags NF NN rank t).mp ht).1
      rw [List.getD_eq_getElem _ _ (by simpa using this)]
      simp)
  refine ⟨h1, ?_⟩
  intro t ht
  by_cases hm : t % NN = rank
  · rw [if_pos hm, (h2 t).1 ((RModuloDecompose.mem_lags NF NN rank t).mpr ⟨ht, hm⟩)]
    rw [Cplx.divReal_eq_mul, series_mean_eq]
    unfold spec_autocorrelation
    simp only []
    congr 1
    apply Finset.sum_congr rfl
    intro k hk
    rw [Finset.mem_range] at hk
    rw [getD_map_range v NF k (by omega), getD_map_range v NF (k + t) (by omega)]
  · rw [if_neg hm, (h2 t).2 (fun h => hm ((RModuloDecompose.mem_lags NF NN rank t).mp h).2)]
    rw [List.getD_eq_getElem _ _ (by simpa using ht)]
    simp

end CorrelateLemmas

section ReduceLemmas

variable {R : Type} [Field R]

theorem zipWith_add_flatten (a b : List (Cplx R)) :
    List.zipWith (· + ·) (flatten a) (flatten b) = flatten (List.zipWith (· + ·) a b) := by
  induction a generalizing b with
  | nil => simp [flatten]
  | cons x xs ih =>
    cases b with
    | nil => simp [flatten]
    | cons y ys => simp [flatten, ih]

theorem replicate_flatten (n : Nat) :
    List.replicate (2 * n) (0 : R) = flatten (List.replicate n (0 : Cplx R)) := by
  induction n with
  | zero => rfl
  | succ n ih =>
    have : 2 * (n + 1) = 2 * n + 1 + 1 := by omega
    rw [this, List.replicate_succ, List.replicate_succ, List.replicate_succ, ih]
    rfl

theorem foldl_zipWith_flatten (cs : List (List (Cplx R))) (acc : List (Cplx R)) :
    (cs.map flatten).foldl (fun acc buf => List.zipWith (· + ·) acc buf) (flatten acc)
      = flatten (cs.foldl (fun acc c => List.zipWith (· + ·) acc c) acc) := by
  induction cs generalizing acc with
  | nil => rfl
  | cons c cs ih =>
    simp only [List.map_cons, List.foldl_cons]
    rw [zipWith_add_flatten, ih]

theorem reduce_plus_flatten (n : Nat) (cs : List (List (Cplx R))) :
    reduce_plus (2 * n) (cs.map flatten)
      = flatten (cs.foldl (fun acc c => List.zipWith (· + ·) acc c) (List.replicate n 0)) := by
  unfold reduce_plus
  rw [replicate_flatten, foldl_zipWith_flatten]

theorem getD_foldl_zipWith (n : Nat) (cs : List (List (Cplx R)))
    (hlen : ∀ c ∈ cs, c.length = n) (acc : List (Cplx R)) (hacc : acc.length = n) :
    (cs.foldl (fun acc c => List.zipWith (· + ·) acc c) acc).length = n ∧
    ∀ t, t < n →
      (cs.foldl (fun acc c => List.zipWith (· + ·) acc c) acc).getD t 0
        = acc.getD t 0 + (cs.map fun c => c.getD t 0).sum := by
  induction cs generalizing acc with
  | nil => simp [hacc]
  | cons c cs ih =>
    have hc : c.length = n := hlen c (List.mem_cons_self _ _)
    obtain ⟨h1, h2⟩ := ih (fun c2 h => hlen c2 (List.mem_cons_of_mem _ h))
      (List.zipWith (· + ·) acc c) (by simp [hacc, hc])
    rw [List.foldl_cons]
    refine ⟨h1, ?_⟩
    intro t ht
    rw [h2 t ht, List.map_cons, List.sum_cons, ← add_assoc]
    congr 1
    rw [List.getD_eq_getElem _ _ (by simp [hacc, hc, ht]),
      List.getD_eq_getElem _ _ (by omega), List.getD_eq_getElem _ _ (by omega)]
    simp

theorem sum_map_range_ite (n j : Nat) (F : Cplx R) :
    ((List.range n).map fun r => if j = r then F else 0).sum = if j < n then F else 0 := by
  induction n with
  | zero => simp
  | succ n ih =>
    rw [List.range_succ, List.map_append, List.sum_append, ih]
    by_cases h1 : j < n
    · have h2 : j ≠ n := by omega
      simp [h1, h2, Nat.lt_succ_of_lt h1]
    · by_cases h2 : j = n
      · simp [h2]
      · have h3 : ¬ j < n + 1 := by omega
        simp [h1, h2, h3]

end ReduceLemmas

section CorrelateTheorems

variable {R : Type} [Field R]

theorem correlate_frames_eq (NF NN mpindex : Nat) (zeromean : Bool) (A : Nat → Cplx R)
    (devs : List (Device R)) (hNN : 1 ≤ NN) (hold : HoldsColumn NF NN mpindex A devs) :
    correlate_frames NF zeromean devs mpindex 0
      = .ok ((List.range NF).map fun tau => spec_autocorrelation NF zeromean A tau) := by
  obtain ⟨h1, h2⟩ := all_gather_series NF NN mpindex A devs hNN hold
  have hlen := holdsColumn_length NF NN mpindex A devs hold
  unfold correlate_frames
  simp only [h1, h2, if_true, bind, Except.bind, pure, Except.pure]
  congr 1
  have hmap : ((List.range devs.length).map fun r =>
      flatten (correlated_a NF devs.length zeromean ((List.range NF).map A) r))
      = ((List.range NN).map fun r =>
          correlated_a NF NN zeromean ((List.range NF).map A) r).map flatten := by
    rw [List.map_map, hlen]
    rfl
  rw [hmap, reduce_plus_flatten, compress_flatten]
  obtain ⟨g1, g2⟩ := getD_foldl_zipWith NF
    ((List.range NN).map fun r => correlated_a NF NN zeromean ((List.range NF).map A) r)
    (by
      intro c hc
      rw [List.mem_map] at hc
      obtain ⟨r, _, rfl⟩ := hc
      exact (correlated_a_spec NF NN zeromean A r).1)
    (List.replicate NF 0) (by simp)
  apply List.ext_getElem
  · simpa using g1
  · intro t ht1 ht2
    have ht : t < NF := by simpa using ht2
    have := g2 t ht
    rw [List.getD_eq_getElem _ _ ht1] at this
    rw [this, List.getD_eq_getElem _ _ (by simpa using ht), List.map_map]
    have hsum : ((List.range NN).map
        ((fun c : List (Cplx R) => c.getD t 0) ∘
          fun r => correlated_a NF NN zeromean ((List.range NF).map A) r))
        = (List.range NN).map fun r =>
            if t % NN = r then spec_autocorrelation NF zeromean A t else 0 := by
      apply List.map_congr_left
      intro r _
      exact (correlated_a_spec NF NN zeromean A r).2 t ht
    rw [hsum, sum_map_range_ite, if_pos (Nat.mod_lt _ (by omega))]
    simp

/-- C1. Direct time correlation: when the `NN ≥ 1` ranks hold in column
`mpindex` their `EvenDecompose` blocks of the global series `A 0, …, A (NF-1)`,
`correlate_frames(mpindex)` returns on rank 0 the vector whose entry at every
lag `tau < NF` is `(1/(NF-tau)) * Σ_{k < NF-tau} conj(A k - mu) * (A (k+tau) - mu)`
(`mu = 0`, or the series mean with the zero-mean option); every lag belongs to
the lag set of exactly one rank, and the result is that of the serial run
`NN = 1`. -/
theorem correlate_frames_direct (NF NN mpindex : Nat) (zeromean : Bool) (A : Nat → Cplx R)
    (devs : List (Device R)) (_hNF : 1 ≤ NF) (hNN : 1 ≤ NN)
    (hold : HoldsColumn NF NN mpindex A devs) :
    correlate_frames NF zeromean devs mpindex 0
      = .ok ((List.range NF).map fun tau => spec_autocorrelation NF zeromean A tau) ∧
    (∀ tau, tau < NF → ∃! rank, rank < NN ∧ tau ∈ RModuloDecompose.indexes_for NF NN rank) ∧
    ∀ serial : List (Device R), HoldsColumn NF 1 mpindex A serial →
      correlate_frames NF zeromean devs mpindex 0
        = correlate_frames NF zeromean serial mpindex 0 := by
  refine ⟨correlate_frames_eq NF NN mpindex zeromean A devs hNN hold, ?_, ?_⟩
  · intro tau htau
    refine ⟨tau % NN, ⟨Nat.mod_lt _ hNN, (RModuloDecompose.mem_lags NF NN _ tau).mpr ⟨htau, rfl⟩⟩, ?_⟩
    intro r hr
    exact (((RModuloDecompose.mem_lags NF NN r tau).mp hr.2).2).symm
  · intro serial hserial
    rw [correlate_frames_eq NF NN mpindex zeromean A devs hNN hold,
      correlate_frames_eq NF 1 mpindex zeromean A serial (le_refl 1) hserial]

end CorrelateTheorems

section Witnesses

theorem example_devs_hold (c : Nat) (hc : c < 2) :
    HoldsColumn 3 2 c (example_series c) example_devs := by
  refine ⟨by decide, ?_⟩
  intro d hd
  simp only [example_devs, List.mem_cons, List.mem_singleton, List.not_mem_nil, or_false] at hd
  rcases hd with rfl | rfl
  · refine ⟨rfl, hc, ?_⟩
    intro j hj
    have hj2 : j < 2 := hj
    interval_cases j <;> simp [example_series]
  · refine ⟨rfl, hc, ?_⟩
    intro j hj
    have hj2 : j < 1 := hj
    interval_cases j
    simp [example_series]
    norm_num

theorem gather_frames_reconstructs_witness :
    gather_frames 3 example_devs 0 = .ok ((List.range 3).map (example_series 0)) :=
  (gather_frames_reconstructs 3 2 (example_series 0) example_devs (by decide) (by decide)
    (example_devs_hold 0 (by decide))).1

theorem correlate_frames_direct_witness :
    correlate_frames 3 true example_devs 1 0
      = .ok ((List.range 3).map fun tau => spec_autocorrelation 3 true (example_series 1) tau) :=
  (correlate_frames_direct 3 2 1 true (example_series 1) example_devs (by decide) (by decide)
    (example_devs_hold 1 (by decide))).1

end Witnesses

section StaticFold

variable {R : Type} [Field R]

/-- C2. Static fold: for a matrix with at least one column and every row
`i < size1`, `conjmultiply_frames` leaves in `a(i,0)` the sum over all
columns `c` (column 0 included) of `old a(i,c) * conj(old a(i,c))`. -/
theorem conjmultiply_frames_column0 (a : ublas.matrix (Cplx R)) (i : Nat)
    (hcols : 1 ≤ a.size2) (hi : i < a.size1) :
    (conjmultiply_frames a).data i 0
      = ∑ c in Finset.range a.size2, a.data i c * Cplx.conj (a.data i c) := by
  unfold conjmultiply_frames
  rw [(conjmultiply_rows a hcols a.size1).2.2 i 0, if_pos ⟨hi, rfl⟩]
  rfl

theorem conjmultiply_frames_column0_witness :
    (conjmultiply_frames example_matrix).data 1 0
      = ∑ c in Finset.range 3, example_matrix.data 1 c * Cplx.conj (example_matrix.data 1 c) :=
  conjmultiply_frames_column0 example_matrix 1 (by decide) (by decide)

end StaticFold

section AlignmentLemmas

variable {R : Type} [Field R]

theorem scale_row_inner (factor : Cplx R) (i m : Nat) (a : ublas.matrix (Cplx R)) :
    ((List.range m).foldl (fun a j => a.set i j (a.data i j * factor)) a).size1 = a.size1 ∧
    ((List.range m).foldl (fun a j => a.set i j (a.data i j * factor)) a).size2 = a.size2 ∧
    ∀ i2 j2, ((List.range m).foldl (fun a j => a.set i j (a.data i j * factor)) a).data i2 j2
      = if i2 = i ∧ j2 < m then a.data i2 j2 * factor else a.data i2 j2 := by
  induction m with
  | zero => simp
  | succ m ih =>
    obtain ⟨h1, h2, h3⟩ := ih
    rw [List.range_succ, List.foldl_append, List.foldl_cons, List.foldl_nil]
    refine ⟨by simpa using h1, by simpa using h2, ?_⟩
    intro i2 j2
    rw [ublas.matrix.set_data, h3, h3]
    by_cases hi : i2 = i
    · subst hi
      by_cases hj : j2 = m
      · subst hj
        simp
      · by_cases hlt : j2 < m
        · have : j2 < m + 1 := by omega
          simp [hj, hlt, this]
        · have : ¬ j2 < m + 1 := by omega
          simp [hj, hlt, this]
    · simp [hi]

theorem scale_row_spec (factor : Cplx R) (a : ublas.matrix (Cplx R)) (i : Nat) :
    (scale_row factor a i).size1 = a.size1 ∧ (scale_row factor a i).size2 = a.size2 ∧
    ∀ i2 j2, (scale_row factor a i).data i2 j2
      = if i2 = i ∧ j2 < a.size2 then a.data i2 j2 * factor else a.data i2 j2 :=
  scale_row_inner factor i a.size2 a

theorem scale_rows_spec (factor : Nat → Cplx R) (a : ublas.matrix (Cplx R)) (n : Nat) :
    ((List.range n).foldl (fun a i => scale_row (factor i) a i) a).size1 = a.size1 ∧
    ((List.range n).foldl (fun a i => scale_row (factor i) a i) a).size2 = a.size2 ∧
    ∀ i2 j2, ((List.range n).foldl (fun a i => scale_row (factor i) a i) a).data i2 j2
      = if i2 < n ∧ j2 < a.size2 then a.data i2 j2 * factor i2 else a.data i2 j2 := by
  induction n with
  | zero => simp
  | succ n ih =>
    obtain ⟨h1, h2, h3⟩ := ih
    rw [List.range_succ, List.foldl_append, List.foldl_cons, List.foldl_nil]
    obtain ⟨s1, s2, s3⟩ := scale_row_spec (factor n)
      ((List.range n).foldl (fun a i => scale_row (factor i) a i) a) n
    refine ⟨s1.trans h1, s2.trans h2, ?_⟩
    intro i2 j2
    rw [s3, h3, h2]
    by_cases hj : j2 < a.size2
    · by_cases hi : i2 = n
      · subst hi
        simp [hj]
      · by_cases hlt : i2 < n
        · have : i2 < n + 1 := by omega
          simp [hi, hlt, hj, this]
        · have : ¬ i2 < n + 1 := by omega
          simp [hi, hlt, this]
    · simp [hj]

theorem multiply_alignmentfactors_ok (M : Numerics R) (sample : Sample R) (d : Device R)
    (q : CartesianCoor3D R)
    (hne : ∀ i, i < d.a.size1 → sample.get_postalignmentvectors (d.myframes.getD i 0) ≠ []) :
    multiply_alignmentfactors M sample d q
      = .ok { d with a := ((List.range d.a.size1).foldl
          (fun a i => scale_row (alignment_factor M sample d.myframes q i) a i) d.a) } := by
  unfold multiply_alignmentfactors
  have hfold := foldlM_ok (β := ublas.matrix (Cplx R))
    (fun (a : ublas.matrix (Cplx R)) i =>
      if a.size2 < 1 then pure a
      else
        match (sample.get_postalignmentvectors (d.myframes.getD i 0)).getLast? with
        | none => .error .empty_deref
        | some bigR =>
          pure ((List.range a.size2).foldl
            (fun a j => a.set i j (a.data i j * M.exp ⟨0, q.dot bigR⟩)) a))
    (fun a i => scale_row (alignment_factor M sample d.myframes q i) a i)
    (List.range d.a.size1)
    (by
      intro a i hi
      rw [List.mem_range] at hi
      have hne2 := hne i hi
      show (if a.size2 < 1 then pure a
        else
          match (sample.get_postalignmentvectors (d.myframes.getD i 0)).getLast? with
          | none => Except.error Fault.empty_deref
          | some bigR =>
            pure ((List.range a.size2).foldl
              (fun a j => a.set i j (a.data i j * M.exp ⟨0, q.dot bigR⟩)) a))
        = Except.ok (scale_row (alignment_factor M sample d.myframes q i) a i)
      by_cases hs : a.size2 < 1
      · rw [if_pos hs]
        have : a.size2 = 0 := by omega
        simp [scale_row, this, pure, Except.pure]
      · rw [if_neg hs]
        cases hl : sample.get_postalignmentvectors (d.myframes.getD i 0) with
        | nil => exact absurd hl hne2
        | cons v vs =>
          have hlast : (v :: vs).getLast? = some ((v :: vs).getLastD ⟨0, 0, 0⟩) := by
            rw [List.getLast?_eq_getLast _ (by simp), List.getLastD_eq_getLast?,
              List.getLast?_eq_getLast _ (by simp)]
            rfl
          simp only [hlast, scale_row, alignment_factor, hl]
          rfl)
    d.a
  simp only [] at hfold
  rw [hfold]
  rfl

end AlignmentLemmas

section AlignmentTheorems

variable {R : Type} [LinearOrderedField R]

/-- C10. Post-alignment phase: when every local row's frame has a non-empty
list of post-alignment vectors, `multiply_alignmentfactors(q)` returns, and
every entry `a(i,c)` becomes `old a(i,c) * exp(i (q·R_i))` with `R_i` the last
post-alignment vector of frame `myframes[i]`; `execute` of either device runs
it on each rank exactly when `scattering.center` is set, after the kernel and
before the reduction. -/
theorem multiply_alignmentfactors_phase (M : Numerics R) (sample : Sample R) (d : Device R)
    (q : CartesianCoor3D R)
    (hne : ∀ i, i < d.a.size1 → sample.get_postalignmentvectors (d.myframes.getD i 0) ≠ []) :
    (∃ d2, multiply_alignmentfactors M sample d q = .ok d2 ∧
      d2.myframes = d.myframes ∧ d2.a.size1 = d.a.size1 ∧ d2.a.size2 = d.a.size2 ∧
      ∀ i c, ∀ hi : i < d.a.size1, c < d.a.size2 →
        d2.a.data i c = d.a.data i c *
          M.exp ⟨0, q.dot ((sample.get_postalignmentvectors (d.myframes.getD i 0)).getLast
            (hne i hi))⟩) ∧
    (∀ (params : Params R) (devs : List (Device R)) (rank : Nat),
      (params.center = true →
        AllMSScatterDevice.execute M params sample devs q rank
          = (devs.mapM fun d => AllMSScatterDevice.scatter_frames_norm1 M params sample d q)
            >>= fun devs1 => (devs1.mapM fun d => multiply_alignmentfactors M sample d q)
            >>= fun devs2 =>
              reduce_frames params sample.NF (1 + 4 * params.resolution) devs2 rank) ∧
      (params.center = false →
        AllMSScatterDevice.execute M params sample devs q rank
          = (devs.mapM fun d => AllMSScatterDevice.scatter_frames_norm1 M params sample d q)
            >>= fun devs1 =>
              reduce_frames params sample.NF (1 + 4 * params.resolution) devs1 rank) ∧
      (params.center = true →
        AllMCScatterDevice.execute M params sample devs q rank
          = (devs.mapM fun d => AllMCScatterDevice.scatter_frames_norm1 M params sample d q)
            >>= fun devs1 => (devs1.mapM fun d => multiply_alignmentfactors M sample d q)
            >>= fun devs2 =>
              reduce_frames params sample.NF (1 + 4 * params.resolution) devs2 rank) ∧
      (params.center = false →
        AllMCScatterDevice.execute M params sample devs q rank
          = (devs.mapM fun d => AllMCScatterDevice.scatter_frames_norm1 M params sample d q)
            >>= fun devs1 =>
              reduce_frames params sample.NF (1 + 4 * params.resolution) devs1 rank)) := by
  constructor
  · refine ⟨_, multiply_alignmentfactors_ok M sample d q hne, rfl, ?_, ?_, ?_⟩
    · exact (scale_rows_spec (alignment_factor M sample d.myframes q) d.a d.a.size1).1
    · exact (scale_rows_spec (alignment_factor M sample d.myframes q) d.a d.a.size1).2.1
    · intro i c hi hc
      show ((List.range d.a.size1).foldl
        (fun a i => scale_row (alignment_factor M sample d.myframes q i) a i) d.a).data i c = _
      rw [(scale_rows_spec (alignment_factor M sample d.myframes q) d.a d.a.size1).2.2 i c,
        if_pos ⟨hi, hc⟩]
      unfold alignment_factor
      rw [List.getLastD_eq_getLast?, List.getLast?_eq_getLast _ (hne i hi)]
      rfl
  · intro params devs rank
    refine ⟨?_, ?_, ?_, ?_⟩
    · intro hc
      simp only [AllMSScatterDevice.execute, hc, if_true]
    · intro hc
      simp only [AllMSScatterDevice.execute, hc]
      rfl
    · intro hc
      simp only [AllMCScatterDevice.execute, hc, if_true]
    · intro hc
      simp only [AllMCScatterDevice.execute, hc]
      rfl

theorem multiply_alignmentfactors_phase_witness :
    ∃ d2, multiply_alignmentfactors example_numerics example_sample
        ⟨[0, 1], example_matrix⟩ example_q = .ok d2 ∧
      d2.myframes = [0, 1] ∧ d2.a.size1 = 2 ∧ d2.a.size2 = 3 ∧
      ∀ i c, ∀ _hi : i < 2, c < 3 →
        d2.a.data i c = example_matrix.data i c *
          example_numerics.exp ⟨0, example_q.dot
            ((example_sample.get_postalignmentvectors (([0, 1] : List Nat).getD i 0)).getLast
              (List.cons_ne_nil _ _))⟩ :=
  (multiply_alignmentfactors_phase example_numerics example_sample
    ⟨[0, 1], example_matrix⟩ example_q (fun _ _ => List.cons_ne_nil _ _)).1

end AlignmentTheorems

section ExecuteBranches

variable {R : Type} [LinearOrderedField R]

omit [LinearOrderedField R] in
theorem reduce_frames_fftw [Field R] (params : Params R) (NF ncorr : Nat)
    (devs : List (Device R)) (rank : Nat)
    (ht : params.correlation_type = "time") (hm : params.correlation_method = "fftw") :
    reduce_frames params NF ncorr devs rank = .error .terminate := by
  unfold reduce_frames
  rw [if_pos ht, hm, if_neg (by decide), if_pos rfl]

omit [LinearOrderedField R] in
theorem bind_never_ok {α β : Type} (x : Except Fault α) (f : α → Except Fault β)
    (h : ∀ a s, f a ≠ .ok s) : ∀ s, (x >>= f) ≠ .ok s := by
  intro s
  cases x with
  | error e => intro hh; cases hh
  | ok a => exact h a s

theorem execute_fftw_never_ok (M : Numerics R) (params : Params R) (sample : Sample R)
    (devs : List (Device R)) (q : CartesianCoor3D R) (rank : Nat)
    (ht : params.correlation_type = "time") (hm : params.correlation_method = "fftw") :
    (∀ s, AllMSScatterDevice.execute M params sample devs q rank ≠ .ok s) ∧
    (∀ s, AllMCScatterDevice.execute M params sample devs q rank ≠ .ok s) := by
  have hred : ∀ (devs2 : List (Device R)) (s : List (Cplx R)),
      reduce_frames params sample.NF (1 + 4 * params.resolution) devs2 rank ≠ .ok s := by
    intro devs2 s
    rw [reduce_frames_fftw params _ _ _ _ ht hm]
    intro hh
    cases hh
  constructor
  · unfold AllMSScatterDevice.execute
    apply bind_never_ok
    intro devs1
    apply bind_never_ok
    exact hred
  · unfold AllMCScatterDevice.execute
    apply bind_never_ok
    intro devs1
    apply bind_never_ok
    exact hred

/-- C9 (as the code has it). With correlation type `time` and method `fftw`
neither device completes `execute`: the branch reached after the kernel and the
alignment reports that only `direct` is supported and throws, so no spectrum
is returned on any rank, for every input. -/
theorem execute_fftw_unsupported (M : Numerics R) (params : Params R) (sample : Sample R)
    (devs : List (Device R)) (q : CartesianCoor3D R) (rank : Nat)
    (ht : params.correlation_type = "time") (hm : params.correlation_method = "fftw") :
    (∀ (ncorr : Nat) (devs2 : List (Device R)),
      reduce_frames params sample.NF ncorr devs2 rank = .error .terminate) ∧
    (∀ s, AllMSScatterDevice.execute M params sample devs q rank ≠ .ok s) ∧
    (∀ s, AllMCScatterDevice.execute M params sample devs q rank ≠ .ok s) :=
  ⟨fun ncorr devs2 => reduce_frames_fftw params sample.NF ncorr devs2 rank ht hm,
   execute_fftw_never_ok M params sample devs q rank ht hm⟩

theorem execute_fftw_unsupported_witness :
    (∀ (ncorr : Nat) (devs2 : List (Device ℚ)),
      reduce_frames (example_params 1 "time" "fftw" false 48) example_sample.NF ncorr devs2 0
        = .error .terminate) ∧
    (∀ s, AllMSScatterDevice.execute example_numerics (example_params 1 "time" "fftw" false 48)
      example_sample example_devs example_q 0 ≠ .ok s) ∧
    (∀ s, AllMCScatterDevice.execute example_numerics (example_params 1 "time" "fftw" false 48)
      example_sample example_devs example_q 0 ≠ .ok s) :=
  execute_fftw_unsupported example_numerics (example_params 1 "time" "fftw" false 48)
    example_sample example_devs example_q 0 rfl rfl

/-- C9, counterexample. On three frames and one rank, `execute` with method
`fftw` stops with `terminate` in both devices, while the same input with
method `direct` returns a spectrum. -/
theorem execute_fftw_counterexample :
    AllMCScatterDevice.execute example_numerics (example_params 0 "time" "fftw" false 48)
      example_sample [⟨[0, 1, 2], ublas.matrix.resize 3 1⟩] example_q 0 = .error .terminate ∧
    AllMSScatterDevice.execute example_numerics (example_params 0 "time" "fftw" false 48)
      example_sample [⟨[0, 1, 2], ublas.matrix.resize 3 1⟩] example_q 0 = .error .terminate ∧
    (∃ s, AllMCScatterDevice.execute example_numerics (example_params 0 "time" "direct" false 48)
      example_sample [⟨[0, 1, 2], ublas.matrix.resize 3 1⟩] example_q 0 = .ok s) :=
  ⟨rfl, rfl, _, rfl⟩

/-- C8, failing input. With resolution 1, three frames on one rank and a cap
of 48 bytes both constructors succeed: the check compares `16 * 3 * 1 = 48`
bytes with the cap, while the matrices they allocate take `16 * 3 * 5 = 240`
(cylindrical) and `16 * 3 * 4 = 192` bytes (spherical). -/
theorem ram_check_ignores_columns :
    (∃ d, AllMCScatterDevice.new (example_params 1 "none" "direct" false 48) example_sample 1 0
        = .ok d ∧ 2 * sizeof_double * d.a.size1 * d.a.size2 = 240 ∧ d.a.size2 = 1 + 4 * 1) ∧
    (∃ d, AllMSScatterDevice.new (example_params 1 "none" "direct" false 48) example_sample 1 0
        = .ok d ∧ 2 * sizeof_double * d.a.size1 * d.a.size2 = 192 ∧ d.a.size2 = 1 + 3) ∧
    AllMCScatterDevice.new (example_params 1 "none" "direct" false 47) example_sample 1 0
      = .error .terminate :=
  ⟨⟨_, rfl, rfl, rfl⟩, ⟨_, rfl, rfl, rfl⟩, rfl⟩

/-- C5, failing input. With resolution 1 the spherical matrix has 4 columns,
but the correlation loop of `execute` runs over `1 + 4*1 = 5` of them:
`correlate_frames(4)` reads outside the matrix. -/
theorem spherical_execute_reads_outside :
    ((List.range 2).mapM
        (AllMSScatterDevice.new (example_params 1 "time" "direct" false 48) example_sample 2)
      >>= fun devs =>
        AllMSScatterDevice.execute example_numerics (example_params 1 "time" "direct" false 48)
          example_sample devs example_q 0) = .error .bad_index ∧
    AllMSScatterDevice.maxoffset 1 = 4 ∧ AllMSScatterDevice.maxoffset 3 = 16 ∧
    1 + 4 * 3 = 13 := by
  refine ⟨rfl, rfl, rfl, rfl⟩

end ExecuteBranches

section CylinderLemmas

variable {R : Type} [LinearOrderedField R]

omit [LinearOrderedField R] in
theorem assign_apply {K : Type} (v : Nat → K) (i : Nat) (x : K) (k : Nat) :
    assign v i x k = if k = i then x else v k := rfl

/-- The phase `exp(i * parallel_sign * z * qz)` of an atom. -/
theorem parallel_sign_phase (z qz : R) :
    AllMCScatterDevice.parallel_sign z qz * z * qz = |z| * |qz| := by
  unfold AllMCScatterDevice.parallel_sign
  by_cases h : z ≠ 0 ∧ qz ≠ 0
  · rw [if_pos h]
    have hz : |z| ≠ 0 := abs_ne_zero.mpr h.1
    have hq : |qz| ≠ 0 := abs_ne_zero.mpr h.2
    field_simp
    have e1 : z * z = |z| * |z| := (abs_mul_abs_self z).symm
    have e2 : qz * qz = |qz| * |qz| := (abs_mul_abs_self qz).symm
    calc z * qz * z * qz = (z * z) * (qz * qz) := by ring
      _ = (|z| * |z|) * (|qz| * |qz|) := by rw [e1, e2]
      _ = |z| * |qz| * (|z| * |qz|) := by ring
  · rw [if_neg h, one_mul]
    rw [not_and_or, not_not, not_not] at h
    rcases h with h | h <;> simp [h]

omit [LinearOrderedField R] in
theorem accumulate_orders [Field R] (tA tB tC tD : Nat → Cplx R) (n : Nat)
    (acc : AllMCScatterDevice.Coefficients R) (k : Nat) :
    ((List.range' 1 n).foldl
        (fun (acc : AllMCScatterDevice.Coefficients R) l =>
          ({ A := (assign acc.A l (acc.A l + tA l)),
             B := (assign acc.B l (acc.B l + tB l)),
             C := (assign acc.C l (acc.C l + tC l)),
             D := (assign acc.D l (acc.D l + tD l)) } : AllMCScatterDevice.Coefficients R))
        acc).A k = acc.A k + (if 1 ≤ k ∧ k ≤ n then tA k else 0) ∧
    ((List.range' 1 n).foldl
        (fun (acc : AllMCScatterDevice.Coefficients R) l =>
          ({ A := (assign acc.A l (acc.A l + tA l)),
             B := (assign acc.B l (acc.B l + tB l)),
             C := (assign acc.C l (acc.C l + tC l)),
             D := (assign acc.D l (acc.D l + tD l)) } : AllMCScatterDevice.Coefficients R))
        acc).B k = acc.B k + (if 1 ≤ k ∧ k ≤ n then tB k else 0) ∧
    ((List.range' 1 n).foldl
        (fun (acc : AllMCScatterDevice.Coefficients R) l =>
          ({ A := (assign acc.A l (acc.A l + tA l)),
             B := (assign acc.B l (acc.B l + tB l)),
             C := (assign acc.C l (acc.C l + tC l)),
             D := (assign acc.D l (acc.D l + tD l)) } : AllMCScatterDevice.Coefficients R))
        acc).C k = acc.C k + (if 1 ≤ k ∧ k ≤ n then tC k else 0) ∧
    ((List.range' 1 n).foldl
        (fun (acc : AllMCScatterDevice.Coefficients R) l =>
          ({ A := (assign acc.A l (acc.A l + tA l)),
             B := (assign acc.B l (acc.B l + tB l)),
             C := (assign acc.C l (acc.C l + tC l)),
             D := (assign acc.D l (acc.D l + tD l)) } : AllMCScatterDevice.Coefficients R))
        acc).D k = acc.D k + (if 1 ≤ k ∧ k ≤ n then tD k else 0) := by
  induction n generalizing k with
  | zero =>
    have : ¬ (1 ≤ k ∧ k ≤ 0) := by omega
    simp only [List.range'_zero, List.foldl_nil, if_neg this, add_zero, and_self]
  | succ n ih =>
    rw [List.range'_1_concat, List.foldl_append, List.foldl_cons, List.foldl_nil]
    obtain ⟨hA, hB, hC, hD⟩ := ih k
    obtain ⟨hA1, hB1, hC1, hD1⟩ := ih (1 + n)
    have hn : ¬ (1 ≤ 1 + n ∧ 1 + n ≤ n) := by omega
    rw [if_neg hn, add_zero] at hA1 hB1 hC1 hD1
    by_cases hk : k = 1 + n
    · subst hk
      have hin : 1 ≤ 1 + n ∧ 1 + n ≤ n + 1 := by omega
      simp only [assign_apply, if_true, if_pos hin, hA1, hB1, hC1, hD1, and_self]
    · simp only [assign_apply, if_neg hk, hA, hB, hC, hD]
      by_cases hle : 1 ≤ k ∧ k ≤ n
      · have : 1 ≤ k ∧ k ≤ n + 1 := by omega
        simp only [if_pos hle, if_pos this, and_self]
      · have : ¬ (1 ≤ k ∧ k ≤ n + 1) := by omega
        simp only [if_neg hle, if_neg this, and_self]

end CylinderLemmas

section CylinderAtoms

variable {R : Type} [LinearOrderedField R]

theorem accumulate_atom_spec (M : Numerics R) (lmax : Nat) (cs : CoordinateSet R)
    (sfs : List R) (qr qz : R) (acc : AllMCScatterDevice.Coefficients R) (j k : Nat) :
    (AllMCScatterDevice.accumulate_atom M lmax cs sfs qr qz acc j).A k
      = acc.A k + cyl_term_A M lmax cs sfs qr qz j k ∧
    (AllMCScatterDevice.accumulate_atom M lmax cs sfs qr qz acc j).B k
      = acc.B k + cyl_term_B M lmax cs sfs qr qz j k ∧
    (AllMCScatterDevice.accumulate_atom M lmax cs sfs qr qz acc j).C k
      = acc.C k + cyl_term_C M lmax cs sfs qr qz j k ∧
    (AllMCScatterDevice.accumulate_atom M lmax cs sfs qr qz acc j).D k
      = acc.D k + cyl_term_D M lmax cs sfs qr qz j k := by
  unfold AllMCScatterDevice.accumulate_atom
  simp only []
  obtain ⟨hA, hB, hC, hD⟩ := accumulate_orders
    (fun l => Cplx.ofReal (2 * (-1) ^ l * M.cyl_bessel_j (2 * l) (cs.c1.getD j 0 * qr))
      * cyl_expi M cs qz j * Cplx.ofReal (M.cos ((2 * l : R) * cs.c2.getD j 0))
      * Cplx.ofReal (sfs.getD j 0))
    (fun l => Cplx.ofReal (2 * (-1) ^ l * M.cyl_bessel_j (2 * l) (cs.c1.getD j 0 * qr))
      * cyl_expi M cs qz j * Cplx.ofReal (M.sin ((2 * l : R) * cs.c2.getD j 0))
      * Cplx.ofReal (sfs.getD j 0))
    (fun l => Cplx.I * Cplx.ofReal (2 * (-1) ^ (l - 1)
        * M.cyl_bessel_j (2 * l - 1) (cs.c1.getD j 0 * qr))
      * cyl_expi M cs qz j * Cplx.ofReal (M.cos ((2 * l - 1 : R) * cs.c2.getD j 0))
      * Cplx.ofReal (sfs.getD j 0))
    (fun l => Cplx.I * Cplx.ofReal (2 * (-1) ^ (l - 1)
        * M.cyl_bessel_j (2 * l - 1) (cs.c1.getD j 0 * qr))
      * cyl_expi M cs qz j * Cplx.ofReal (M.sin ((2 * l - 1 : R) * cs.c2.getD j 0))
      * Cplx.ofReal (sfs.getD j 0))
    lmax
    { acc with
      A := (assign acc.A 0
        (acc.A 0 + cyl_expi M cs qz j * Cplx.ofReal (M.cyl_bessel_j 0 (cs.c1.getD j 0 * qr))
          * Cplx.ofReal (sfs.getD j 0))) }
    k
  refine ⟨?_, ?_, ?_, ?_⟩
  · refine Eq.trans hA ?_
    unfold cyl_term_A
    show assign acc.A 0 _ k + _ = _
    rw [assign_apply]
    by_cases hk : k = 0
    · subst hk
      simp
    · have h1 : (1 ≤ k ∧ k ≤ lmax) = (k ≤ lmax) := by
        apply propext
        constructor
        · exact fun h => h.2
        · exact fun h => ⟨by omega, h⟩
      simp only [if_neg hk, h1]
  · exact hB
  · exact hC
  · exact hD

theorem coefficients_atoms (M : Numerics R) (lmax : Nat) (cs : CoordinateSet R)
    (sfs : List R) (qr qz : R) (n k : Nat) :
    ((List.range n).foldl (AllMCScatterDevice.accumulate_atom M lmax cs sfs qr qz)
        { A := fun _ => 0, B := fun _ => 0, C := fun _ => 0, D := fun _ => 0 }).A k
      = ∑ j in Finset.range n, cyl_term_A M lmax cs sfs qr qz j k ∧
    ((List.range n).foldl (AllMCScatterDevice.accumulate_atom M lmax cs sfs qr qz)
        { A := fun _ => 0, B := fun _ => 0, C := fun _ => 0, D := fun _ => 0 }).B k
      = ∑ j in Finset.range n, cyl_term_B M lmax cs sfs qr qz j k ∧
    ((List.range n).foldl (AllMCScatterDevice.accumulate_atom M lmax cs sfs qr qz)
        { A := fun _ => 0, B := fun _ => 0, C := fun _ => 0, D := fun _ => 0 }).C k
      = ∑ j in Finset.range n, cyl_term_C M lmax cs sfs qr qz j k ∧
    ((List.range n).foldl (AllMCScatterDevice.accumulate_atom M lmax cs sfs qr qz)
        { A := fun _ => 0, B := fun _ => 0, C := fun _ => 0, D := fun _ => 0 }).D k
      = ∑ j in Finset.range n, cyl_term_D M lmax cs sfs qr qz j k := by
  induction n with
  | zero => simp
  | succ n ih =>
    obtain ⟨hA, hB, hC, hD⟩ := ih
    rw [List.range_succ, List.foldl_append, List.foldl_cons, List.foldl_nil]
    obtain ⟨sA, sB, sC, sD⟩ := accumulate_atom_spec M lmax cs sfs qr qz
      ((List.range n).foldl (AllMCScatterDevice.accumulate_atom M lmax cs sfs qr qz)
        { A := fun _ => 0, B := fun _ => 0, C := fun _ => 0, D := fun _ => 0 }) n k
    rw [sA, sB, sC, sD, hA, hB, hC, hD]
    simp only [Finset.sum_range_succ, and_self]

end CylinderAtoms

section CylinderGeometry

variable {R : Type} [LinearOrderedField R]

theorem sqrt_mul_self (M : Numerics R) (hsqrt : IsSqrt M) (s : R) : M.sqrt (s * s) = |s| := by
  obtain ⟨h1, h2⟩ := hsqrt (s * s) (mul_self_nonneg s)
  rw [← abs_of_nonneg h1]
  exact abs_eq_abs.mpr (mul_self_eq_mul_self_iff.mp h2)

theorem unit_axis_norm (M : Numerics R) (hsqrt : IsSqrt M) (params : Params R)
    (haxis : params.axis ≠ ⟨0, 0, 0⟩) :
    (unit_axis M params).x * (unit_axis M params).x
      + (unit_axis M params).y * (unit_axis M params).y
      + (unit_axis M params).z * (unit_axis M params).z = 1 := by
  have hN : 0 < params.axis.x * params.axis.x + params.axis.y * params.axis.y
      + params.axis.z * params.axis.z := by
    by_contra hcon
    have h0 : params.axis.x * params.axis.x + params.axis.y * params.axis.y
        + params.axis.z * params.axis.z = 0 :=
      le_antisymm (not_lt.mp hcon)
        (by nlinarith [mul_self_nonneg params.axis.x, mul_self_nonneg params.axis.y,
          mul_self_nonneg params.axis.z])
    have hx : params.axis.x = 0 := by
      nlinarith [mul_self_nonneg params.axis.x, mul_self_nonneg params.axis.y,
        mul_self_nonneg params.axis.z, mul_self_eq_zero (a := params.axis.x)]
    have hy : params.axis.y = 0 := by
      nlinarith [mul_self_nonneg params.axis.x, mul_self_nonneg params.axis.y,
        mul_self_nonneg params.axis.z]
    have hz : params.axis.z = 0 := by
      nlinarith [mul_self_nonneg params.axis.x, mul_self_nonneg params.axis.y,
        mul_self_nonneg params.axis.z]
    apply haxis
    cases hax : params.axis with
    | mk x y z =>
      rw [hax] at hx hy hz
      simp only at hx hy hz
      rw [hx, hy, hz]
  obtain ⟨h1, h2⟩ := hsqrt _ (le_of_lt hN)
  have hlen : params.axis.length M ≠ 0 := by
    intro h
    unfold CartesianCoor3D.length at h
    rw [h] at h2
    simp at h2
    rw [← h2] at hN
    exact lt_irrefl _ hN
  have key : ∀ (x y z len : R), len ≠ 0 → len * len = x * x + y * y + z * z →
      x / len * (x / len) + y / len * (y / len) + z / len * (z / len) = 1 := by
    intro x y z len h0 h
    field_simp
    linear_combination -h
  exact key _ _ _ _ hlen h2

theorem qz_eq_abs (M : Numerics R) (hsqrt : IsSqrt M) (params : Params R)
    (haxis : params.axis ≠ ⟨0, 0, 0⟩) (q : CartesianCoor3D R) :
    (CartesianCoor3D.smul ((unit_axis M params).dot q) (unit_axis M params)).length M
      = |q_par M params q| := by
  have hn := unit_axis_norm M hsqrt params haxis
  unfold CartesianCoor3D.length CartesianCoor3D.smul q_par
  simp only []
  rw [← sqrt_mul_self M hsqrt]
  congr 1
  linear_combination
    ((unit_axis M params).dot q * (unit_axis M params).dot q) * hn

end CylinderGeometry

section CylinderKernel

variable {R : Type} [LinearOrderedField R]

theorem cyl_expi_abs (M : Numerics R) (cs : CoordinateSet R) (s : R) (j : Nat) :
    cyl_expi M cs |s| j = M.exp ⟨0, |cs.c3.getD j 0| * |s|⟩ := by
  unfold cyl_expi
  rw [parallel_sign_phase, abs_abs]

theorem coefficients_formula (M : Numerics R) (hsqrt : IsSqrt M) (params : Params R)
    (haxis : params.axis ≠ ⟨0, 0, 0⟩) (sample : Sample R) (q : CartesianCoor3D R)
    (frame k : Nat) :
    (AllMCScatterDevice.coefficients M params sample q frame).A k
      = ∑ j in Finset.range sample.noa,
          cyl_term_A M params.resolution (sample.load frame) (sample.get_all q)
            (q_perp M params q) |q_par M params q| j k ∧
    (AllMCScatterDevice.coefficients M params sample q frame).B k
      = ∑ j in Finset.range sample.noa,
          cyl_term_B M params.resolution (sample.load frame) (sample.get_all q)
            (q_perp M params q) |q_par M params q| j k ∧
    (AllMCScatterDevice.coefficients M params sample q frame).C k
      = ∑ j in Finset.range sample.noa,
          cyl_term_C M params.resolution (sample.load frame) (sample.get_all q)
            (q_perp M params q) |q_par M params q| j k ∧
    (AllMCScatterDevice.coefficients M params sample q frame).D k
      = ∑ j in Finset.range sample.noa,
          cyl_term_D M params.resolution (sample.load frame) (sample.get_all q)
            (q_perp M params q) |q_par M params q| j k := by
  have hqz := qz_eq_abs M hsqrt params haxis q
  have h := coefficients_atoms M params.resolution (sample.load frame) (sample.get_all q)
    (q_perp M params q) |q_par M params q| sample.noa k
  unfold AllMCScatterDevice.coefficients
  simp only []
  rw [← hqz] at h ⊢
  exact h

/-- C6, what the kernel computes. Cylindrical kernel: for a square-root
function `sqrt` and a non-zero axis, with `q_par` the component of `q` along
the unit axis and `q_perp` the length of the remainder, the accumulated
coefficients are sums over the atoms of the shape stated in the claim, but
the phase of atom `j` is `exp(i * |z_j| * |q_par|)` where the claim has
`exp(i * z_j * q_par)`: the kernel multiplies the signed product `z*qz` by
`parallel_sign`, the sign of `z*qz`, and its `qz`, a length, is `|q_par|`.
So `A_0 = Σ_j f_j * exp(i|z_j||q_par|) * J_0(r_j q_perp)`, and for
`1 ≤ l ≤ L`, `A_l = Σ_j 2(-1)^l J_{2l}(r_j q_perp) * exp(i|z_j||q_par|) *
cos(2l phi_j) * f_j`, `B_l` with `sin`, `C_l = Σ_j 2i(-1)^(l-1)
J_{2l-1}(r_j q_perp) * exp(i|z_j||q_par|) * cos((2l-1) phi_j) * f_j`, `D_l`
with `sin`.  For one atom on the axis with `f = 1` and `J_0(0) = 1` this gives
`A_0 = exp(i * |z| * |q_par|)`. -/
theorem cylinder_kernel_coefficients (M : Numerics R) (params : Params R) (sample : Sample R)
    (q : CartesianCoor3D R) (frame : Nat)
    (hsqrt : IsSqrt M) (haxis : params.axis ≠ ⟨0, 0, 0⟩) :
    (AllMCScatterDevice.coefficients M params sample q frame).A 0
      = ∑ j in Finset.range sample.noa,
          Cplx.ofReal ((sample.get_all q).getD j 0)
            * M.exp ⟨0, |(sample.load frame).c3.getD j 0| * |q_par M params q|⟩
            * Cplx.ofReal (M.cyl_bessel_j 0 ((sample.load frame).c1.getD j 0 * q_perp M params q)) ∧
    (∀ l, 1 ≤ l → l ≤ params.resolution →
      (AllMCScatterDevice.coefficients M params sample q frame).A l
        = ∑ j in Finset.range sample.noa,
            Cplx.ofReal (2 * (-1) ^ l
                * M.cyl_bessel_j (2 * l) ((sample.load frame).c1.getD j 0 * q_perp M params q))
              * M.exp ⟨0, |(sample.load frame).c3.getD j 0| * |q_par M params q|⟩
              * Cplx.ofReal (M.cos ((2 * l : R) * (sample.load frame).c2.getD j 0))
              * Cplx.ofReal ((sample.get_all q).getD j 0) ∧
      (AllMCScatterDevice.coefficients M params sample q frame).B l
        = ∑ j in Finset.range sample.noa,
            Cplx.ofReal (2 * (-1) ^ l
                * M.cyl_bessel_j (2 * l) ((sample.load frame).c1.getD j 0 * q_perp M params q))
              * M.exp ⟨0, |(sample.load frame).c3.getD j 0| * |q_par M params q|⟩
              * Cplx.ofReal (M.sin ((2 * l : R) * (sample.load frame).c2.getD j 0))
              * Cplx.ofReal ((sample.get_all q).getD j 0) ∧
      (AllMCScatterDevice.coefficients M params sample q frame).C l
        = ∑ j in Finset.range sample.noa,
            Cplx.I * Cplx.ofReal (2 * (-1) ^ (l - 1)
                * M.cyl_bessel_j (2 * l - 1) ((sample.load frame).c1.getD j 0 * q_perp M params q))
              * M.exp ⟨0, |(sample.load frame).c3.getD j 0| * |q_par M params q|⟩
              * Cplx.ofReal (M.cos ((2 * l - 1 : R) * (sample.load frame).c2.getD j 0))
              * Cplx.ofReal ((sample.get_all q).getD j 0) ∧
      (AllMCScatterDevice.coefficients M params sample q frame).D l
        = ∑ j in Finset.range sample.noa,
            Cplx.I * Cplx.ofReal (2 * (-1) ^ (l - 1)
                * M.cyl_bessel_j (2 * l - 1) ((sample.load frame).c1.getD j 0 * q_perp M params q))
              * M.exp ⟨0, |(sample.load frame).c3.getD j 0| * |q_par M params q|⟩
              * Cplx.ofReal (M.sin ((2 * l - 1 : R) * (sample.load frame).c2.getD j 0))
              * Cplx.ofReal ((sample.get_all q).getD j 0)) ∧
    (sample.noa = 1 → (sample.load frame).c1.getD 0 0 = 0 → (sample.get_all q).getD 0 0 = 1 →
      M.cyl_bessel_j 0 0 = 1 →
      (AllMCScatterDevice.coefficients M params sample q frame).A 0
        = M.exp ⟨0, |(sample.load frame).c3.getD 0 0| * |q_par M params q|⟩) := by
  have hA0 : (AllMCScatterDevice.coefficients M params sample q frame).A 0
      = ∑ j in Finset.range sample.noa,
          Cplx.ofReal ((sample.get_all q).getD j 0)
            * M.exp ⟨0, |(sample.load frame).c3.getD j 0| * |q_par M params q|⟩
            * Cplx.ofReal
                (M.cyl_bessel_j 0 ((sample.load frame).c1.getD j 0 * q_perp M params q)) := by
    rw [(coefficients_formula M hsqrt params haxis sample q frame 0).1]
    apply Finset.sum_congr rfl
    intro j _
    unfold cyl_term_A
    rw [if_pos rfl, cyl_expi_abs]
    ring
  refine ⟨hA0, ?_, ?_⟩
  · intro l h1 h2
    obtain ⟨fA, fB, fC, fD⟩ := coefficients_formula M hsqrt params haxis sample q frame l
    have hl0 : l ≠ 0 := by omega
    refine ⟨?_, ?_, ?_, ?_⟩
    · rw [fA]
      apply Finset.sum_congr rfl
      intro j _
      unfold cyl_term_A
      rw [if_neg hl0, if_pos h2, cyl_expi_abs]
    · rw [fB]
      apply Finset.sum_congr rfl
      intro j _
      unfold cyl_term_B
      rw [if_pos ⟨h1, h2⟩, cyl_expi_abs]
    · rw [fC]
      apply Finset.sum_congr rfl
      intro j _
      unfold cyl_term_C
      rw [if_pos ⟨h1, h2⟩, cyl_expi_abs]
    · rw [fD]
      apply Finset.sum_congr rfl
      intro j _
      unfold cyl_term_D
      rw [if_pos ⟨h1, h2⟩, cyl_expi_abs]
  · intro hn hr hf hJ
    rw [hA0, hn, Finset.sum_range_one, hr, hf, zero_mul, hJ]
    ext <;> simp

end CylinderKernel

section CylinderWitness

theorem real_isSqrt (e : Cplx ℝ → Cplx ℝ) (c s : ℝ → ℝ) (p : ℝ) (J K : Nat → ℝ → ℝ)
    (Y : Nat → Int → ℝ → ℝ → Cplx ℝ) :
    IsSqrt (⟨Real.sqrt, e, c, s, p, J, K, Y⟩ : Numerics ℝ) :=
  fun x hx => ⟨Real.sqrt_nonneg x, Real.mul_self_sqrt hx⟩

/-- C6, counterexample. Over the reals, with the real `sqrt`, `exp`, `cos`,
`sin` (and `J_n(0)` for the Bessel function, the only argument that occurs):
one atom on the axis at height `z = -1` with `f = 1`, axis `(0,0,1)` and
`q = (0,0,1)`, so `q_par = 1`.  The kernel accumulates `A_0 = exp(i)`, not the
claimed `f * exp(i*z*q_par) * J_0(r*q_perp) = exp(-i)`. -/
theorem cylinder_signed_phase_counterexample :
    let M : Numerics ℝ :=
      ⟨Real.sqrt, fun z => ⟨Real.exp z.re * Real.cos z.im, Real.exp z.re * Real.sin z.im⟩,
        Real.cos, Real.sin, Real.pi, fun n _ => if n = 0 then 1 else 0, fun _ _ => 0,
        fun _ _ _ _ => 0⟩
    let params : Params ℝ := ⟨false, "none", "direct", false, 0, ⟨0, 0, 1⟩, 0⟩
    let sample : Sample ℝ := ⟨1, 1, fun _ => ⟨[0], [0], [-1]⟩, fun _ => [], fun _ => [1]⟩
    let q : CartesianCoor3D ℝ := ⟨0, 0, 1⟩
    (AllMCScatterDevice.coefficients M params sample q 0).A 0
      ≠ ∑ j in Finset.range sample.noa,
          Cplx.ofReal ((sample.get_all q).getD j 0)
            * M.exp ⟨0, (sample.load 0).c3.getD j 0 * q_par M params q⟩
            * Cplx.ofReal (M.cyl_bessel_j 0 ((sample.load 0).c1.getD j 0 * q_perp M params q)) := by
  intro M params sample q
  have hsqrt : IsSqrt M := real_isSqrt _ _ _ _ _ _ _
  have haxis : params.axis ≠ ⟨0, 0, 0⟩ := by
    intro h
    have := congrArg CartesianCoor3D.z h
    simp [params] at this
  have hpar : q_par M params q = 1 := by
    simp [q_par, unit_axis, CartesianCoor3D.dot, CartesianCoor3D.div, CartesianCoor3D.length,
      M, params, q]
  rw [(coefficients_formula M hsqrt params haxis sample q 0 0).1, hpar]
  simp only [sample, Finset.sum_range_one, cyl_term_A, if_true, cyl_expi_abs]
  intro h
  have him := congrArg Cplx.im h
  simp [M] at him
  have hpos : 0 < Real.sin 1 :=
    Real.sin_pos_of_pos_of_lt_pi one_pos (by linarith [Real.pi_gt_three])
  linarith

theorem cylinder_kernel_coefficients_witness :
    let M : Numerics ℝ :=
      ⟨Real.sqrt, fun z => ⟨Real.exp z.re * Real.cos z.im, Real.exp z.re * Real.sin z.im⟩,
        Real.cos, Real.sin, Real.pi,
        fun n x => (∫ t in (0 : ℝ)..Real.pi, Real.cos ((n : ℝ) * t - x * Real.sin t)) / Real.pi,
        fun _ _ => 0, fun _ _ _ _ => 0⟩
    let params : Params ℝ := ⟨false, "none", "direct", false, 1, ⟨0, 0, 2⟩, 0⟩
    let sample : Sample ℝ :=
      ⟨1, 2, fun _ => ⟨[1, 2], [0, Real.pi / 3], [-1, 1 / 2]⟩, fun _ => [], fun _ => [1, 3]⟩
    let q : CartesianCoor3D ℝ := ⟨1, 0, -1⟩
    IsSqrt M ∧ params.axis ≠ ⟨0, 0, 0⟩ ∧
    (AllMCScatterDevice.coefficients M params sample q 0).A 0
      = ∑ j in Finset.range sample.noa,
          Cplx.ofReal ((sample.get_all q).getD j 0)
            * M.exp ⟨0, |(sample.load 0).c3.getD j 0| * |q_par M params q|⟩
            * Cplx.ofReal (M.cyl_bessel_j 0 ((sample.load 0).c1.getD j 0 * q_perp M params q)) ∧
    (AllMCScatterDevice.coefficients M params sample q 0).A 1
      = ∑ j in Finset.range sample.noa,
          Cplx.ofReal (2 * (-1) ^ 1
              * M.cyl_bessel_j (2 * 1) ((sample.load 0).c1.getD j 0 * q_perp M params q))
            * M.exp ⟨0, |(sample.load 0).c3.getD j 0| * |q_par M params q|⟩
            * Cplx.ofReal (M.cos ((2 * ((1 : Nat) : ℝ)) * (sample.load 0).c2.getD j 0))
            * Cplx.ofReal ((sample.get_all q).getD j 0) ∧
    (AllMCScatterDevice.coefficients M params sample q 0).B 1
      = ∑ j in Finset.range sample.noa,
          Cplx.ofReal (2 * (-1) ^ 1
              * M.cyl_bessel_j (2 * 1) ((sample.load 0).c1.getD j 0 * q_perp M params q))
            * M.exp ⟨0, |(sample.load 0).c3.getD j 0| * |q_par M params q|⟩
            * Cplx.ofReal (M.sin ((2 * ((1 : Nat) : ℝ)) * (sample.load 0).c2.getD j 0))
            * Cplx.ofReal ((sample.get_all q).getD j 0) ∧
    (AllMCScatterDevice.coefficients M params sample q 0).C 1
      = ∑ j in Finset.range sample.noa,
          Cplx.I * Cplx.ofReal (2 * (-1) ^ (1 - 1)
              * M.cyl_bessel_j (2 * 1 - 1) ((sample.load 0).c1.getD j 0 * q_perp M params q))
            * M.exp ⟨0, |(sample.load 0).c3.getD j 0| * |q_par M params q|⟩
            * Cplx.ofReal (M.cos ((2 * ((1 : Nat) : ℝ) - 1) * (sample.load 0).c2.getD j 0))
            * Cplx.ofReal ((sample.get_all q).getD j 0) ∧
    (AllMCScatterDevice.coefficients M params sample q 0).D 1
      = ∑ j in Finset.range sample.noa,
          Cplx.I * Cplx.ofReal (2 * (-1) ^ (1 - 1)
              * M.cyl_bessel_j (2 * 1 - 1) ((sample.load 0).c1.getD j 0 * q_perp M params q))
            * M.exp ⟨0, |(sample.load 0).c3.getD j 0| * |q_par M params q|⟩
            * Cplx.ofReal (M.sin ((2 * ((1 : Nat) : ℝ) - 1) * (sample.load 0).c2.getD j 0))
            * Cplx.ofReal ((sample.get_all q).getD j 0) ∧
    q_par M params q = -1 ∧ q_perp M params q = 1 ∧
    (AllMCScatterDevice.coefficients M params sample q 0).A 0
      = M.exp ⟨0, 1⟩ * Cplx.ofReal (M.cyl_bessel_j 0 1)
        + Cplx.ofReal 3 * M.exp ⟨0, 1 / 2⟩ * Cplx.ofReal (M.cyl_bessel_j 0 2) := by
  intro M params sample q
  have hsqrt : IsSqrt M := real_isSqrt _ _ _ _ _ _ _
  have haxis : params.axis ≠ ⟨0, 0, 0⟩ := by
    intro h
    have := congrArg CartesianCoor3D.z h
    simp [params] at this
  have h := cylinder_kernel_coefficients M params sample q 0 hsqrt haxis
  have hpar : q_par M params q = -1 := by
    simp [q_par, unit_axis, CartesianCoor3D.dot, CartesianCoor3D.div, CartesianCoor3D.length,
      M, params, q]
  have hperp : q_perp M params q = 1 := by
    unfold q_perp
    rw [hpar]
    simp [unit_axis, CartesianCoor3D.sub, CartesianCoor3D.smul, CartesianCoor3D.div,
      CartesianCoor3D.length, M, params, q]
  refine ⟨hsqrt, haxis, h.1, (h.2.1 1 le_rfl le_rfl).1, (h.2.1 1 le_rfl le_rfl).2.1,
    (h.2.1 1 le_rfl le_rfl).2.2.1, (h.2.1 1 le_rfl le_rfl).2.2.2, hpar, hperp, ?_⟩
  rw [h.1, hpar, hperp]
  simp only [sample, Finset.sum_range_succ, Finset.sum_range_zero]
  simp
  rw [abs_of_pos (by norm_num : (0 : ℝ) < 2⁻¹),
    show Cplx.ofReal (1 : ℝ) = 1 from Cplx.ext rfl rfl, one_mul]

/-- C6, what the unsigned phase costs. Over the reals, with the real `sqrt`,
`exp`, `cos`, `sin` (and `J_n(0)` for the Bessel function): two atoms on the
axis `(0,0,1)` with `f = 1`, at heights `0` and `1`, and `q = (0,0,pi)`.  The
kernel accumulates `A_0 = 1 + exp(i*pi) = 0`, so `|A_0|^2 = 0`.  For the same
two atoms moved along the axis by `-1/2` (heights `-1/2` and `1/2`) it
accumulates `A_0 = 2 * exp(i*pi/2) = 2i`, so `|A_0|^2 = 4`: the intensity of
the kernel changes under a shift of the whole sample along the axis.  The sum
`sum_j f_j * exp(i*z_j*q_par) * J_0(r_j*q_perp)` of the signed phases is `0`
for both. -/
theorem cylinder_axial_shift :
    let M : Numerics ℝ :=
      ⟨Real.sqrt, fun z => ⟨Real.exp z.re * Real.cos z.im, Real.exp z.re * Real.sin z.im⟩,
        Real.cos, Real.sin, Real.pi, fun n _ => if n = 0 then 1 else 0, fun _ _ => 0,
        fun _ _ _ _ => 0⟩
    let params : Params ℝ := ⟨false, "none", "direct", false, 0, ⟨0, 0, 1⟩, 0⟩
    let sample : Sample ℝ :=
      ⟨1, 2, fun _ => ⟨[0, 0], [0, 0], [0, 1]⟩, fun _ => [], fun _ => [1, 1]⟩
    let shifted : Sample ℝ :=
      ⟨1, 2, fun _ => ⟨[0, 0], [0, 0], [-1 / 2, 1 / 2]⟩, fun _ => [], fun _ => [1, 1]⟩
    let q : CartesianCoor3D ℝ := ⟨0, 0, Real.pi⟩
    (AllMCScatterDevice.coefficients M params sample q 0).A 0
        * Cplx.conj ((AllMCScatterDevice.coefficients M params sample q 0).A 0) = Cplx.ofReal 0 ∧
    (AllMCScatterDevice.coefficients M params shifted q 0).A 0
        * Cplx.conj ((AllMCScatterDevice.coefficients M params shifted q 0).A 0) = Cplx.ofReal 4 ∧
    (∑ j in Finset.range sample.noa,
        Cplx.ofReal ((sample.get_all q).getD j 0)
          * M.exp ⟨0, (sample.load 0).c3.getD j 0 * q_par M params q⟩
          * Cplx.ofReal (M.cyl_bessel_j 0 ((sample.load 0).c1.getD j 0 * q_perp M params q)))
      = 0 ∧
    (∑ j in Finset.range shifted.noa,
        Cplx.ofReal ((shifted.get_all q).getD j 0)
          * M.exp ⟨0, (shifted.load 0).c3.getD j 0 * q_par M params q⟩
          * Cplx.ofReal (M.cyl_bessel_j 0 ((shifted.load 0).c1.getD j 0 * q_perp M params q)))
      = 0 := by
  intro M params sample shifted q
  have hsqrt : IsSqrt M := real_isSqrt _ _ _ _ _ _ _
  have haxis : params.axis ≠ ⟨0, 0, 0⟩ := by
    intro h
    have := congrArg CartesianCoor3D.z h
    simp [params] at this
  have hpar : q_par M params q = Real.pi := by
    simp [q_par, unit_axis, CartesianCoor3D.dot, CartesianCoor3D.div, CartesianCoor3D.length,
      M, params, q]
  have hpi : |Real.pi| = Real.pi := abs_of_pos Real.pi_pos
  have ha : |(-1 : ℝ) / 2| = 2⁻¹ := by
    rw [abs_of_neg (by norm_num)]
    norm_num
  have hb : |(2⁻¹ : ℝ)| = 2⁻¹ := abs_of_pos (by norm_num)
  have hh : (2⁻¹ : ℝ) * Real.pi = Real.pi / 2 := by ring
  have hn : (-1 : ℝ) / 2 * Real.pi = -(Real.pi / 2) := by ring
  have h1 : (AllMCScatterDevice.coefficients M params sample q 0).A 0 = 0 := by
    rw [(coefficients_formula M hsqrt params haxis sample q 0 0).1, hpar]
    simp only [sample, Finset.sum_range_succ, Finset.sum_range_zero, cyl_term_A, if_true,
      cyl_expi_abs]
    ext <;> simp [M, hpi, Cplx.ofReal]
  have h2 : (AllMCScatterDevice.coefficients M params shifted q 0).A 0 = ⟨0, 2⟩ := by
    rw [(coefficients_formula M hsqrt params haxis shifted q 0 0).1, hpar]
    simp only [shifted, Finset.sum_range_succ, Finset.sum_range_zero, cyl_term_A, if_true,
      cyl_expi_abs]
    ext <;> simp [M, hpi, Cplx.ofReal]
    · rw [ha, hb, hh, Real.cos_pi_div_two]
      norm_num
    · rw [ha, hb, hh, Real.sin_pi_div_two]
      norm_num
  refine ⟨?_, ?_, ?_, ?_⟩
  · rw [h1]
    ext <;> simp [Cplx.conj, Cplx.ofReal]
  · rw [h2]
    ext <;> simp [Cplx.conj, Cplx.ofReal]
    norm_num
  · rw [hpar]
    simp only [sample, Finset.sum_range_succ, Finset.sum_range_zero]
    ext <;> simp [M, Cplx.ofReal]
  · rw [hpar]
    simp only [shifted, Finset.sum_range_succ, Finset.sum_range_zero]
    ext <;> simp [M, Cplx.ofReal]
    · rw [hn, hh, Real.cos_neg, Real.cos_pi_div_two]
      norm_num
    · rw [hn, hh, Real.sin_neg, Real.sin_pi_div_two]
      norm_num

end CylinderWitness

section CylinderWrites

variable {R : Type} [LinearOrderedField R]

omit [LinearOrderedField R] in
theorem write_ok {K : Type} (a : ublas.matrix K) (i j : Nat) (v : K) (hi : i < a.size1)
    (hj : j < a.size2) : a.write i j v = .ok (a.set i j v) := by
  unfold ublas.matrix.write
  rw [if_pos ⟨hi, hj⟩]

theorem cyl_write_orders (iframe : Nat) (w : Cplx R) (vA vB vC vD : Nat → Cplx R) (n : Nat)
    (a : ublas.matrix (Cplx R)) (hi : iframe < a.size1) (hn : 1 + 4 * n ≤ a.size2) :
    ∃ a2, (List.range' 1 n).foldlM
        (fun (a : ublas.matrix (Cplx R)) l => do
          let a1 ← a.write iframe ((l - 1) * 4 + 1) (w * vA l)
          let a2 ← a1.write iframe ((l - 1) * 4 + 2) (w * vB l)
          let a3 ← a2.write iframe ((l - 1) * 4 + 3) (w * vC l)
          a3.write iframe ((l - 1) * 4 + 4) (w * vD l))
        a = .ok a2 ∧
      a2.size1 = a.size1 ∧ a2.size2 = a.size2 ∧
      ∀ i c, a2.data i c
        = if i = iframe ∧ 1 ≤ c ∧ c ≤ 4 * n then
            (if (c - 1) % 4 = 0 then w * vA ((c - 1) / 4 + 1)
             else if (c - 1) % 4 = 1 then w * vB ((c - 1) / 4 + 1)
             else if (c - 1) % 4 = 2 then w * vC ((c - 1) / 4 + 1)
             else w * vD ((c - 1) / 4 + 1))
          else a.data i c := by
  induction n with
  | zero =>
    refine ⟨a, rfl, rfl, rfl, ?_⟩
    intro i c
    have : ¬ (i = iframe ∧ 1 ≤ c ∧ c ≤ 4 * 0) := by omega
    rw [if_neg this]
  | succ n ih =>
    obtain ⟨a2, h0, h1, h2, h3⟩ := ih (by omega)
    rw [List.range'_1_concat, List.foldlM_append, h0]
    have e1 : (1 + n - 1) * 4 + 1 = 4 * n + 1 := by omega
    have e2 : (1 + n - 1) * 4 + 2 = 4 * n + 2 := by omega
    have e3 : (1 + n - 1) * 4 + 3 = 4 * n + 3 := by omega
    have e4 : (1 + n - 1) * 4 + 4 = 4 * n + 4 := by omega
    refine ⟨(((a2.set iframe (4 * n + 1) (w * vA (1 + n))).set iframe (4 * n + 2)
      (w * vB (1 + n))).set iframe (4 * n + 3) (w * vC (1 + n))).set iframe (4 * n + 4)
      (w * vD (1 + n)), ?_, by simpa using h1, by simpa using h2, ?_⟩
    · simp only [List.foldlM_cons, List.foldlM_nil, e1, e2, e3, e4, bind, Except.bind, pure,
        Except.pure]
      rw [write_ok a2 _ _ _ (by omega) (by omega)]
      simp only []
      rw [write_ok _ _ _ _ (by simpa using (by omega : iframe < a2.size1))
        (by simp only [ublas.matrix.set_size2]; omega)]
      simp only []
      rw [write_ok _ _ _ _ (by simpa using (by omega : iframe < a2.size1))
        (by simp only [ublas.matrix.set_size2]; omega)]
      simp only []
      rw [write_ok _ _ _ _ (by simpa using (by omega : iframe < a2.size1))
        (by simp only [ublas.matrix.set_size2]; omega)]
    · intro i c
      simp only [ublas.matrix.set_data]
      by_cases hi2 : i = iframe
      · subst hi2
        by_cases c4 : c = 4 * n + 4
        · subst c4
          rw [if_pos ⟨rfl, rfl⟩, if_pos ⟨rfl, by omega, by omega⟩, if_neg (by omega),
            if_neg (by omega), if_neg (by omega),
            (by omega : (4 * n + 4 - 1) / 4 + 1 = 1 + n)]
        · rw [if_neg (fun h => c4 h.2)]
          by_cases c3 : c = 4 * n + 3
          · subst c3
            rw [if_pos ⟨rfl, rfl⟩, if_pos ⟨rfl, by omega, by omega⟩, if_neg (by omega),
              if_neg (by omega), if_pos (by omega),
              (by omega : (4 * n + 3 - 1) / 4 + 1 = 1 + n)]
          · rw [if_neg (fun h => c3 h.2)]
            by_cases c2 : c = 4 * n + 2
            · subst c2
              rw [if_pos ⟨rfl, rfl⟩, if_pos ⟨rfl, by omega, by omega⟩, if_neg (by omega),
                if_pos (by omega), (by omega : (4 * n + 2 - 1) / 4 + 1 = 1 + n)]
            · rw [if_neg (fun h => c2 h.2)]
              by_cases c1 : c = 4 * n + 1
              · subst c1
                rw [if_pos ⟨rfl, rfl⟩, if_pos ⟨rfl, by omega, by omega⟩, if_pos (by omega),
                  (by omega : (4 * n + 1 - 1) / 4 + 1 = 1 + n)]
              · rw [if_neg (fun h => c1 h.2), h3]
                by_cases hle : 1 ≤ c ∧ c ≤ 4 * n
                · have hp : i = i ∧ 1 ≤ c ∧ c ≤ 4 * (n + 1) := ⟨rfl, by omega, by omega⟩
                  have hq : i = i ∧ 1 ≤ c ∧ c ≤ 4 * n := ⟨rfl, hle⟩
                  rw [if_pos hq, if_pos hp]
                · have hp : ¬ (i = i ∧ 1 ≤ c ∧ c ≤ 4 * (n + 1)) := by omega
                  have hq : ¬ (i = i ∧ 1 ≤ c ∧ c ≤ 4 * n) := fun h => hle h.2
                  rw [if_neg hq, if_neg hp]
      · rw [if_neg (fun h => hi2 h.1), if_neg (fun h => hi2 h.1), if_neg (fun h => hi2 h.1),
          if_neg (fun h => hi2 h.1), h3, if_neg (fun h => hi2 h.1), if_neg (fun h => hi2 h.1)]

end CylinderWrites

section KernelRows

variable {R : Type} [LinearOrderedField R]

theorem cyl_scatter_frame (M : Numerics R) (params : Params R) (sample : Sample R)
    (d : Device R) (iframe : Nat) (q : CartesianCoor3D R) (hi : iframe < d.a.size1)
    (hC : d.a.size2 = 1 + 4 * params.resolution) :
    ∃ d2, AllMCScatterDevice.scatter_frame_norm1 M params sample d iframe q = .ok d2 ∧
      d2.myframes = d.myframes ∧ d2.a.size1 = d.a.size1 ∧ d2.a.size2 = d.a.size2 ∧
      ∀ i c, d2.a.data i c
        = if i = iframe ∧ c < 1 + 4 * params.resolution then
            cyl_entry M params sample q (d.myframes.getD iframe 0) c
          else d.a.data i c := by
  obtain ⟨a2, h0, h1, h2, h3⟩ := cyl_write_orders iframe (Cplx.ofReal (M.sqrt (1 / 2)))
    (AllMCScatterDevice.coefficients M params sample q (d.myframes.getD iframe 0)).A
    (AllMCScatterDevice.coefficients M params sample q (d.myframes.getD iframe 0)).B
    (AllMCScatterDevice.coefficients M params sample q (d.myframes.getD iframe 0)).C
    (AllMCScatterDevice.coefficients M params sample q (d.myframes.getD iframe 0)).D
    params.resolution
    (d.a.set iframe 0
      ((AllMCScatterDevice.coefficients M params sample q (d.myframes.getD iframe 0)).A 0))
    (by simpa using hi) (by simp only [ublas.matrix.set_size2]; omega)
  refine ⟨{ d with a := a2 }, ?_, rfl, by simpa using h1, by simpa using h2, ?_⟩
  · unfold AllMCScatterDevice.scatter_frame_norm1
    simp only []
    rw [write_ok d.a iframe 0 _ hi (by omega)]
    simp only [bind, Except.bind, pure, Except.pure] at h0 ⊢
    rw [h0]
  · intro i c
    rw [h3, ublas.matrix.set_data]
    unfold cyl_entry
    by_cases hi2 : i = iframe
    · subst hi2
      by_cases hc0 : c = 0
      · subst hc0
        have hn : ¬ (i = i ∧ 1 ≤ 0 ∧ 0 ≤ 4 * params.resolution) := by omega
        have hp : i = i ∧ 0 < 1 + 4 * params.resolution := ⟨rfl, by omega⟩
        rw [if_neg hn, if_pos ⟨rfl, rfl⟩, if_pos hp, if_pos rfl]
      · by_cases hle : c ≤ 4 * params.resolution
        · have h1 : i = i ∧ 1 ≤ c ∧ c ≤ 4 * params.resolution := ⟨rfl, by omega, hle⟩
          have h2 : i = i ∧ c < 1 + 4 * params.resolution := ⟨rfl, by omega⟩
          rw [if_pos h1, if_pos h2, if_neg hc0]
        · have h1 : ¬ (i = i ∧ 1 ≤ c ∧ c ≤ 4 * params.resolution) := fun h => hle h.2.2
          have h2 : ¬ (i = i ∧ c < 1 + 4 * params.resolution) := by omega
          have h3 : ¬ (i = i ∧ c = 0) := fun h => hc0 h.2
          rw [if_neg h1, if_neg h2, if_neg h3]
    · have h1 : ¬ (i = iframe ∧ 1 ≤ c ∧ c ≤ 4 * params.resolution) := fun h => hi2 h.1
      have h2 : ¬ (i = iframe ∧ c < 1 + 4 * params.resolution) := fun h => hi2 h.1
      have h3 : ¬ (i = iframe ∧ c = 0) := fun h => hi2 h.1
      rw [if_neg h1, if_neg h2, if_neg h3]

omit [LinearOrderedField R] in
theorem kernel_rows [Field R] (kernel : Device R → Nat → Except Fault (Device R))
    (entry : Nat → Nat → Cplx R) (C : Nat)
    (hk : ∀ d i, i < d.a.size1 → d.a.size2 = C →
      ∃ d2, kernel d i = .ok d2 ∧ d2.myframes = d.myframes ∧ d2.a.size1 = d.a.size1 ∧
        d2.a.size2 = d.a.size2 ∧
        ∀ i2 c, d2.a.data i2 c
          = if i2 = i ∧ c < C then entry (d.myframes.getD i 0) c else d.a.data i2 c)
    (d : Device R) (hC : d.a.size2 = C) (n : Nat) (hn : n ≤ d.a.size1) :
    ∃ d2, (List.range n).foldlM kernel d = .ok d2 ∧ d2.myframes = d.myframes ∧
      d2.a.size1 = d.a.size1 ∧ d2.a.size2 = d.a.size2 ∧
      ∀ i2 c, d2.a.data i2 c
        = if i2 < n ∧ c < C then entry (d.myframes.getD i2 0) c else d.a.data i2 c := by
  induction n with
  | zero =>
    refine ⟨d, rfl, rfl, rfl, rfl, ?_⟩
    intro i2 c
    have : ¬ (i2 < 0 ∧ c < C) := by omega
    rw [if_neg this]
  | succ n ih =>
    obtain ⟨d1, h0, h1, h2, h3, h4⟩ := ih (by omega)
    obtain ⟨d2, k0, k1, k2, k3, k4⟩ := hk d1 n (by omega) (by omega)
    refine ⟨d2, ?_, k1.trans h1, k2.trans h2, k3.trans h3, ?_⟩
    · rw [List.range_succ, List.foldlM_append, h0]
      simp only [List.foldlM_cons, List.foldlM_nil, bind, Except.bind, pure, Except.pure, k0]
    · intro i2 c
      rw [k4, h4, h1]
      by_cases hc : c < C
      · by_cases hi : i2 = n
        · subst hi
          have hp : i2 < i2 + 1 ∧ c < C := ⟨by omega, hc⟩
          rw [if_pos ⟨rfl, hc⟩, if_pos hp]
        · by_cases hlt : i2 < n
          · have hp : i2 < n + 1 ∧ c < C := ⟨by omega, hc⟩
            have hq : ¬ (i2 = n ∧ c < C) := fun h => hi h.1
            rw [if_neg hq, if_pos ⟨hlt, hc⟩, if_pos hp]
          · have hp : ¬ (i2 < n + 1 ∧ c < C) := by omega
            have hq : ¬ (i2 = n ∧ c < C) := fun h => hi h.1
            have hr : ¬ (i2 < n ∧ c < C) := fun h => hlt h.1
            rw [if_neg hq, if_neg hr, if_neg hp]
      · have hp : ¬ (i2 < n + 1 ∧ c < C) := fun h => hc h.2
        have hq : ¬ (i2 = n ∧ c < C) := fun h => hc h.2
        have hr : ¬ (i2 < n ∧ c < C) := fun h => hc h.2
        rw [if_neg hq, if_neg hr, if_neg hp]

theorem cyl_scatter_frames (M : Numerics R) (params : Params R) (sample : Sample R)
    (d : Device R) (q : CartesianCoor3D R) (h1 : d.a.size1 = d.myframes.length)
    (hC : d.a.size2 = 1 + 4 * params.resolution) :
    ∃ d2, AllMCScatterDevice.scatter_frames_norm1 M params sample d q = .ok d2 ∧
      d2.myframes = d.myframes ∧
      RowsHold (1 + 4 * params.resolution) (cyl_entry M params sample q) d2 := by
  obtain ⟨d2, k0, k1, k2, k3, k4⟩ := kernel_rows
    (fun d i => AllMCScatterDevice.scatter_frame_norm1 M params sample d i q)
    (cyl_entry M params sample q) (1 + 4 * params.resolution)
    (fun d i hi hC => cyl_scatter_frame M params sample d i q hi hC)
    d hC d.myframes.length (by omega)
  refine ⟨d2, k0, k1, ?_, ?_, ?_⟩
  · rw [k2, h1, k1]
  · rw [k3, hC]
  · intro j c hj hc
    rw [k1] at hj ⊢
    rw [k4, if_pos ⟨hj, hc⟩]

omit [LinearOrderedField R] in
theorem mapM_devices [Field R] (f : Device R → Except Fault (Device R))
    (P Q : Device R → Prop)
    (hf : ∀ d, P d → ∃ d2, f d = .ok d2 ∧ d2.myframes = d.myframes ∧ Q d2)
    (devs : List (Device R)) (hP : ∀ d ∈ devs, P d) :
    ∃ devs2, devs.mapM f = .ok devs2 ∧
      devs2.map (fun d => d.myframes) = devs.map (fun d => d.myframes) ∧
      ∀ d2 ∈ devs2, Q d2 := by
  induction devs with
  | nil => exact ⟨[], rfl, rfl, by simp⟩
  | cons d ds ih =>
    obtain ⟨ds2, h0, h1, h2⟩ := ih (fun x hx => hP x (List.mem_cons_of_mem _ hx))
    obtain ⟨d2, k0, k1, k2⟩ := hf d (hP d (List.mem_cons_self _ _))
    refine ⟨d2 :: ds2, ?_, ?_, ?_⟩
    · rw [List.mapM_cons, k0, h0]
      rfl
    · simp only [List.map_cons, k1, h1]
    · intro x hx
      rcases List.mem_cons.mp hx with rfl | hx
      · exact k2
      · exact h2 x hx

end KernelRows

section WorldLemmas

variable {R : Type} [LinearOrderedField R]

omit [LinearOrderedField R] in
theorem holdsMatrix_column [Field R] (NF NN C : Nat) (G : Nat → Nat → Cplx R)
    (devs : List (Device R)) (h : HoldsMatrix NF NN C G devs) (c : Nat) (hc : c < C) :
    HoldsColumn NF NN c (fun f => G f c) devs := by
  refine ⟨h.1, ?_⟩
  intro d hd
  obtain ⟨h1, h2, h3⟩ := h.2 d hd
  exact ⟨h1, by omega, fun j hj => h3 j c hj hc⟩

omit [LinearOrderedField R] in
theorem holdsMatrix_frames [Field R] (NF NN C : Nat) (G : Nat → Nat → Cplx R)
    (devs : List (Device R)) (h : HoldsMatrix NF NN C G devs) (d : Device R) (hd : d ∈ devs)
    (j : Nat) (hj : j < d.myframes.length) : d.myframes.getD j 0 < NF := by
  have hmem : d.myframes ∈ devs.map (fun d => d.myframes) := List.mem_map.mpr ⟨d, hd, rfl⟩
  rw [h.1, List.mem_map] at hmem
  obtain ⟨r, hr, hrd⟩ := hmem
  rw [List.mem_range] at hr
  apply EvenDecompose.lt_of_mem NF NN r _ hr
  rw [hrd, List.getD_eq_getElem _ _ hj]
  exact List.getElem_mem _

theorem cyl_kernel_world (M : Numerics R) (params : Params R) (sample : Sample R)
    (q : CartesianCoor3D R) (NF NN : Nat) (devs : List (Device R))
    (hst : Staged NF NN (1 + 4 * params.resolution) devs) :
    ∃ devs1, (devs.mapM fun d => AllMCScatterDevice.scatter_frames_norm1 M params sample d q)
        = .ok devs1 ∧
      HoldsMatrix NF NN (1 + 4 * params.resolution) (cyl_entry M params sample q) devs1 := by
  obtain ⟨devs1, h0, h1, h2⟩ := mapM_devices
    (fun d => AllMCScatterDevice.scatter_frames_norm1 M params sample d q)
    (fun d => d.a.size1 = d.myframes.length ∧ d.a.size2 = 1 + 4 * params.resolution)
    (RowsHold (1 + 4 * params.resolution) (cyl_entry M params sample q))
    (fun d hd => cyl_scatter_frames M params sample d q hd.1 hd.2)
    devs hst.2
  exact ⟨devs1, h0, h1.trans hst.1, h2⟩

omit [LinearOrderedField R] in
theorem alignment_world [Field R] (M : Numerics R) (sample : Sample R)
    (q : CartesianCoor3D R)
    (NF NN C : Nat) (G : Nat → Nat → Cplx R) (devs : List (Device R))
    (h : HoldsMatrix NF NN C G devs)
    (hne : ∀ f, f < NF → sample.get_postalignmentvectors f ≠ []) :
    ∃ devs2, (devs.mapM fun d => multiply_alignmentfactors M sample d q) = .ok devs2 ∧
      HoldsMatrix NF NN C (fun f c => G f c * frame_factor M sample q f) devs2 := by
  obtain ⟨devs2, h0, h1, h2⟩ := mapM_devices
    (fun d => multiply_alignmentfactors M sample d q)
    (fun d => RowsHold C G d ∧ ∀ j, j < d.myframes.length → d.myframes.getD j 0 < NF)
    (RowsHold C (fun f c => G f c * frame_factor M sample q f))
    (by
      intro d hd
      obtain ⟨⟨r1, r2, r3⟩, hfr⟩ := hd
      have hne2 : ∀ i, i < d.a.size1 →
          sample.get_postalignmentvectors (d.myframes.getD i 0) ≠ [] :=
        fun i hi => hne _ (hfr i (by omega))
      refine ⟨_, multiply_alignmentfactors_ok M sample d q hne2, rfl, ?_⟩
      obtain ⟨s1, s2, s3⟩ := scale_rows_spec (alignment_factor M sample d.myframes q) d.a
        d.a.size1
      refine ⟨s1.trans r1, s2.trans r2, ?_⟩
      intro j c hj hc
      show ((List.range d.a.size1).foldl
        (fun a i => scale_row (alignment_factor M sample d.myframes q i) a i) d.a).data j c = _
      have hj2 : j < d.myframes.length := hj
      have hp : j < d.a.size1 ∧ c < d.a.size2 := ⟨by omega, by omega⟩
      rw [s3, if_pos hp, r3 j c hj2 hc]
      rfl)
    devs (fun d hd => ⟨h.2 d hd, holdsMatrix_frames NF NN C G devs h d hd⟩)
  exact ⟨devs2, h0, h1.trans h.1, h2⟩

omit [LinearOrderedField R] in
theorem add_spectrum_spec [Field R] (NF : Nat) (s t : List (Cplx R)) (hs : s.length = NF) :
    (add_spectrum NF s t).length = NF ∧
    ∀ k, k < NF → (add_spectrum NF s t).getD k 0 = s.getD k 0 + t.getD k 0 := by
  have key : ∀ m, m ≤ NF →
      ((List.range m).foldl
        (fun s csi => s.set csi (s.getD csi 0 + t.getD csi 0)) s).length = NF ∧
      ∀ k, ((List.range m).foldl
        (fun s csi => s.set csi (s.getD csi 0 + t.getD csi 0)) s).getD k 0
          = if k < m then s.getD k 0 + t.getD k 0 else s.getD k 0 := by
    intro m
    induction m with
    | zero => intro _; simp [hs]
    | succ m ih =>
      intro hm
      obtain ⟨h1, h2⟩ := ih (by omega)
      rw [List.range_succ, List.foldl_append, List.foldl_cons, List.foldl_nil]
      refine ⟨by rw [List.length_set]; exact h1, ?_⟩
      intro k
      rw [getD_set, h1, h2, h2]
      by_cases hk : m = k
      · subst hk
        have hp : m = m ∧ m < NF := ⟨rfl, by omega⟩
        rw [if_pos hp, if_neg (by omega), if_pos (by omega)]
      · have hp : ¬ (m = k ∧ m < NF) := fun h => hk h.1
        rw [if_neg hp]
        by_cases hlt : k < m
        · rw [if_pos hlt, if_pos (by omega)]
        · rw [if_neg hlt, if_neg (by omega)]
  unfold add_spectrum
  obtain ⟨h1, h2⟩ := key NF (le_refl NF)
  refine ⟨h1, ?_⟩
  intro k hk
  rw [h2, if_pos hk]

omit [LinearOrderedField R] in
theorem static_result [Field R] (params : Params R) (NF NN C ncorr : Nat)
    (G : Nat → Nat → Cplx R)
    (devs : List (Device R)) (hNN : 1 ≤ NN) (hC : 1 ≤ C) (h : HoldsMatrix NF NN C G devs)
    (ht : params.correlation_type ≠ "time") :
    reduce_frames params NF ncorr devs 0
      = .ok ((List.range NF).map fun f =>
          ∑ c in Finset.range C, G f c * Cplx.conj (G f c)) := by
  unfold reduce_frames
  rw [if_neg ht]
  apply gather_frames_eq NF NN _ _ hNN
  refine ⟨?_, ?_⟩
  · rw [List.map_map]
    exact h.1
  · intro d2 hd2
    rw [List.mem_map] at hd2
    obtain ⟨d, hd, rfl⟩ := hd2
    obtain ⟨r1, r2, r3⟩ := h.2 d hd
    obtain ⟨s1, s2, s3⟩ := conjmultiply_rows d.a (by omega) d.a.size1
    refine ⟨s1.trans r1, ?_, ?_⟩
    · show 0 < (conjmultiply_frames d.a).size2
      unfold conjmultiply_frames
      rw [s2]
      omega
    · intro j hj
      show (conjmultiply_frames d.a).data j 0 = _
      unfold conjmultiply_frames
      rw [s3, if_pos ⟨by show j < d.a.size1; rw [r1]; exact hj, rfl⟩]
      unfold row_norm2
      rw [r2]
      apply Finset.sum_congr rfl
      intro c hc
      rw [r3 j c hj (Finset.mem_range.mp hc)]

omit [LinearOrderedField R] in
theorem dynamic_result [Field R] (params : Params R) (NF NN C ncorr : Nat)
    (G : Nat → Nat → Cplx R)
    (devs : List (Device R)) (hNN : 1 ≤ NN) (hn : ncorr ≤ C) (h : HoldsMatrix NF NN C G devs)
    (ht : params.correlation_type = "time") (hm : params.correlation_method = "direct") :
    reduce_frames params NF ncorr devs 0
      = .ok ((List.range NF).map fun tau =>
          ∑ i in Finset.range ncorr,
            spec_autocorrelation NF params.zeromean (fun f => G f i) tau) := by
  unfold reduce_frames
  rw [if_pos ht, if_pos hm]
  induction ncorr with
  | zero =>
    simp only [List.range_zero, List.foldlM_nil, Finset.range_zero, Finset.sum_empty, pure,
      Except.pure]
    congr 1
    apply List.ext_getElem
    · simp
    · intro k h1 h2
      simp
  | succ n ih =>
    rw [List.range_succ, List.foldlM_append, ih (by omega)]
    simp only [List.foldlM_cons, List.foldlM_nil, bind, Except.bind, pure, Except.pure]
    rw [correlate_frames_eq NF NN n params.zeromean (fun f => G f n) devs hNN
      (holdsMatrix_column NF NN C G devs h n (by omega))]
    simp only []
    congr 1
    obtain ⟨a1, a2⟩ := add_spectrum_spec NF
      ((List.range NF).map fun tau =>
        ∑ i in Finset.range n, spec_autocorrelation NF params.zeromean (fun f => G f i) tau)
      ((List.range NF).map fun tau =>
        spec_autocorrelation NF params.zeromean (fun f => G f n) tau) (by simp)
    apply List.ext_getElem
    · simpa using a1
    · intro k h1 h2
      have hk : k < NF := by simpa using h2
      have := a2 k hk
      rw [List.getD_eq_getElem _ _ h1] at this
      rw [this, getD_map_range _ NF k hk, getD_map_range _ NF k hk]
      simp [Finset.sum_range_succ]

end WorldLemmas

section CylinderExecute

variable {R : Type} [LinearOrderedField R]

omit [LinearOrderedField R] in
theorem sum_map_range [Field R] (f : Nat → Cplx R) (n : Nat) :
    ((List.range n).map f).sum = ∑ c in Finset.range n, f c := by
  induction n with
  | zero => simp
  | succ n ih =>
    rw [List.range_succ, List.map_append, List.sum_append, ih, Finset.sum_range_succ]
    simp

theorem cyl_amplitudes_world (M : Numerics R) (params : Params R) (sample : Sample R)
    (q : CartesianCoor3D R) (NN : Nat) (devs : List (Device R))
    (hst : Staged sample.NF NN (1 + 4 * params.resolution) devs)
    (halign : params.center = true →
      ∀ f, f < sample.NF → sample.get_postalignmentvectors f ≠ []) :
    ∃ devs2,
      ((devs.mapM fun d => AllMCScatterDevice.scatter_frames_norm1 M params sample d q)
        >>= fun devs1 =>
          (if params.center then devs1.mapM fun d => multiply_alignmentfactors M sample d q
           else pure devs1)) = .ok devs2 ∧
      HoldsMatrix sample.NF NN (1 + 4 * params.resolution)
        (cyl_amplitude M params sample q) devs2 := by
  obtain ⟨devs1, k0, k1⟩ := cyl_kernel_world M params sample q sample.NF NN devs hst
  rw [k0]
  cases hc : params.center with
  | false =>
    refine ⟨devs1, rfl, ?_⟩
    have : cyl_amplitude M params sample q = cyl_entry M params sample q := by
      funext f c
      simp [cyl_amplitude, hc]
    rw [this]
    exact k1
  | true =>
    obtain ⟨devs2, a0, a1⟩ := alignment_world M sample q sample.NF NN _ _ devs1 k1
      (halign hc)
    refine ⟨devs2, ?_, ?_⟩
    · show (if true = true then devs1.mapM fun d => multiply_alignmentfactors M sample d q
        else pure devs1) = _
      rw [if_pos rfl, a0]
    · have : cyl_amplitude M params sample q
          = fun f c => cyl_entry M params sample q f c * frame_factor M sample q f := by
        funext f c
        simp [cyl_amplitude, hc]
      rw [this]
      exact a1

theorem cyl_execute_static (M : Numerics R) (params : Params R) (sample : Sample R)
    (q : CartesianCoor3D R) (NN : Nat) (devs : List (Device R)) (hNN : 1 ≤ NN)
    (hst : Staged sample.NF NN (1 + 4 * params.resolution) devs)
    (halign : params.center = true →
      ∀ f, f < sample.NF → sample.get_postalignmentvectors f ≠ [])
    (ht : params.correlation_type ≠ "time") :
    AllMCScatterDevice.execute M params sample devs q 0
      = .ok ((List.range sample.NF).map fun f =>
          ∑ c in Finset.range (1 + 4 * params.resolution),
            cyl_amplitude M params sample q f c
              * Cplx.conj (cyl_amplitude M params sample q f c)) := by
  obtain ⟨devs2, h0, h1⟩ := cyl_amplitudes_world M params sample q NN devs hst halign
  have hs := static_result params sample.NF NN (1 + 4 * params.resolution)
    (1 + 4 * params.resolution) _ devs2 hNN (by omega) h1 ht
  unfold AllMCScatterDevice.execute
  rw [← hs]
  show ((devs.mapM fun d => AllMCScatterDevice.scatter_frames_norm1 M params sample d q)
    >>= fun devs1 =>
      (if params.center then devs1.mapM fun d => multiply_alignmentfactors M sample d q
        else pure devs1) >>= fun devs2 =>
          reduce_frames params sample.NF (1 + 4 * params.resolution) devs2 0) = _
  rw [← bind_assoc, h0]
  rfl

theorem cyl_execute_dynamic (M : Numerics R) (params : Params R) (sample : Sample R)
    (q : CartesianCoor3D R) (NN : Nat) (devs : List (Device R)) (hNN : 1 ≤ NN)
    (hst : Staged sample.NF NN (1 + 4 * params.resolution) devs)
    (halign : params.center = true →
      ∀ f, f < sample.NF → sample.get_postalignmentvectors f ≠ [])
    (ht : params.correlation_type = "time") (hm : params.correlation_method = "direct") :
    AllMCScatterDevice.execute M params sample devs q 0
      = .ok ((List.range sample.NF).map fun tau =>
          ∑ i in Finset.range (1 + 4 * params.resolution),
            spec_autocorrelation sample.NF params.zeromean
              (fun f => cyl_amplitude M params sample q f i) tau) := by
  obtain ⟨devs2, h0, h1⟩ := cyl_amplitudes_world M params sample q NN devs hst halign
  have hs := dynamic_result params sample.NF NN (1 + 4 * params.resolution)
    (1 + 4 * params.resolution) _ devs2 hNN (le_refl _) h1 ht hm
  unfold AllMCScatterDevice.execute
  rw [← hs]
  show ((devs.mapM fun d => AllMCScatterDevice.scatter_frames_norm1 M params sample d q)
    >>= fun devs1 =>
      (if params.center then devs1.mapM fun d => multiply_alignmentfactors M sample d q
        else pure devs1) >>= fun devs2 =>
          reduce_frames params sample.NF (1 + 4 * params.resolution) devs2 0) = _
  rw [← bind_assoc, h0]
  rfl

/-- C4. Static output equals dynamic output at lag 0 (cylindrical device):
for devices staged by the constructors on `NN ≥ 1` ranks and `NF ≥ 1` frames,
`execute` returns a spectrum of length `NF` on rank 0 both with correlation
type `none` and with type `time`, method `direct`, zero-mean off, and the
arithmetic mean of the static spectrum equals entry `tau = 0` of the dynamic
one. -/
theorem static_equals_dynamic_lag0 (M : Numerics R) (params : Params R) (sample : Sample R)
    (q : CartesianCoor3D R) (NN : Nat) (devs : List (Device R))
    (hNF : 1 ≤ sample.NF) (hNN : 1 ≤ NN)
    (hst : Staged sample.NF NN (1 + 4 * params.resolution) devs)
    (halign : params.center = true →
      ∀ f, f < sample.NF → sample.get_postalignmentvectors f ≠ []) :
    ∃ static dynamic,
      AllMCScatterDevice.execute M { params with correlation_type := "none" } sample devs q 0
        = .ok static ∧
      AllMCScatterDevice.execute M
          { params with
            correlation_type := "time", correlation_method := "direct", zeromean := false }
          sample devs q 0 = .ok dynamic ∧
      static.length = sample.NF ∧ dynamic.length = sample.NF ∧
      Cplx.ofReal (1 / (sample.NF : R)) * static.sum = dynamic.getD 0 0 := by
  refine ⟨_, _,
    cyl_execute_static M { params with correlation_type := "none" } sample q NN devs hNN hst
      halign (by show "none" ≠ "time"; decide),
    cyl_execute_dynamic M
      { params with
        correlation_type := "time", correlation_method := "direct", zeromean := false }
      sample q NN devs hNN hst halign rfl rfl,
    by simp, by simp, ?_⟩
  rw [sum_map_range, getD_map_range _ _ 0 (by omega)]
  unfold spec_autocorrelation
  simp only [Bool.false_eq_true, if_false, sub_zero, Nat.sub_zero, Nat.add_zero]
  rw [Finset.sum_comm, Finset.mul_sum]
  apply Finset.sum_congr rfl
  intro c _
  congr 1
  apply Finset.sum_congr rfl
  intro f _
  exact mul_comm _ _

end CylinderExecute

section CylinderExecuteWitness

theorem example_staged_ok (C : Nat) : Staged 3 2 C (example_staged C) := by
  refine ⟨?_, ?_⟩
  · show [[0, 1], [2]] = (List.range 2).map (EvenDecompose.indexes_for 3 2)
    decide
  intro d hd
  simp only [example_staged, List.mem_cons, List.mem_singleton, List.not_mem_nil, or_false] at hd
  rcases hd with rfl | rfl
  · exact ⟨rfl, rfl⟩
  · exact ⟨rfl, rfl⟩

theorem static_equals_dynamic_lag0_witness :
    ∃ static dynamic,
      AllMCScatterDevice.execute example_numerics
        { example_params 1 "time" "direct" true 1000 with correlation_type := "none" }
        example_sample (example_staged 5) example_q 0 = .ok static ∧
      AllMCScatterDevice.execute example_numerics
          { example_params 1 "time" "direct" true 1000 with
            correlation_type := "time", correlation_method := "direct", zeromean := false }
          example_sample (example_staged 5) example_q 0 = .ok dynamic ∧
      static.length = example_sample.NF ∧ dynamic.length = example_sample.NF ∧
      Cplx.ofReal (1 / (example_sample.NF : ℚ)) * static.sum = dynamic.getD 0 0 :=
  static_equals_dynamic_lag0 example_numerics (example_params 1 "time" "direct" true 1000)
    example_sample example_q 2 (example_staged 5) (by decide) (by decide)
    (example_staged_ok 5) (fun _ _ _ => List.cons_ne_nil _ _)

end CylinderExecuteWitness

section SphereAccumulate

variable {R : Type} [LinearOrderedField R]

omit [LinearOrderedField R] in
theorem assign2_entry (almv : AllMSScatterDevice.Table R) (l k : Nat) (x : Cplx R)
    (l2 k2 : Nat) :
    (AllMSScatterDevice.assign2 almv l k x).entry l2 k2
      = if l2 = l ∧ k2 = k then x else almv.entry l2 k2 := rfl

theorem orders_index (l k : Nat) : ((k : Int) - (l : Int) + (l : Int)).toNat = k := by
  rw [sub_add_cancel]
  exact Int.toNat_natCast k

theorem sph_accumulate_orders (l : Nat) (t : Int → Cplx R) (n : Nat)
    (almv : AllMSScatterDevice.Table R) (l2 k2 : Nat) :
    ((List.range n).foldl
        (fun (almv : AllMSScatterDevice.Table R) (k : Nat) =>
          AllMSScatterDevice.assign2 almv l ((k : Int) - (l : Int) + (l : Int)).toNat
            (almv.entry l ((k : Int) - (l : Int) + (l : Int)).toNat + t ((k : Int) - (l : Int))))
        almv).entry l2 k2
      = almv.entry l2 k2 + (if l2 = l ∧ k2 < n then t ((k2 : Int) - (l : Int)) else 0) := by
  induction n with
  | zero =>
    have : ¬ (l2 = l ∧ k2 < 0) := by omega
    rw [if_neg this, add_zero]
    rfl
  | succ n ih =>
    rw [List.range_succ, List.foldl_append, List.foldl_cons, List.foldl_nil, assign2_entry,
      orders_index]
    by_cases h : l2 = l ∧ k2 = n
    · obtain ⟨rfl, rfl⟩ := h
      rw [if_pos ⟨rfl, rfl⟩]
      have hp : l2 = l2 ∧ k2 < k2 + 1 := ⟨rfl, by omega⟩
      rw [if_pos hp]
      have hq : ¬ (l2 = l2 ∧ k2 < k2) := by omega
      rw [ih, if_neg hq, add_zero]
    · rw [if_neg h, ih]
      by_cases h2 : l2 = l ∧ k2 < n
      · have hp : l2 = l ∧ k2 < n + 1 := ⟨h2.1, by omega⟩
        rw [if_pos h2, if_pos hp]
      · have hp : ¬ (l2 = l ∧ k2 < n + 1) := by
          intro hh
          rcases Nat.lt_succ_iff_lt_or_eq.mp hh.2 with h3 | h3
          · exact h2 ⟨hh.1, h3⟩
          · exact h ⟨hh.1, h3⟩
        rw [if_neg h2, if_neg hp]

theorem sph_accumulate_atom (M : Numerics R) (lmax : Nat) (cs : CoordinateSet R)
    (sfs : List R) (ql : R) (almv : AllMSScatterDevice.Table R) (j l2 k2 : Nat) :
    (AllMSScatterDevice.accumulate_atom M lmax cs sfs ql almv j).entry l2 k2
      = almv.entry l2 k2
        + (if l2 < lmax + 1 ∧ k2 < 2 * l2 + 1 then
            sph_term M cs sfs ql j l2 ((k2 : Int) - (l2 : Int)) else 0) := by
  unfold AllMSScatterDevice.accumulate_atom
  simp only []
  generalize lmax + 1 = n
  induction n with
  | zero =>
    have : ¬ (l2 < 0 ∧ k2 < 2 * l2 + 1) := by omega
    rw [if_neg this, add_zero]
    rfl
  | succ n ih =>
    rw [List.range_succ, List.foldl_append, List.foldl_cons, List.foldl_nil]
    unfold AllMSScatterDevice.orders
    rw [List.foldl_map]
    rw [sph_accumulate_orders n
      (fun m => Cplx.ofReal (4 * M.pi) * Cplx.I ^ n * Cplx.ofReal (sfs.getD j 0)
        * Cplx.ofReal (M.sph_bessel n (ql * cs.c1.getD j 0))
        * Cplx.conj (M.spherical_harmonic n m (cs.c3.getD j 0) (cs.c2.getD j 0)))
      (2 * n + 1)]
    unfold AllMSScatterDevice.orders at ih
    rw [ih]
    by_cases h : l2 = n
    · subst h
      have h1 : ¬ (l2 < l2 ∧ k2 < 2 * l2 + 1) := by omega
      rw [if_neg h1, add_zero]
      by_cases hk : k2 < 2 * l2 + 1
      · have h2 : l2 = l2 ∧ k2 < 2 * l2 + 1 := ⟨rfl, hk⟩
        have h3 : l2 < l2 + 1 ∧ k2 < 2 * l2 + 1 := ⟨by omega, hk⟩
        rw [if_pos h2, if_pos h3]
        rfl
      · have h2 : ¬ (l2 = l2 ∧ k2 < 2 * l2 + 1) := fun hh => hk hh.2
        have h3 : ¬ (l2 < l2 + 1 ∧ k2 < 2 * l2 + 1) := fun hh => hk hh.2
        rw [if_neg h2, if_neg h3]
    · have h2 : ¬ (l2 = n ∧ k2 < 2 * n + 1) := fun hh => h hh.1
      rw [if_neg h2, add_zero]
      by_cases h3 : l2 < n ∧ k2 < 2 * l2 + 1
      · have h4 : l2 < n + 1 ∧ k2 < 2 * l2 + 1 := ⟨by omega, h3.2⟩
        rw [if_pos h3, if_pos h4]
      · have h4 : ¬ (l2 < n + 1 ∧ k2 < 2 * l2 + 1) := by omega
        rw [if_neg h3, if_neg h4]

theorem almv_formula (M : Numerics R) (params : Params R) (sample : Sample R)
    (q : CartesianCoor3D R) (frame l k : Nat) (hl : l ≤ params.resolution)
    (hk : k ≤ 2 * l) :
    (AllMSScatterDevice.almv M params sample q frame).entry l k
      = ∑ j in Finset.range sample.noa,
          sph_term M (sample.load frame) (sample.get_all q) (q.length M) j l
            ((k : Int) - (l : Int)) := by
  unfold AllMSScatterDevice.almv
  simp only []
  generalize sample.noa = n
  induction n with
  | zero => rfl
  | succ n ih =>
    rw [List.range_succ, List.foldl_append, List.foldl_cons, List.foldl_nil,
      sph_accumulate_atom, ih, Finset.sum_range_succ, if_pos ⟨by omega, by omega⟩]

end SphereAccumulate

section SphereWrites

variable {R : Type} [LinearOrderedField R]

theorem foldl_count {α : Type} (l : List α) (off : Nat) :
    l.foldl (fun offset _ => offset + 1) off = off + l.length := by
  induction l generalizing off with
  | nil => rfl
  | cons x xs ih =>
    rw [List.foldl_cons, ih, List.length_cons]
    omega

theorem maxoffset_eq (lmax : Nat) :
    AllMSScatterDevice.maxoffset lmax = (lmax + 1) * (lmax + 1) := by
  unfold AllMSScatterDevice.maxoffset
  generalize lmax + 1 = n
  induction n with
  | zero => rfl
  | succ n ih =>
    rw [List.range_succ, List.foldl_append, List.foldl_cons, List.foldl_nil, ih, foldl_count]
    unfold AllMSScatterDevice.orders
    rw [List.length_map, List.length_range]
    ring

omit [LinearOrderedField R] in
theorem sph_write_orders [Field R] (iframe : Nat) (val : Nat → Cplx R) (n : Nat)
    (a : ublas.matrix (Cplx R)) (off : Nat) (hi : iframe < a.size1) (hn : off + n ≤ a.size2) :
    ∃ a2, (List.range n).foldlM
        (fun (st : ublas.matrix (Cplx R) × Nat) (k : Nat) => do
          let a ← st.1.write iframe st.2 (val k)
          pure (a, st.2 + 1))
        (a, off) = .ok (a2, off + n) ∧
      a2.size1 = a.size1 ∧ a2.size2 = a.size2 ∧
      ∀ i c, a2.data i c
        = if i = iframe ∧ off ≤ c ∧ c < off + n then val (c - off) else a.data i c := by
  induction n with
  | zero =>
    refine ⟨a, rfl, rfl, rfl, ?_⟩
    intro i c
    have : ¬ (i = iframe ∧ off ≤ c ∧ c < off + 0) := by omega
    rw [if_neg this]
  | succ n ih =>
    obtain ⟨a2, h0, h1, h2, h3⟩ := ih (by omega)
    refine ⟨a2.set iframe (off + n) (val n), ?_, by simpa using h1, by simpa using h2, ?_⟩
    · rw [List.range_succ, List.foldlM_append, h0]
      simp only [List.foldlM_cons, List.foldlM_nil, bind, Except.bind, pure, Except.pure]
      rw [write_ok a2 iframe (off + n) _ (by omega) (by omega)]
      rfl
    · intro i c
      rw [ublas.matrix.set_data, h3]
      by_cases hic : i = iframe ∧ c = off + n
      · obtain ⟨rfl, rfl⟩ := hic
        have hp : i = i ∧ off ≤ off + n ∧ off + n < off + (n + 1) := ⟨rfl, by omega, by omega⟩
        rw [if_pos ⟨rfl, rfl⟩, if_pos hp, Nat.add_sub_cancel_left]
      · rw [if_neg hic]
        by_cases h4 : i = iframe ∧ off ≤ c ∧ c < off + n
        · have hp : i = iframe ∧ off ≤ c ∧ c < off + (n + 1) := ⟨h4.1, h4.2.1, by omega⟩
          rw [if_pos h4, if_pos hp]
        · have hp : ¬ (i = iframe ∧ off ≤ c ∧ c < off + (n + 1)) := by
            intro hh
            by_cases h5 : c = off + n
            · exact hic ⟨hh.1, h5⟩
            · exact h4 ⟨hh.1, hh.2.1, by omega⟩
          rw [if_neg h4, if_neg hp]

omit [LinearOrderedField R] in
theorem sph_write_all [Field R] (iframe : Nat) (v : Nat → Nat → Cplx R) (n : Nat)
    (a : ublas.matrix (Cplx R)) (hi : iframe < a.size1) (hn : n * n ≤ a.size2) :
    ∃ a2, (List.range n).foldlM
        (fun (st : ublas.matrix (Cplx R) × Nat) l =>
          (AllMSScatterDevice.orders l).foldlM
            (fun (st : ublas.matrix (Cplx R) × Nat) (m : Int) => do
              let a ← st.1.write iframe st.2 (v l (m + (l : Int)).toNat)
              pure (a, st.2 + 1))
            st)
        (a, 0) = .ok (a2, n * n) ∧
      a2.size1 = a.size1 ∧ a2.size2 = a.size2 ∧
      ∀ i c, a2.data i c
        = if i = iframe ∧ c < n * n then v (Nat.sqrt c) (c - Nat.sqrt c * Nat.sqrt c)
          else a.data i c := by
  induction n with
  | zero =>
    refine ⟨a, rfl, rfl, rfl, ?_⟩
    intro i c
    have : ¬ (i = iframe ∧ c < 0 * 0) := by omega
    rw [if_neg this]
  | succ n ih =>
    have hsq : (n + 1) * (n + 1) = n * n + (2 * n + 1) := by ring
    obtain ⟨a1, h0, h1, h2, h3⟩ := ih (by omega)
    obtain ⟨a2, k0, k1, k2, k3⟩ := sph_write_orders iframe
      (fun k => v n ((k : Int) - (n : Int) + (n : Int)).toNat) (2 * n + 1) a1 (n * n)
      (by omega) (by omega)
    refine ⟨a2, ?_, k1.trans h1, k2.trans h2, ?_⟩
    · rw [List.range_succ, List.foldlM_append, h0]
      unfold AllMSScatterDevice.orders
      simp only [List.foldlM_cons, List.foldlM_nil, List.foldlM_map, bind, Except.bind, pure,
        Except.pure, hsq] at k0 ⊢
      rw [k0]
    · intro i c
      rw [k3, h3]
      by_cases hi2 : i = iframe
      · by_cases hc1 : c < n * n
        · have p1 : ¬ (i = iframe ∧ n * n ≤ c ∧ c < n * n + (2 * n + 1)) := by omega
          have p2 : i = iframe ∧ c < (n + 1) * (n + 1) := ⟨hi2, by omega⟩
          rw [if_neg p1, if_pos ⟨hi2, hc1⟩, if_pos p2]
        · by_cases hc2 : c < n * n + (2 * n + 1)
          · have p1 : i = iframe ∧ n * n ≤ c ∧ c < n * n + (2 * n + 1) := ⟨hi2, by omega, hc2⟩
            have p2 : i = iframe ∧ c < (n + 1) * (n + 1) := ⟨hi2, by omega⟩
            rw [if_pos p1, if_pos p2, orders_index]
            have hc : c = n * n + (c - n * n) := by omega
            have hs : Nat.sqrt c = n := by
              rw [hc]
              exact Nat.sqrt_add_eq n (by omega)
            rw [hs]
          · have p1 : ¬ (i = iframe ∧ n * n ≤ c ∧ c < n * n + (2 * n + 1)) := fun h => hc2 h.2.2
            have p2 : ¬ (i = iframe ∧ c < (n + 1) * (n + 1)) := by omega
            have p3 : ¬ (i = iframe ∧ c < n * n) := fun h => hc1 h.2
            rw [if_neg p1, if_neg p3, if_neg p2]
      · have p1 : ¬ (i = iframe ∧ n * n ≤ c ∧ c < n * n + (2 * n + 1)) := fun h => hi2 h.1
        have p2 : ¬ (i = iframe ∧ c < (n + 1) * (n + 1)) := fun h => hi2 h.1
        have p3 : ¬ (i = iframe ∧ c < n * n) := fun h => hi2 h.1
        rw [if_neg p1, if_neg p3, if_neg p2]

end SphereWrites

section SphereKernel

variable {R : Type} [LinearOrderedField R]

theorem sph_scatter_frame (M : Numerics R) (params : Params R) (sample : Sample R)
    (d : Device R) (iframe : Nat) (q : CartesianCoor3D R) (hi : iframe < d.a.size1)
    (hC : d.a.size2 = AllMSScatterDevice.maxoffset params.resolution) :
    ∃ d2, AllMSScatterDevice.scatter_frame_norm1 M params sample d iframe q = .ok d2 ∧
      d2.myframes = d.myframes ∧ d2.a.size1 = d.a.size1 ∧ d2.a.size2 = d.a.size2 ∧
      ∀ i c, d2.a.data i c
        = if i = iframe ∧ c < AllMSScatterDevice.maxoffset params.resolution then
            sph_entry M params sample q (d.myframes.getD iframe 0) c
          else d.a.data i c := by
  rw [maxoffset_eq] at hC ⊢
  obtain ⟨a2, h0, h1, h2, h3⟩ := sph_write_all iframe
    (fun l k => Cplx.divReal
      ((AllMSScatterDevice.almv M params sample q (d.myframes.getD iframe 0)).entry l k)
      (M.sqrt (4 * M.pi)))
    (params.resolution + 1) d.a hi (by omega)
  refine ⟨{ d with a := a2 }, ?_, rfl, h1, h2, ?_⟩
  · unfold AllMSScatterDevice.scatter_frame_norm1
    simp only []
    rw [h0]
    rfl
  · intro i c
    rw [h3]
    rfl

/-- C7. Spherical kernel: for a row `iframe` of a matrix with the
constructor's `maxoffset` columns, `scatter_frame_norm1` returns, and for every
`l ≤ L` and `-l ≤ m ≤ l` the value it stores for `(l, m)` (column `l² + l + m`
of the row) is `(1/sqrt(4π)) * Σ_j f_j * 4π * i^l * j_l(|q| r_j) *
conj(Y_{l,m}(theta_j, phi_j))`. -/
theorem spherical_kernel_row (M : Numerics R) (params : Params R) (sample : Sample R)
    (d : Device R) (iframe : Nat) (q : CartesianCoor3D R) (hi : iframe < d.a.size1)
    (hC : d.a.size2 = AllMSScatterDevice.maxoffset params.resolution) :
    ∃ d2, AllMSScatterDevice.scatter_frame_norm1 M params sample d iframe q = .ok d2 ∧
      ∀ (l : Nat) (m : Int), l ≤ params.resolution → -(l : Int) ≤ m → m ≤ (l : Int) →
        d2.a.data iframe (((l * l + l : Nat) : Int) + m).toNat
          = Cplx.ofReal (1 / M.sqrt (4 * M.pi)) *
            ∑ j in Finset.range sample.noa,
              Cplx.ofReal ((sample.get_all q).getD j 0) * Cplx.ofReal (4 * M.pi) * Cplx.I ^ l
                * Cplx.ofReal (M.sph_bessel l
                    (q.length M * (sample.load (d.myframes.getD iframe 0)).c1.getD j 0))
                * Cplx.conj (M.spherical_harmonic l m
                    ((sample.load (d.myframes.getD iframe 0)).c3.getD j 0)
                    ((sample.load (d.myframes.getD iframe 0)).c2.getD j 0)) := by
  obtain ⟨d2, h0, _, _, _, h4⟩ := sph_scatter_frame M params sample d iframe q hi hC
  refine ⟨d2, h0, ?_⟩
  intro l m hl hm1 hm2
  have hcol : (((l * l + l : Nat) : Int) + m).toNat = l * l + (m + (l : Int)).toNat := by
    omega
  have hk : (m + (l : Int)).toNat ≤ 2 * l := by omega
  have hlt : l * l + (m + (l : Int)).toNat < AllMSScatterDevice.maxoffset params.resolution := by
    rw [maxoffset_eq]
    have : (l + 1) * (l + 1) ≤ (params.resolution + 1) * (params.resolution + 1) :=
      Nat.mul_le_mul (by omega) (by omega)
    have e : (l + 1) * (l + 1) = l * l + 2 * l + 1 := by ring
    omega
  rw [hcol, h4, if_pos ⟨rfl, hlt⟩]
  unfold sph_entry
  rw [Nat.sqrt_add_eq l (by omega), Nat.add_sub_cancel_left, Cplx.divReal_eq_mul,
    almv_formula M params sample q _ l _ hl hk]
  congr 1
  apply Finset.sum_congr rfl
  intro j _
  unfold sph_term
  have hm : (((m + (l : Int)).toNat : Nat) : Int) - (l : Int) = m := by omega
  rw [hm]
  ring

end SphereKernel

section SphereKernelWitness

theorem spherical_kernel_row_witness :
    ∃ d2, AllMSScatterDevice.scatter_frame_norm1 example_numerics
        (example_params 1 "none" "direct" false 1000) example_sample
        ⟨[0, 1], ublas.matrix.resize 2 4⟩ 0 example_q = .ok d2 ∧
      ∀ (l : Nat) (m : Int), l ≤ 1 → -(l : Int) ≤ m → m ≤ (l : Int) →
        d2.a.data 0 (((l * l + l : Nat) : Int) + m).toNat
          = Cplx.ofReal (1 / example_numerics.sqrt (4 * example_numerics.pi)) *
            ∑ j in Finset.range example_sample.noa,
              Cplx.ofReal ((example_sample.get_all example_q).getD j 0)
                * Cplx.ofReal (4 * example_numerics.pi) * Cplx.I ^ l
                * Cplx.ofReal (example_numerics.sph_bessel l
                    (example_q.length example_numerics
                      * (example_sample.load (([0, 1] : List Nat).getD 0 0)).c1.getD j 0))
                * Cplx.conj (example_numerics.spherical_harmonic l m
                    ((example_sample.load (([0, 1] : List Nat).getD 0 0)).c3.getD j 0)
                    ((example_sample.load (([0, 1] : List Nat).getD 0 0)).c2.getD j 0)) :=
  spherical_kernel_row example_numerics (example_params 1 "none" "direct" false 1000)
    example_sample ⟨[0, 1], ublas.matrix.resize 2 4⟩ 0 example_q (by decide) (by rfl)

end SphereKernelWitness

section SphereWorld

variable {R : Type} [LinearOrderedField R]

theorem sph_scatter_frames (M : Numerics R) (params : Params R) (sample : Sample R)
    (d : Device R) (q : CartesianCoor3D R) (h1 : d.a.size1 = d.myframes.length)
    (hC : d.a.size2 = AllMSScatterDevice.maxoffset params.resolution) :
    ∃ d2, AllMSScatterDevice.scatter_frames_norm1 M params sample d q = .ok d2 ∧
      d2.myframes = d.myframes ∧
      RowsHold (AllMSScatterDevice.maxoffset params.resolution)
        (sph_entry M params sample q) d2 := by
  obtain ⟨d2, k0, k1, k2, k3, k4⟩ := kernel_rows
    (fun d i => AllMSScatterDevice.scatter_frame_norm1 M params sample d i q)
    (sph_entry M params sample q) (AllMSScatterDevice.maxoffset params.resolution)
    (fun d i hi hC => sph_scatter_frame M params sample d i q hi hC)
    d hC d.myframes.length (by omega)
  refine ⟨d2, k0, k1, ?_, ?_, ?_⟩
  · rw [k2, h1, k1]
  · rw [k3, hC]
  · intro j c hj hc
    rw [k1] at hj ⊢
    rw [k4, if_pos ⟨hj, hc⟩]

theorem sph_kernel_world (M : Numerics R) (params : Params R) (sample : Sample R)
    (q : CartesianCoor3D R) (NF NN : Nat) (devs : List (Device R))
    (hst : Staged NF NN (AllMSScatterDevice.maxoffset params.resolution) devs) :
    ∃ devs1, (devs.mapM fun d => AllMSScatterDevice.scatter_frames_norm1 M params sample d q)
        = .ok devs1 ∧
      HoldsMatrix NF NN (AllMSScatterDevice.maxoffset params.resolution)
        (sph_entry M params sample q) devs1 := by
  obtain ⟨devs1, h0, h1, h2⟩ := mapM_devices
    (fun d => AllMSScatterDevice.scatter_frames_norm1 M params sample d q)
    (fun d => d.a.size1 = d.myframes.length ∧
      d.a.size2 = AllMSScatterDevice.maxoffset params.resolution)
    (RowsHold (AllMSScatterDevice.maxoffset params.resolution) (sph_entry M params sample q))
    (fun d hd => sph_scatter_frames M params sample d q hd.1 hd.2)
    devs hst.2
  exact ⟨devs1, h0, h1.trans hst.1, h2⟩

theorem sph_amplitudes_world (M : Numerics R) (params : Params R) (sample : Sample R)
    (q : CartesianCoor3D R) (NN : Nat) (devs : List (Device R))
    (hst : Staged sample.NF NN (AllMSScatterDevice.maxoffset params.resolution) devs)
    (halign : params.center = true →
      ∀ f, f < sample.NF → sample.get_postalignmentvectors f ≠ []) :
    ∃ devs2,
      ((devs.mapM fun d => AllMSScatterDevice.scatter_frames_norm1 M params sample d q)
        >>= fun devs1 =>
          (if params.center then devs1.mapM fun d => multiply_alignmentfactors M sample d q
           else pure devs1)) = .ok devs2 ∧
      HoldsMatrix sample.NF NN (AllMSScatterDevice.maxoffset params.resolution)
        (sph_amplitude M params sample q) devs2 := by
  obtain ⟨devs1, k0, k1⟩ := sph_kernel_world M params sample q sample.NF NN devs hst
  rw [k0]
  cases hc : params.center with
  | false =>
    refine ⟨devs1, rfl, ?_⟩
    have : sph_amplitude M params sample q = sph_entry M params sample q := by
      funext f c
      simp [sph_amplitude, hc]
    rw [this]
    exact k1
  | true =>
    obtain ⟨devs2, a0, a1⟩ := alignment_world M sample q sample.NF NN _ _ devs1 k1
      (halign hc)
    refine ⟨devs2, ?_, ?_⟩
    · show (if true = true then devs1.mapM fun d => multiply_alignmentfactors M sample d q
        else pure devs1) = _
      rw [if_pos rfl, a0]
    · have : sph_amplitude M params sample q
          = fun f c => sph_entry M params sample q f c * frame_factor M sample q f := by
        funext f c
        simp [sph_amplitude, hc]
      rw [this]
      exact a1

theorem sph_execute_static (M : Numerics R) (params : Params R) (sample : Sample R)
    (q : CartesianCoor3D R) (NN : Nat) (devs : List (Device R)) (hNN : 1 ≤ NN)
    (hst : Staged sample.NF NN (AllMSScatterDevice.maxoffset params.resolution) devs)
    (halign : params.center = true →
      ∀ f, f < sample.NF → sample.get_postalignmentvectors f ≠ [])
    (ht : params.correlation_type ≠ "time") :
    AllMSScatterDevice.execute M params sample devs q 0
      = .ok ((List.range sample.NF).map fun f =>
          ∑ c in Finset.range (AllMSScatterDevice.maxoffset params.resolution),
            sph_amplitude M params sample q f c
              * Cplx.conj (sph_amplitude M params sample q f c)) := by
  obtain ⟨devs2, h0, h1⟩ := sph_amplitudes_world M params sample q NN devs hst halign
  have hpos : 1 ≤ AllMSScatterDevice.maxoffset params.resolution := by
    rw [maxoffset_eq]
    nlinarith
  have hs := static_result params sample.NF NN (AllMSScatterDevice.maxoffset params.resolution)
    (1 + 4 * params.resolution) _ devs2 hNN hpos h1 ht
  unfold AllMSScatterDevice.execute
  rw [← hs]
  show ((devs.mapM fun d => AllMSScatterDevice.scatter_frames_norm1 M params sample d q)
    >>= fun devs1 =>
      (if params.center then devs1.mapM fun d => multiply_alignmentfactors M sample d q
        else pure devs1) >>= fun devs2 =>
          reduce_frames params sample.NF (1 + 4 * params.resolution) devs2 0) = _
  rw [← bind_assoc, h0]
  rfl

theorem sph_execute_dynamic (M : Numerics R) (params : Params R) (sample : Sample R)
    (q : CartesianCoor3D R) (NN : Nat) (devs : List (Device R)) (hNN : 1 ≤ NN)
    (hst : Staged sample.NF NN (AllMSScatterDevice.maxoffset params.resolution) devs)
    (halign : params.center = true →
      ∀ f, f < sample.NF → sample.get_postalignmentvectors f ≠ [])
    (hL : params.resolution ≠ 1)
    (ht : params.correlation_type = "time") (hm : params.correlation_method = "direct") :
    AllMSScatterDevice.execute M params sample devs q 0
      = .ok ((List.range sample.NF).map fun tau =>
          ∑ i in Finset.range (1 + 4 * params.resolution),
            spec_autocorrelation sample.NF params.zeromean
              (fun f => sph_amplitude M params sample q f i) tau) := by
  obtain ⟨devs2, h0, h1⟩ := sph_amplitudes_world M params sample q NN devs hst halign
  have hle : 1 + 4 * params.resolution ≤ AllMSScatterDevice.maxoffset params.resolution := by
    rw [maxoffset_eq]
    rcases Nat.lt_or_ge params.resolution 1 with h | h
    · have : params.resolution = 0 := by omega
      rw [this]
    · have h2 : 2 ≤ params.resolution := by omega
      nlinarith
  have hs := dynamic_result params sample.NF NN (AllMSScatterDevice.maxoffset params.resolution)
    (1 + 4 * params.resolution) _ devs2 hNN hle h1 ht hm
  unfold AllMSScatterDevice.execute
  rw [← hs]
  show ((devs.mapM fun d => AllMSScatterDevice.scatter_frames_norm1 M params sample d q)
    >>= fun devs1 =>
      (if params.center then devs1.mapM fun d => multiply_alignmentfactors M sample d q
        else pure devs1) >>= fun devs2 =>
          reduce_frames params sample.NF (1 + 4 * params.resolution) devs2 0) = _
  rw [← bind_assoc, h0]
  rfl

end SphereWorld

section EmptySelection

variable {R : Type} [LinearOrderedField R]

theorem cyl_entry_empty (M : Numerics R) (params : Params R) (sample : Sample R)
    (q : CartesianCoor3D R) (hnoa : sample.noa = 0) (f c : Nat) :
    cyl_entry M params sample q f c = 0 := by
  have h : AllMCScatterDevice.coefficients M params sample q f
      = { A := fun _ => 0, B := fun _ => 0, C := fun _ => 0, D := fun _ => 0 } := by
    unfold AllMCScatterDevice.coefficients
    simp only [hnoa, List.range_zero, List.foldl_nil]
  unfold cyl_entry
  rw [h]
  split_ifs <;> simp

theorem sph_entry_empty (M : Numerics R) (params : Params R) (sample : Sample R)
    (q : CartesianCoor3D R) (hnoa : sample.noa = 0) (f c : Nat) :
    sph_entry M params sample q f c = 0 := by
  have h : AllMSScatterDevice.almv M params sample q f = ⟨fun _ _ => 0⟩ := by
    unfold AllMSScatterDevice.almv
    simp only [hnoa, List.range_zero, List.foldl_nil]
  unfold sph_entry
  rw [h]
  ext <;> simp [Cplx.divReal]

omit [LinearOrderedField R] in
theorem spec_autocorrelation_zero [Field R] (NF : Nat) (zeromean : Bool) (tau : Nat) :
    spec_autocorrelation NF zeromean (fun _ => (0 : Cplx R)) tau = 0 := by
  unfold spec_autocorrelation
  cases zeromean <;> simp

omit [LinearOrderedField R] in
theorem map_zero_range [Field R] (n : Nat) :
    (List.range n).map (fun _ => (0 : Cplx R)) = List.replicate n 0 := by
  simp

theorem cyl_amplitude_empty (M : Numerics R) (params : Params R) (sample : Sample R)
    (q : CartesianCoor3D R) (hnoa : sample.noa = 0) :
    cyl_amplitude M params sample q = fun _ _ => 0 := by
  funext f c
  unfold cyl_amplitude
  rw [cyl_entry_empty M params sample q hnoa]
  split_ifs <;> simp

theorem sph_amplitude_empty (M : Numerics R) (params : Params R) (sample : Sample R)
    (q : CartesianCoor3D R) (hnoa : sample.noa = 0) :
    sph_amplitude M params sample q = fun _ _ => 0 := by
  funext f c
  unfold sph_amplitude
  rw [sph_entry_empty M params sample q hnoa]
  split_ifs <;> simp

theorem cyl_rows_empty (M : Numerics R) (params : Params R) (sample : Sample R)
    (q : CartesianCoor3D R) (hnoa : sample.noa = 0) (d : Device R)
    (h1 : d.a.size1 = d.myframes.length) (hC : d.a.size2 = 1 + 4 * params.resolution) :
    ∃ d2, AllMCScatterDevice.scatter_frames_norm1 M params sample d q = .ok d2 ∧
      d2.a.size1 = d.a.size1 ∧ d2.a.size2 = d.a.size2 ∧
      ∀ i c, i < d2.a.size1 → c < d2.a.size2 → d2.a.data i c = 0 := by
  obtain ⟨d2, k0, k1, k2, k3, k4⟩ := cyl_scatter_frames M params sample d q h1 hC
  refine ⟨d2, k0, by rw [k2, k1, h1], by rw [k3, hC], ?_⟩
  intro i c hi hc
  rw [k4 i c (by rw [← k2]; exact hi) (by rw [← k3]; exact hc)]
  exact cyl_entry_empty M params sample q hnoa _ _

theorem sph_rows_empty (M : Numerics R) (params : Params R) (sample : Sample R)
    (q : CartesianCoor3D R) (hnoa : sample.noa = 0) (d : Device R)
    (h1 : d.a.size1 = d.myframes.length)
    (hC : d.a.size2 = AllMSScatterDevice.maxoffset params.resolution) :
    ∃ d2, AllMSScatterDevice.scatter_frames_norm1 M params sample d q = .ok d2 ∧
      d2.a.size1 = d.a.size1 ∧ d2.a.size2 = d.a.size2 ∧
      ∀ i c, i < d2.a.size1 → c < d2.a.size2 → d2.a.data i c = 0 := by
  obtain ⟨d2, k0, k1, k2, k3, k4⟩ := sph_scatter_frames M params sample d q h1 hC
  refine ⟨d2, k0, by rw [k2, k1, h1], by rw [k3, hC], ?_⟩
  intro i c hi hc
  rw [k4 i c (by rw [← k2]; exact hi) (by rw [← k3]; exact hc)]
  exact sph_entry_empty M params sample q hnoa _ _

theorem cyl_execute_empty (M : Numerics R) (params : Params R) (sample : Sample R)
    (q : CartesianCoor3D R) (NN : Nat) (devs : List (Device R)) (hnoa : sample.noa = 0)
    (hNN : 1 ≤ NN) (hst : Staged sample.NF NN (1 + 4 * params.resolution) devs)
    (halign : params.center = true →
      ∀ f, f < sample.NF → sample.get_postalignmentvectors f ≠ [])
    (hmode : params.correlation_type ≠ "time" ∨
      (params.correlation_type = "time" ∧ params.correlation_method = "direct")) :
    AllMCScatterDevice.execute M params sample devs q 0 = .ok (List.replicate sample.NF 0) := by
  rcases hmode with ht | ⟨ht, hm⟩
  · rw [cyl_execute_static M params sample q NN devs hNN hst halign ht,
      cyl_amplitude_empty M params sample q hnoa]
    simp
  · rw [cyl_execute_dynamic M params sample q NN devs hNN hst halign ht hm,
      cyl_amplitude_empty M params sample q hnoa]
    simp [spec_autocorrelation_zero]

theorem sph_execute_empty (M : Numerics R) (params : Params R) (sample : Sample R)
    (q : CartesianCoor3D R) (NN : Nat) (devs : List (Device R)) (hnoa : sample.noa = 0)
    (hNN : 1 ≤ NN)
    (hst : Staged sample.NF NN (AllMSScatterDevice.maxoffset params.resolution) devs)
    (halign : params.center = true →
      ∀ f, f < sample.NF → sample.get_postalignmentvectors f ≠ [])
    (hmode : params.correlation_type ≠ "time" ∨
      (params.correlation_type = "time" ∧ params.correlation_method = "direct" ∧
        params.resolution ≠ 1)) :
    AllMSScatterDevice.execute M params sample devs q 0 = .ok (List.replicate sample.NF 0) := by
  rcases hmode with ht | ⟨ht, hm, hL⟩
  · rw [sph_execute_static M params sample q NN devs hNN hst halign ht,
      sph_amplitude_empty M params sample q hnoa]
    simp
  · rw [sph_execute_dynamic M params sample q NN devs hNN hst halign hL ht hm,
      sph_amplitude_empty M params sample q hnoa]
    simp [spec_autocorrelation_zero]

end EmptySelection

section ReadsOutside

variable {R : Type} [Field R]

theorem local_A_outside (d : Device R) (col maxCSsize : Nat) (hlen : 1 ≤ d.myframes.length)
    (hcol : d.a.size2 ≤ col) : local_A d col maxCSsize = .error .bad_index := by
  unfold local_A
  obtain ⟨n, hn⟩ : ∃ n, d.myframes.length = n + 1 := ⟨d.myframes.length - 1, by omega⟩
  rw [hn, List.range_succ_eq_map, List.foldlM_cons]
  have hr : d.a.read 0 col = .error .bad_index := by
    unfold ublas.matrix.read
    rw [if_neg (by omega)]
  rw [hr]
  rfl

theorem correlate_frames_outside (NF : Nat) (zeromean : Bool) (d : Device R)
    (rest : List (Device R)) (col rank : Nat) (hlen : 1 ≤ d.myframes.length)
    (hcol : d.a.size2 ≤ col) :
    correlate_frames NF zeromean (d :: rest) col rank = .error .bad_index := by
  unfold correlate_frames
  have h : ((d :: rest).mapM fun x =>
      local_Ar x col (all_reduce_max ((d :: rest).map fun y => y.myframes.length)))
      = .error .bad_index := by
    rw [List.mapM_cons]
    unfold local_Ar
    rw [local_A_outside d col _ hlen hcol]
    rfl
  simp only [h, bind, Except.bind]

theorem foldlM_range_succ {β : Type} (f : β → Nat → Except Fault β) (n : Nat) (b : β) :
    (List.range (n + 1)).foldlM f b = (List.range n).foldlM f b >>= fun s => f s n := by
  rw [List.range_succ, List.foldlM_append]
  simp only [List.foldlM_cons, List.foldlM_nil, bind_pure]

theorem reduce_frames_outside (params : Params R) (NF NN C : Nat) (G : Nat → Nat → Cplx R)
    (devs : List (Device R)) (hNF : 1 ≤ NF) (hNN : 1 ≤ NN)
    (h : HoldsMatrix NF NN C G devs)
    (ht : params.correlation_type = "time") (hm : params.correlation_method = "direct")
    :
    reduce_frames params NF (C + 1) devs 0 = .error .bad_index := by
  have hfour := dynamic_result params NF NN C C G devs hNN (le_refl _) h ht hm
  unfold reduce_frames at hfour ⊢
  rw [if_pos ht, if_pos hm] at hfour ⊢
  rw [foldlM_range_succ, hfour]
  have hlen : devs.length = NN := by
    have := congrArg List.length h.1
    simpa using this
  match devs, h, hlen with
  | [], _, hl => simp at hl; omega
  | d :: rest, h, _ =>
    have hd : d.myframes = EvenDecompose.indexes_for NF NN 0 := by
      have h1 := h.1
      obtain ⟨n, rfl⟩ : ∃ n, NN = n + 1 := ⟨NN - 1, by omega⟩
      rw [List.range_succ_eq_map] at h1
      simp only [List.map_cons] at h1
      exact (List.cons.inj h1).1
    have hl : 1 ≤ d.myframes.length := by
      rw [hd]
      unfold EvenDecompose.indexes_for
      simp only [List.length_range']
      rcases Nat.eq_zero_or_pos (NF / NN) with h0 | h0
      · have hlt : NF < NN := by
          rcases Nat.lt_or_ge NF NN with h | h
          · exact h
          · have := Nat.div_pos h (by omega : 0 < NN)
            omega
        have : NF % NN = NF := Nat.mod_eq_of_lt hlt
        rw [this, if_pos (by omega)]
        omega
      · omega
    have hc : d.a.size2 ≤ C := by
      have := (h.2 d (List.mem_cons_self _ _)).2.1
      omega
    show (do
      let thisspectrum ← correlate_frames NF params.zeromean (d :: rest) C 0
      pure (add_spectrum NF _ thisspectrum)) = _
    rw [correlate_frames_outside NF params.zeromean d rest C 0 hl hc]
    rfl

end ReadsOutside

section SphereOutside

variable {R : Type} [LinearOrderedField R]

theorem sph_execute_outside (M : Numerics R) (params : Params R) (sample : Sample R)
    (q : CartesianCoor3D R) (NN : Nat) (devs : List (Device R)) (hNF : 1 ≤ sample.NF)
    (hNN : 1 ≤ NN)
    (hst : Staged sample.NF NN (AllMSScatterDevice.maxoffset params.resolution) devs)
    (halign : params.center = true →
      ∀ f, f < sample.NF → sample.get_postalignmentvectors f ≠ [])
    (hL : params.resolution = 1)
    (ht : params.correlation_type = "time") (hm : params.correlation_method = "direct") :
    AllMSScatterDevice.execute M params sample devs q 0 = .error .bad_index := by
  obtain ⟨devs2, h0, h1⟩ := sph_amplitudes_world M params sample q NN devs hst halign
  have hC : AllMSScatterDevice.maxoffset params.resolution + 1 = 1 + 4 * params.resolution := by
    rw [maxoffset_eq, hL]
  have hs := reduce_frames_outside params sample.NF NN
    (AllMSScatterDevice.maxoffset params.resolution) _ devs2 hNF hNN h1 ht hm
  rw [hC] at hs
  unfold AllMSScatterDevice.execute
  rw [← hs]
  show ((devs.mapM fun d => AllMSScatterDevice.scatter_frames_norm1 M params sample d q)
    >>= fun devs1 =>
      (if params.center then devs1.mapM fun d => multiply_alignmentfactors M sample d q
        else pure devs1) >>= fun devs2 =>
          reduce_frames params sample.NF (1 + 4 * params.resolution) devs2 0) = _
  rw [← bind_assoc, h0]
  rfl

end SphereOutside

section EmptySelectionClaim

variable {R : Type} [LinearOrderedField R]

/-- C14. Empty selection: with a selection of size 0, on `NN ≥ 1` ranks staged
by the constructors for `NF ≥ 1` frames, both kernels return and leave every
entry of every row zero; `execute` of the cylindrical device returns on rank 0
the zero spectrum of length `NF` in static and in dynamic direct mode, for
every resolution; `execute` of the spherical device does so in static mode for
every resolution and in dynamic direct mode for every resolution other than 1.
With resolution 1 the spherical dynamic direct run does not complete: its
correlation loop asks for column 4 of a matrix of 4 columns. -/
theorem empty_selection_spectrum (M : Numerics R) (params : Params R) (sample : Sample R)
    (q : CartesianCoor3D R) (NN : Nat) (devsC devsS : List (Device R))
    (hnoa : sample.noa = 0) (hNF : 1 ≤ sample.NF) (hNN : 1 ≤ NN)
    (hC : Staged sample.NF NN (1 + 4 * params.resolution) devsC)
    (hS : Staged sample.NF NN (AllMSScatterDevice.maxoffset params.resolution) devsS)
    (halign : params.center = true →
      ∀ f, f < sample.NF → sample.get_postalignmentvectors f ≠ []) :
    (∀ d ∈ devsC, ∃ d2, AllMCScatterDevice.scatter_frames_norm1 M params sample d q = .ok d2 ∧
      d2.a.size1 = d.a.size1 ∧ d2.a.size2 = d.a.size2 ∧
      ∀ i c, i < d2.a.size1 → c < d2.a.size2 → d2.a.data i c = 0) ∧
    (∀ d ∈ devsS, ∃ d2, AllMSScatterDevice.scatter_frames_norm1 M params sample d q = .ok d2 ∧
      d2.a.size1 = d.a.size1 ∧ d2.a.size2 = d.a.size2 ∧
      ∀ i c, i < d2.a.size1 → c < d2.a.size2 → d2.a.data i c = 0) ∧
    AllMCScatterDevice.execute M { params with correlation_type := "none" } sample devsC q 0
      = .ok (List.replicate sample.NF 0) ∧
    AllMCScatterDevice.execute M
        { params with correlation_type := "time", correlation_method := "direct" }
        sample devsC q 0 = .ok (List.replicate sample.NF 0) ∧
    AllMSScatterDevice.execute M { params with correlation_type := "none" } sample devsS q 0
      = .ok (List.replicate sample.NF 0) ∧
    (params.resolution ≠ 1 →
      AllMSScatterDevice.execute M
        { params with correlation_type := "time", correlation_method := "direct" }
        sample devsS q 0 = .ok (List.replicate sample.NF 0)) ∧
    (params.resolution = 1 →
      AllMSScatterDevice.execute M
        { params with correlation_type := "time", correlation_method := "direct" }
        sample devsS q 0 = .error .bad_index) := by
  refine ⟨?_, ?_, ?_, ?_, ?_, ?_, ?_⟩
  · intro d hd
    exact cyl_rows_empty M params sample q hnoa d (hC.2 d hd).1 (hC.2 d hd).2
  · intro d hd
    exact sph_rows_empty M params sample q hnoa d (hS.2 d hd).1 (hS.2 d hd).2
  · exact cyl_execute_empty M { params with correlation_type := "none" } sample q NN devsC
      hnoa hNN hC halign (Or.inl (by show "none" ≠ "time"; decide))
  · exact cyl_execute_empty M
      { params with correlation_type := "time", correlation_method := "direct" } sample q NN
      devsC hnoa hNN hC halign (Or.inr ⟨rfl, rfl⟩)
  · exact sph_execute_empty M { params with correlation_type := "none" } sample q NN devsS
      hnoa hNN hS halign (Or.inl (by show "none" ≠ "time"; decide))
  · intro hL
    exact sph_execute_empty M
      { params with correlation_type := "time", correlation_method := "direct" } sample q NN
      devsS hnoa hNN hS halign (Or.inr ⟨rfl, rfl, hL⟩)
  · intro hL
    exact sph_execute_outside M
      { params with correlation_type := "time", correlation_method := "direct" } sample q NN
      devsS hNF hNN hS halign hL rfl rfl

end EmptySelectionClaim

section EmptySelectionWitness

theorem empty_selection_spectrum_witness :
    AllMCScatterDevice.execute example_numerics
        { example_params 2 "none" "direct" false 1000 with correlation_type := "none" }
        example_empty_sample (example_staged 9) example_q 0 = .ok (List.replicate 3 0) ∧
    AllMSScatterDevice.execute example_numerics
        { example_params 2 "none" "direct" false 1000 with
          correlation_type := "time", correlation_method := "direct" }
        example_empty_sample (example_staged 9) example_q 0 = .ok (List.replicate 3 0) :=
  have h := empty_selection_spectrum example_numerics (example_params 2 "none" "direct" false 1000)
    example_empty_sample example_q 2 (example_staged 9) (example_staged 9) rfl (by decide)
    (by decide) (example_staged_ok 9) (example_staged_ok 9) (fun h => by cases h)
  ⟨h.2.2.1, h.2.2.2.2.2.1 (by decide)⟩

/-- C14, failing input. Three frames on two ranks, empty selection, resolution
1: the spherical device in dynamic direct mode stops with `bad_index` instead
of returning the zero spectrum. -/
theorem empty_selection_spherical_fails :
    AllMSScatterDevice.execute example_numerics (example_params 1 "time" "direct" false 1000)
      example_empty_sample (example_staged 4) example_q 0 = .error .bad_index :=
  sph_execute_outside example_numerics (example_params 1 "time" "direct" false 1000)
    example_empty_sample example_q 2 (example_staged 4) (by decide) (by decide)
    (example_staged_ok 4) (fun h => by cases h) rfl rfl rfl

end EmptySelectionWitness

section CastLemmas

variable {R : Type} [CommRing R]

theorem Cplx.natCast_parts (n : Nat) :
    ((n : Cplx R)).re = (n : R) ∧ ((n : Cplx R)).im = 0 := by
  induction n with
  | zero => simp
  | succ n ih => simp [Nat.cast_succ, ih.1, ih.2]

theorem Cplx.ofReal_one : Cplx.ofReal (1 : R) = 1 := by
  ext <;> simp

end CastLemmas

section ConstantSeries

variable {R : Type} [LinearOrderedField R]

omit [LinearOrderedField R] in
theorem constant_devs_hold (NF NN : Nat) (c : Cplx R) :
    HoldsColumn NF NN 0 (fun _ => c) (constant_devs NF NN c) := by
  refine ⟨?_, ?_⟩
  · unfold constant_devs
    rw [List.map_map]
    rfl
  · intro d hd
    unfold constant_devs at hd
    rw [List.mem_map] at hd
    obtain ⟨r, _, rfl⟩ := hd
    exact ⟨rfl, Nat.lt_succ_self 0, fun _ _ => rfl⟩

theorem spec_autocorrelation_const (NF : Nat) (c : Cplx R) (tau : Nat) (htau : tau < NF) :
    spec_autocorrelation NF false (fun _ => c) tau
      = Cplx.ofReal (c.re * c.re + c.im * c.im) := by
  unfold spec_autocorrelation
  have hn : ((NF - tau : Nat) : R) ≠ 0 := Nat.cast_ne_zero.mpr (by omega)
  simp only [Bool.false_eq_true, if_false, sub_zero, Finset.sum_const, Finset.card_range,
    nsmul_eq_mul]
  ext
  · simp [(Cplx.natCast_parts (NF - tau)).1, (Cplx.natCast_parts (NF - tau)).2]
    field_simp
  · simp [(Cplx.natCast_parts (NF - tau)).1, (Cplx.natCast_parts (NF - tau)).2]
    right
    ring

theorem correlate_constant (NF NN col : Nat) (c : Cplx R) (devs : List (Device R))
    (hNN : 1 ≤ NN) (hold : HoldsColumn NF NN col (fun _ => c) devs) :
    correlate_frames NF false devs col 0
      = .ok (List.replicate NF (Cplx.ofReal (c.re * c.re + c.im * c.im))) := by
  rw [correlate_frames_eq NF NN col false _ devs hNN hold]
  congr 1
  apply List.ext_getElem
  · simp
  · intro t h1 h2
    have ht : t < NF := by simpa using h1
    simp only [List.getElem_map, List.getElem_range, List.getElem_replicate]
    exact spec_autocorrelation_const NF c t ht

theorem spec_autocorrelation_single (zeromean : Bool) (A : Cplx R) :
    spec_autocorrelation 1 zeromean (fun _ => A) 0
      = if zeromean then 0 else Cplx.ofReal (A.re * A.re + A.im * A.im) := by
  unfold spec_autocorrelation
  cases zeromean
  · simp only [Bool.false_eq_true, if_false, sub_zero, Finset.sum_const, Finset.card_range,
      nsmul_eq_mul]
    ext
    · simp
    · simp
      ring
  · simp [Cplx.ofReal_one]

theorem correlate_single (NN col : Nat) (zeromean : Bool) (A : Cplx R)
    (devs : List (Device R)) (hNN : 1 ≤ NN) (hold : HoldsColumn 1 NN col (fun _ => A) devs) :
    correlate_frames 1 zeromean devs col 0
      = .ok [if zeromean then 0 else Cplx.ofReal (A.re * A.re + A.im * A.im)] := by
  rw [correlate_frames_eq 1 NN col zeromean _ devs hNN hold]
  show Except.ok [spec_autocorrelation 1 zeromean (fun _ => A) 0] = _
  rw [spec_autocorrelation_single]

omit [LinearOrderedField R] in
theorem correlate_divisors_pos (NF NN : Nat) (zeromean : Bool) (rank : Nat) (hNF : 1 ≤ NF)
    (d : Nat) (hd : d ∈ correlate_divisors NF NN zeromean rank) : 1 ≤ d := by
  unfold correlate_divisors at hd
  rw [List.mem_append] at hd
  rcases hd with hd | hd
  · cases zeromean
    · simp at hd
    · simp at hd
      omega
  · rw [List.mem_map] at hd
    obtain ⟨tau, htau, rfl⟩ := hd
    have := ((RModuloDecompose.mem_lags NF NN rank tau).mp htau).1
    omega

/-- C12. Constant amplitude series: when the `NN ≥ 1` ranks hold in a column the
same value `c` for every one of the `NF ≥ 1` frames, direct time correlation
with the zero-mean option off returns on rank 0 the vector of length `NF`
whose entry at every lag is `|c|² = re(c)² + im(c)²`. -/
theorem constant_series_correlation (NF NN col : Nat) (c : Cplx R) (devs : List (Device R))
    (_hNF : 1 ≤ NF) (hNN : 1 ≤ NN) (hold : HoldsColumn NF NN col (fun _ => c) devs) :
    correlate_frames NF false devs col 0
      = .ok (List.replicate NF (Cplx.ofReal (c.re * c.re + c.im * c.im))) ∧
    ∀ s, correlate_frames NF false devs col 0 = .ok s →
      s.length = NF ∧ ∀ tau, tau < NF → s.getD tau 0 = c * Cplx.conj c := by
  refine ⟨correlate_constant NF NN col c devs hNN hold, ?_⟩
  intro s hs
  rw [correlate_constant NF NN col c devs hNN hold] at hs
  cases hs
  refine ⟨by simp, ?_⟩
  intro tau htau
  rw [List.getD_eq_getElem _ _ (by simpa using htau), List.getElem_replicate]
  ext
  · simp
  · simp
    ring

/-- C13 (as the code has it). Single frame: for `NF = 1` and column amplitude
`A` on `NN ≥ 1` ranks, direct time correlation returns on rank 0 the one-entry
vector `[|A|²]` when the zero-mean option is off and `[0]` when it is on (the
mean is then `A` itself); every divisor the computation uses on any rank, the
`NF` of the mean and each `NF - tau`, is at least 1, so none is zero. -/
theorem single_frame_correlation (NN col : Nat) (zeromean : Bool) (A : Cplx R)
    (devs : List (Device R)) (hNN : 1 ≤ NN) (hold : HoldsColumn 1 NN col (fun _ => A) devs) :
    correlate_frames 1 zeromean devs col 0
      = .ok [if zeromean then 0 else Cplx.ofReal (A.re * A.re + A.im * A.im)] ∧
    ∀ rank, ∀ d ∈ correlate_divisors 1 NN zeromean rank, d ≠ 0 ∧ (d : R) ≠ 0 := by
  refine ⟨correlate_single NN col zeromean A devs hNN hold, ?_⟩
  intro rank d hd
  have := correlate_divisors_pos 1 NN zeromean rank (le_refl 1) d hd
  exact ⟨by omega, Nat.cast_ne_zero.mpr (by omega)⟩

end ConstantSeries

section ConstantSeriesWitness

theorem constant_series_correlation_witness :
    correlate_frames 3 false (constant_devs 3 2 (1 : Cplx ℚ)) 0 0 = .ok [1, 1, 1] ∧
    correlate_frames 4 false (constant_devs 4 3 (1 : Cplx ℚ)) 0 0 = .ok [1, 1, 1, 1] := by
  have h3 := (constant_series_correlation 3 2 0 (1 : Cplx ℚ) (constant_devs 3 2 1) (by decide)
    (by decide) (constant_devs_hold 3 2 1)).1
  have h4 := (constant_series_correlation 4 3 0 (1 : Cplx ℚ) (constant_devs 4 3 1) (by decide)
    (by decide) (constant_devs_hold 4 3 1)).1
  have h1 : Cplx.ofReal ((1 : Cplx ℚ).re * (1 : Cplx ℚ).re + (1 : Cplx ℚ).im * (1 : Cplx ℚ).im)
      = 1 := by
    ext <;> simp
  rw [h1] at h3 h4
  exact ⟨h3, h4⟩

theorem single_frame_correlation_witness :
    correlate_frames 1 false (constant_devs 1 2 (⟨3, 4⟩ : Cplx ℚ)) 0 0
      = .ok [Cplx.ofReal 25] ∧
    ∀ rank, ∀ d ∈ correlate_divisors 1 2 false rank, d ≠ 0 ∧ (d : ℚ) ≠ 0 := by
  have h := single_frame_correlation 2 0 false (⟨3, 4⟩ : Cplx ℚ) (constant_devs 1 2 ⟨3, 4⟩)
    (by decide) (constant_devs_hold 1 2 ⟨3, 4⟩)
  refine ⟨?_, h.2⟩
  have h1 := h.1
  norm_num at h1
  exact h1

/-- C13, counterexample. One frame with amplitude `A = 1` on two ranks and
the zero-mean option on: the mean is `A`, and direct time correlation returns
`[0]`, not `[|A|²] = [1]`. -/
theorem single_frame_zeromean_counterexample :
    correlate_frames 1 true (constant_devs 1 2 (1 : Cplx ℚ)) 0 0 = .ok [0] ∧
    correlate_frames 1 true (constant_devs 1 2 (1 : Cplx ℚ)) 0 0
      ≠ .ok [Cplx.ofReal ((1 : Cplx ℚ).re * (1 : Cplx ℚ).re
          + (1 : Cplx ℚ).im * (1 : Cplx ℚ).im)] := by
  have h := correlate_single 2 0 true (1 : Cplx ℚ) (constant_devs 1 2 1) (by decide)
    (constant_devs_hold 1 2 1)
  rw [if_pos rfl] at h
  refine ⟨h, ?_⟩
  rw [h]
  intro hc
  have h0 := congrArg (fun r => match r with
    | Except.ok (z :: _) => Cplx.re z
    | _ => 0) hc
  simp at h0

end ConstantSeriesWitness

section SignGuard

variable {R : Type} [LinearOrderedField R]

/-- In exact arithmetic the sign factor is `+1` or `-1`: behind the guard the
divisor `|z| * |qz|` is a product of two non-zero numbers of an ordered field.
In `double` arithmetic that product can round to zero (section `Binary64`
below). -/
theorem parallel_sign_values (z qz : R) :
    AllMCScatterDevice.parallel_sign z qz = 1 ∨ AllMCScatterDevice.parallel_sign z qz = -1 := by
  unfold AllMCScatterDevice.parallel_sign
  by_cases h : z ≠ 0 ∧ qz ≠ 0
  · rw [if_pos h]
    have hz : |z| ≠ 0 := abs_ne_zero.mpr h.1
    have hq : |qz| ≠ 0 := abs_ne_zero.mpr h.2
    have hzq : z * qz ≠ 0 := mul_ne_zero h.1 h.2
    rcases abs_choice z with e1 | e1 <;> rcases abs_choice qz with e2 | e2
    · left
      rw [e1, e2]
      exact div_self hzq
    · right
      rw [e1, e2, mul_neg, div_neg, div_self hzq]
    · right
      rw [e1, e2, neg_mul, div_neg, div_self hzq]
    · left
      rw [e1, e2, neg_mul_neg, div_self hzq]
  · rw [if_neg h]
    exact Or.inl rfl

end SignGuard

section Binary64

open binary64

set_option maxRecDepth 100000

set_option exponentiation.threshold 2000

/-- Reference values of the arithmetic: `0.1*0.2`, `1.5*1.5`, `1.0/3.0`,
`1e-200*1e-120` (subnormal), `2.0*(-3.0)`, `1e300*1e10` (overflow), `6.0/6.0`,
`1e-310/3.0`, the halves of the two smallest doubles, and the sign factor of
`(2.0, -3.0)` and `(0.0, -3.0)`. -/
theorem binary64_arithmetic :
    (Double.finite false 7205759403792794 (-56)).mul (.finite false 7205759403792794 (-55))
      = .finite false 5764607523034236 (-58) ∧
    (Double.finite false 6755399441055744 (-52)).mul (.finite false 6755399441055744 (-52))
      = .finite false 5066549580791808 (-51) ∧
    (Double.finite false 4503599627370496 (-52)).div (.finite false 6755399441055744 (-51))
      = .finite false 6004799503160661 (-54) ∧
    (Double.finite false 6894565328877484 (-717)).mul (.finite false 5814709794364855 (-451))
      = .finite false 2024 (-1074) ∧
    (Double.finite false 4503599627370496 (-51)).mul (.finite true 6755399441055744 (-51))
      = .finite true 6755399441055744 (-50) ∧
    (Double.finite false 6724873095247260 944).mul (.finite false 5242880000000000 (-19))
      = .inf false ∧
    (Double.finite false 6755399441055744 (-50)).div (.finite false 6755399441055744 (-50))
      = Double.one ∧
    (Double.finite false 20240225330731 (-1074)).div (.finite false 6755399441055744 (-51))
      = .finite false 6746741776910 (-1074) ∧
    (Double.finite false 1 (-1074)).div (.finite false 4503599627370496 (-51))
      = .finite false 0 (-1074) ∧
    (Double.finite false 3 (-1074)).div (.finite false 4503599627370496 (-51))
      = .finite false 2 (-1074) ∧
    parallel_sign (.finite false 4503599627370496 (-51)) (.finite true 6755399441055744 (-51))
      = Double.one.neg ∧
    parallel_sign (.finite false 0 (-1074)) (.finite true 6755399441055744 (-51))
      = Double.one := by
  decide

theorem bits_loop_zero (fuel : Nat) : bits_loop fuel 0 = 0 := by
  cases fuel <;> simp [bits_loop]

theorem bits_loop_pow (n : Nat) : ∀ fuel, n < fuel → bits_loop fuel (2 ^ n) = n + 1 := by
  induction n with
  | zero =>
    intro fuel h
    obtain ⟨f, rfl⟩ : ∃ f, fuel = f + 1 := ⟨fuel - 1, by omega⟩
    simp [bits_loop, bits_loop_zero]
  | succ n ih =>
    intro fuel h
    obtain ⟨f, rfl⟩ : ∃ f, fuel = f + 1 := ⟨fuel - 1, by omega⟩
    have hne : (2 : Nat) ^ (n + 1) ≠ 0 := by positivity
    have hdiv : (2 : Nat) ^ (n + 1) / 2 = 2 ^ n := by
      rw [pow_succ]
      exact Nat.mul_div_cancel _ (by decide)
    unfold bits_loop
    rw [if_neg hne, hdiv, ih f (by omega)]

theorem bits_pow (n : Nat) : bits (2 ^ n) = n + 1 :=
  bits_loop_pow n _ (Nat.lt_two_pow n)

theorem round_magnitude_one (n : Nat) (h : 53 ≤ n) :
    round_magnitude (2 ^ n) (-(n : Int)) = some (2 ^ 52, -52) := by
  have hs : ((-52 : Int) - -(n : Int)).toNat = n - 52 := by omega
  have hq : (2 : Nat) ^ n / 2 ^ (n - 52) = 2 ^ 52 := by
    rw [Nat.pow_div (by omega) (by decide)]
    congr 1
    omega
  have hr : (2 : Nat) ^ n % 2 ^ (n - 52) = 0 :=
    Nat.mod_eq_zero_of_dvd (pow_dvd_pow 2 (by omega))
  have hhalf : (0 : Nat) < 2 ^ (n - 52 - 1) := by positivity
  unfold round_magnitude
  simp only [bits_pow]
  have he : max (-(n : Int) + ((n + 1 : Nat) : Int) - 53) (-1074) = -52 := by
    push_cast
    omega
  have hn : ¬ ((-52 : Int) ≤ -(n : Int)) := by omega
  have hc : ¬ ((0 : Nat) > 2 ^ (n - 52 - 1) ∨ (0 : Nat) = 2 ^ (n - 52 - 1) ∧ 2 ^ 52 % 2 = 1) := by
    rintro (h1 | ⟨h1, _⟩) <;> omega
  rw [he]
  simp only [hn, hs, hq, hr, hc, if_false]
  decide

theorem div_self_finite (s : Bool) (m : Nat) (e : Int) (hm : m ≠ 0) :
    (Double.finite s m e).div (.finite false m e) = .finite s (2 ^ 52) (-52) := by
  have hdiv : m * 2 ^ (64 + bits m) / m = 2 ^ (64 + bits m) :=
    Nat.mul_div_cancel_left _ (Nat.pos_of_ne_zero hm)
  have hmod : m * 2 ^ (64 + bits m) % m = 0 := Nat.mul_mod_right _ _
  have hpow : 2 * 2 ^ (64 + bits m) + 0 = 2 ^ (64 + bits m + 1) := by
    rw [pow_succ]
    ring
  have hexp : e - e - ((64 + bits m : Nat) : Int) - 1 = -((64 + bits m + 1 : Nat) : Int) := by
    push_cast
    ring
  unfold Double.div
  simp only [if_neg hm, hdiv, hmod, if_true, Bool.xor_false]
  rw [hpow, hexp]
  unfold binary64.round
  rw [round_magnitude_one _ (by omega)]

/-- C18, in `double` arithmetic. Cylindrical sign guard: for finite non-zero
doubles `z` and `qz` the guard lets the division run, and the sign factor is
`+1.0` or `-1.0` (the sign of `z*qz`) exactly when the product
`abs(z)*abs(qz)` rounds to a finite non-zero double; when the product rounds
to zero (underflow, the division is `0/0`) or is beyond the largest double
(overflow, the division is `inf/inf`), the sign factor is not-a-number. -/
theorem parallel_sign_finite (n1 n2 : Bool) (m1 m2 : Nat) (e1 e2 : Int)
    (h1 : m1 ≠ 0) (h2 : m2 ≠ 0) :
    parallel_sign (.finite n1 m1 e1) (.finite n2 m2 e2)
      = match round_magnitude (m1 * m2) (e1 + e2) with
        | none => .nan
        | some (q, _) => if q = 0 then .nan else .finite (xor n1 n2) (2 ^ 52) (-52) := by
  unfold parallel_sign
  have hg : ((Double.finite n1 m1 e1).ne_zero && (Double.finite n2 m2 e2).ne_zero) = true := by
    simp [Double.ne_zero, h1, h2]
  have hmul : (Double.finite n1 m1 e1).mul (.finite n2 m2 e2)
      = binary64.round (xor n1 n2) (m1 * m2) (e1 + e2) := rfl
  have habs : (Double.finite n1 m1 e1).abs.mul (Double.finite n2 m2 e2).abs
      = binary64.round false (m1 * m2) (e1 + e2) := rfl
  rw [if_pos hg, hmul, habs]
  unfold binary64.round
  cases hrm : round_magnitude (m1 * m2) (e1 + e2) with
  | none => rfl
  | some p =>
    obtain ⟨q, e⟩ := p
    simp only []
    by_cases hq : q = 0
    · rw [if_pos hq, hq]
      unfold Double.div
      simp
    · rw [if_neg hq]
      exact div_self_finite _ q e hq

/-- The sign factor of `z = 2.0` and `qz = -3.0` is `-1.0`. -/
theorem parallel_sign_finite_witness :
    4503599627370496 ≠ 0 ∧ 6755399441055744 ≠ 0 ∧
    parallel_sign (.finite false 4503599627370496 (-51)) (.finite true 6755399441055744 (-51))
      = .finite true (2 ^ 52) (-52) :=
  ⟨by decide, by decide,
    (parallel_sign_finite false true 4503599627370496 6755399441055744 (-51) (-51)
      (by decide) (by decide)).trans (by decide)⟩

/-- The guard in `double` arithmetic: the sign factor is `1.0` whenever `z` or
`qz` is a zero (of either sign). -/
theorem parallel_sign_zero (n : Bool) (e : Int) (x : Double) :
    parallel_sign (.finite n 0 e) x = Double.one ∧
    parallel_sign x (.finite n 0 e) = Double.one := by
  unfold parallel_sign
  simp [Double.ne_zero]

/-- The inputs of the two examples that follow:
`6894565328877484 * 2^-717`, `7371020360979573 * 2^-551` and
`5883593420661338 * 2^612` are within half a unit of their last digit of
`10^-200`, `10^-150` and `10^200`, and have 53 digits: they are the doubles
of the literals `1e-200`, `1e-150` and `1e200`. -/
theorem binary64_inputs :
    ((2 * 6894565328877484 - 1) * 10 ^ 200 ≤ 2 * 2 ^ 717 ∧
      2 * 2 ^ 717 ≤ (2 * 6894565328877484 + 1) * 10 ^ 200 ∧ bits 6894565328877484 = 53) ∧
    ((2 * 7371020360979573 - 1) * 10 ^ 150 ≤ 2 * 2 ^ 551 ∧
      2 * 2 ^ 551 ≤ (2 * 7371020360979573 + 1) * 10 ^ 150 ∧ bits 7371020360979573 = 53) ∧
    ((2 * 5883593420661338 - 1) * 2 ^ 612 ≤ 2 * 10 ^ 200 ∧
      2 * 10 ^ 200 ≤ (2 * 5883593420661338 + 1) * 2 ^ 612 ∧ bits 5883593420661338 = 53) := by
  decide

/-- C18, failing input. The doubles `z = 1e-200` and `qz = 1e-150` are both
non-zero, so the guard `(z != 0) && (qz != 0)` lets the division run; the
products `abs(z)*abs(qz)` and `z*qz`, of magnitude about `2^-1162`, are below
half the smallest double `2^-1074` and round to zero; the division is `0/0`,
and `parallel_sign` is not-a-number, neither `+1` nor `-1`, and so is the
phase argument `parallel_sign*z*qz`. -/
theorem parallel_sign_underflow :
    (Double.finite false 6894565328877484 (-717)).ne_zero = true ∧
    (Double.finite false 7371020360979573 (-551)).ne_zero = true ∧
    (Double.finite false 6894565328877484 (-717)).abs.mul
        (Double.finite false 7371020360979573 (-551)).abs = .finite false 0 (-1074) ∧
    (Double.finite false 6894565328877484 (-717)).mul
        (Double.finite false 7371020360979573 (-551)) = .finite false 0 (-1074) ∧
    (Double.finite false 0 (-1074)).div (.finite false 0 (-1074)) = .nan ∧
    parallel_sign (.finite false 6894565328877484 (-717))
        (.finite false 7371020360979573 (-551)) = .nan ∧
    parallel_sign (.finite false 6894565328877484 (-717))
        (.finite false 7371020360979573 (-551)) ≠ Double.one ∧
    parallel_sign (.finite false 6894565328877484 (-717))
        (.finite false 7371020360979573 (-551)) ≠ Double.one.neg ∧
    ((parallel_sign (.finite false 6894565328877484 (-717))
        (.finite false 7371020360979573 (-551))).mul
          (.finite false 6894565328877484 (-717))).mul
        (.finite false 7371020360979573 (-551)) = .nan := by
  decide

/-- The same for large operands: for `z = qz = 1e200` the products `z*qz` and
`abs(z)*abs(qz)` are beyond the largest double and round to infinity, the
division is `inf/inf`, and `parallel_sign` is not-a-number. -/
theorem parallel_sign_overflow :
    (Double.finite false 5883593420661338 612).mul (.finite false 5883593420661338 612)
      = .inf false ∧
    parallel_sign (.finite false 5883593420661338 612) (.finite false 5883593420661338 612)
      = .nan := by
  decide

end Binary64

section PhaseEven

variable {R : Type} [LinearOrderedField R]

end PhaseEven

section PhaseEvenWitness

end PhaseEvenWitness

section AlignmentStatic

variable {R : Type} [Field R]

theorem Cplx.conj_mul (x y : Cplx R) : Cplx.conj (x * y) = Cplx.conj x * Cplx.conj y := by
  ext
  · simp
  · simp
    ring

theorem row_norm2_scaled (a b : ublas.matrix (Cplx R)) (i : Nat) (F : Cplx R)
    (hF : F * Cplx.conj F = 1) (hs : b.size2 = a.size2)
    (hb : ∀ c, c < a.size2 → b.data i c = a.data i c * F) :
    row_norm2 b i = row_norm2 a i := by
  unfold row_norm2
  rw [hs]
  apply Finset.sum_congr rfl
  intro c hc
  rw [hb c (Finset.mem_range.mp hc), Cplx.conj_mul]
  calc a.data i c * F * (Cplx.conj (a.data i c) * Cplx.conj F)
      = a.data i c * Cplx.conj (a.data i c) * (F * Cplx.conj F) := by ring
    _ = a.data i c * Cplx.conj (a.data i c) := by rw [hF, mul_one]

/-- C20. The post-alignment phase does not change the static output: for a
matrix with at least one column whose rows all have a post-alignment vector,
and an `exp` whose values `exp(i x)` have modulus 1, `multiply_alignmentfactors`
followed by `conjmultiply_frames` leaves in column 0 of every row the value
that `conjmultiply_frames` alone leaves there. -/
theorem alignment_keeps_static (M : Numerics R) (sample : Sample R) (d : Device R)
    (q : CartesianCoor3D R) (hcols : 1 ≤ d.a.size2)
    (hne : ∀ i, i < d.a.size1 → sample.get_postalignmentvectors (d.myframes.getD i 0) ≠ [])
    (hunit : ∀ x : R, M.exp ⟨0, x⟩ * Cplx.conj (M.exp ⟨0, x⟩) = 1) :
    ∃ d2, multiply_alignmentfactors M sample d q = .ok d2 ∧
      ∀ i, i < d.a.size1 →
        (conjmultiply_frames d2.a).data i 0 = (conjmultiply_frames d.a).data i 0 := by
  obtain ⟨s1, s2, s3⟩ := scale_rows_spec (alignment_factor M sample d.myframes q) d.a d.a.size1
  refine ⟨_, multiply_alignmentfactors_ok M sample d q hne, ?_⟩
  intro i hi
  show (conjmultiply_frames ((List.range d.a.size1).foldl
    (fun a i => scale_row (alignment_factor M sample d.myframes q i) a i) d.a)).data i 0 = _
  unfold conjmultiply_frames
  rw [(conjmultiply_rows _ (by rw [s2]; exact hcols) _).2.2 i 0,
    (conjmultiply_rows d.a hcols _).2.2 i 0, s1, if_pos ⟨hi, rfl⟩, if_pos ⟨hi, rfl⟩]
  apply row_norm2_scaled d.a _ i (alignment_factor M sample d.myframes q i) (hunit _) s2
  intro c hc
  rw [s3 i c, if_pos ⟨hi, hc⟩]

end AlignmentStatic

section AlignmentStaticWitness

theorem alignment_keeps_static_witness :
    let M : Numerics ℝ :=
      ⟨Real.sqrt, fun z => ⟨Real.exp z.re * Real.cos z.im, Real.exp z.re * Real.sin z.im⟩,
        Real.cos, Real.sin, Real.pi, fun _ _ => 1, fun _ _ => 0, fun _ _ _ _ => 0⟩
    let sample : Sample ℝ :=
      ⟨2, 1, fun _ => ⟨[1], [0], [1]⟩, fun f => [⟨1, 0, (f : ℝ)⟩], fun _ => [1]⟩
    let d : Device ℝ := ⟨[0, 1], ⟨2, 3, fun i c => ⟨(i : ℝ) + 1, (c : ℝ) + 1⟩⟩⟩
    let q : CartesianCoor3D ℝ := ⟨1, 0, 2⟩
    (∀ x : ℝ, M.exp ⟨0, x⟩ * Cplx.conj (M.exp ⟨0, x⟩) = 1) ∧
    ∃ d2, multiply_alignmentfactors M sample d q = .ok d2 ∧
      ∀ i, i < 2 → (conjmultiply_frames d2.a).data i 0 = (conjmultiply_frames d.a).data i 0 := by
  intro M sample d q
  have hunit : ∀ x : ℝ, M.exp ⟨0, x⟩ * Cplx.conj (M.exp ⟨0, x⟩) = 1 := by
    intro x
    ext
    · simp [M]
      have := Real.cos_sq_add_sin_sq x
      nlinarith
    · simp [M]
      ring
  exact ⟨hunit, alignment_keeps_static M sample d q (by decide)
    (fun _ _ => List.cons_ne_nil _ _) hunit⟩

end AlignmentStaticWitness

section StoreOrder

variable {R : Type} [Field R]

theorem foldlM_congr_mem {β γ : Type} (f g : β → γ → Except Fault β) (l : List γ)
    (h : ∀ x ∈ l, ∀ b, f b x = g b x) (b : β) : l.foldlM f b = l.foldlM g b := by
  induction l generalizing b with
  | nil => rfl
  | cons x xs ih =>
    rw [List.foldlM_cons, List.foldlM_cons, h x (List.mem_cons_self _ _) b]
    congr 1
    funext b2
    exact ih (fun y hy => h y (List.mem_cons_of_mem _ hy)) b2

omit [Field R] in
theorem store_counted [Zero R] (iframe : Nat) (val : Nat → Cplx R) (n : Nat)
    (a : ublas.matrix (Cplx R)) (off : Nat) :
    (List.range n).foldlM
        (fun (st : ublas.matrix (Cplx R) × Nat) (k : Nat) => do
          let a ← st.1.write iframe st.2 (val k)
          pure (a, st.2 + 1))
        (a, off)
      = (List.range n).foldlM (fun a k => a.write iframe (off + k) (val k)) a
          >>= fun a2 => pure (a2, off + n) := by
  induction n with
  | zero => rfl
  | succ n ih =>
    rw [List.range_succ, List.foldlM_append, List.foldlM_append, ih]
    cases (List.range n).foldlM (fun a k => a.write iframe (off + k) (val k)) a with
    | error e => rfl
    | ok a2 =>
      simp only [List.foldlM_cons, List.foldlM_nil, bind, Except.bind, pure, Except.pure]
      cases a2.write iframe (off + n) (val n) with
      | error e => rfl
      | ok a3 => rfl

theorem sph_store_all (iframe : Nat) (v : Nat → Nat → Cplx R) (n : Nat)
    (a : ublas.matrix (Cplx R)) :
    (List.range n).foldlM
        (fun (st : ublas.matrix (Cplx R) × Nat) l =>
          (AllMSScatterDevice.orders l).foldlM
            (fun (st : ublas.matrix (Cplx R) × Nat) (m : Int) => do
              let a ← st.1.write iframe st.2 (v l (m + (l : Int)).toNat)
              pure (a, st.2 + 1))
            st)
        (a, 0)
      = (List.range (n * n)).foldlM
          (fun a c => a.write iframe c (v (Nat.sqrt c) (c - Nat.sqrt c * Nat.sqrt c))) a
          >>= fun a2 => pure (a2, n * n) := by
  induction n with
  | zero => rfl
  | succ n ih =>
    have hsq : (n + 1) * (n + 1) = n * n + (2 * n + 1) := by ring
    rw [List.range_succ, List.foldlM_append, ih, hsq, List.range_add, List.foldlM_append]
    cases (List.range (n * n)).foldlM
        (fun a c => a.write iframe c (v (Nat.sqrt c) (c - Nat.sqrt c * Nat.sqrt c))) a with
    | error e => rfl
    | ok a2 =>
      have hk := store_counted iframe
        (fun k => v n ((k : Int) - (n : Int) + (n : Int)).toNat) (2 * n + 1) a2 (n * n)
      unfold AllMSScatterDevice.orders
      simp only [List.foldlM_cons, List.foldlM_nil, List.foldlM_map, bind, Except.bind, pure,
        Except.pure] at hk ⊢
      rw [hk]
      have hc : (List.range (2 * n + 1)).foldlM
          (fun a k => a.write iframe (n * n + k) (v n ((k : Int) - (n : Int) + (n : Int)).toNat))
          a2
          = (List.range (2 * n + 1)).foldlM
            (fun a k => a.write iframe (n * n + k)
              (v (Nat.sqrt (n * n + k)) (n * n + k - Nat.sqrt (n * n + k) * Nat.sqrt (n * n + k))))
            a2 := by
        apply foldlM_congr_mem
        intro k hk b
        have hk2 : k ≤ n + n := by
          have := List.mem_range.mp hk
          omega
        rw [orders_index, Nat.sqrt_add_eq n hk2, Nat.add_sub_cancel_left]
      rw [hc]
      cases (List.range (2 * n + 1)).foldlM
          (fun a k => a.write iframe (n * n + k)
            (v (Nat.sqrt (n * n + k)) (n * n + k - Nat.sqrt (n * n + k) * Nat.sqrt (n * n + k))))
          a2 with
      | error e => rfl
      | ok a3 => rfl

end StoreOrder

section KernelStores

variable {R : Type} [LinearOrderedField R]

theorem sph_kernel_stores (M : Numerics R) (params : Params R) (sample : Sample R)
    (d : Device R) (iframe : Nat) (q : CartesianCoor3D R) :
    AllMSScatterDevice.scatter_frame_norm1 M params sample d iframe q
      = (List.range ((params.resolution + 1) * (params.resolution + 1))).foldlM
          (fun a c => a.write iframe c
            (sph_entry M params sample q (d.myframes.getD iframe 0) c)) d.a
          >>= fun a => pure { d with a := a } := by
  have h := sph_store_all iframe
    (fun l k => Cplx.divReal
      ((AllMSScatterDevice.almv M params sample q (d.myframes.getD iframe 0)).entry l k)
      (M.sqrt (4 * M.pi)))
    (params.resolution + 1) d.a
  unfold AllMSScatterDevice.scatter_frame_norm1
  simp only []
  rw [h]
  unfold sph_entry
  cases (List.range ((params.resolution + 1) * (params.resolution + 1))).foldlM
      (fun a c => a.write iframe c
        (Cplx.divReal
          ((AllMSScatterDevice.almv M params sample q (d.myframes.getD iframe 0)).entry
            (Nat.sqrt c) (c - Nat.sqrt c * Nat.sqrt c))
          (M.sqrt (4 * M.pi)))) d.a with
  | error e => rfl
  | ok a2 => rfl

omit [LinearOrderedField R] in
theorem cyl_store_blocks [Field R] (iframe : Nat) (w : Cplx R) (vA vB vC vD : Nat → Cplx R)
    (n : Nat) (a : ublas.matrix (Cplx R)) :
    (List.range' 1 n).foldlM
        (fun (a : ublas.matrix (Cplx R)) l => do
          let a1 ← a.write iframe ((l - 1) * 4 + 1) (w * vA l)
          let a2 ← a1.write iframe ((l - 1) * 4 + 2) (w * vB l)
          let a3 ← a2.write iframe ((l - 1) * 4 + 3) (w * vC l)
          a3.write iframe ((l - 1) * 4 + 4) (w * vD l))
        a
      = (List.range (4 * n)).foldlM
          (fun a c => a.write iframe (1 + c)
            (if c % 4 = 0 then w * vA (c / 4 + 1)
             else if c % 4 = 1 then w * vB (c / 4 + 1)
             else if c % 4 = 2 then w * vC (c / 4 + 1)
             else w * vD (c / 4 + 1)))
          a := by
  induction n with
  | zero => rfl
  | succ n ih =>
    have hr : List.range (4 * (n + 1))
        = List.range (4 * n) ++ [4 * n, 4 * n + 1, 4 * n + 2, 4 * n + 3] := by
      rw [show 4 * (n + 1) = 4 * n + 1 + 1 + 1 + 1 by ring, List.range_succ, List.range_succ,
        List.range_succ, List.range_succ]
      simp
    rw [List.range'_1_concat, List.foldlM_append, ih, hr, List.foldlM_append]
    have e1 : (1 + n - 1) * 4 + 1 = 1 + 4 * n := by omega
    have e2 : (1 + n - 1) * 4 + 2 = 1 + (4 * n + 1) := by omega
    have e3 : (1 + n - 1) * 4 + 3 = 1 + (4 * n + 2) := by omega
    have e4 : (1 + n - 1) * 4 + 4 = 1 + (4 * n + 3) := by omega
    have m0 : (4 * n) % 4 = 0 := by omega
    have m1 : (4 * n + 1) % 4 = 1 := by omega
    have m2 : (4 * n + 2) % 4 = 2 := by omega
    have m3 : (4 * n + 3) % 4 = 3 := by omega
    have d0 : (4 * n) / 4 + 1 = 1 + n := by omega
    have d1 : (4 * n + 1) / 4 + 1 = 1 + n := by omega
    have d2 : (4 * n + 2) / 4 + 1 = 1 + n := by omega
    have d3 : (4 * n + 3) / 4 + 1 = 1 + n := by omega
    congr 1
    funext a2
    simp only [List.foldlM_cons, List.foldlM_nil, e1, e2, e3, e4, m0, m1, m2, m3, d0, d1, d2,
      d3, if_true, bind_pure]
    norm_num

theorem cyl_kernel_stores (M : Numerics R) (params : Params R) (sample : Sample R)
    (d : Device R) (iframe : Nat) (q : CartesianCoor3D R) :
    AllMCScatterDevice.scatter_frame_norm1 M params sample d iframe q
      = (List.range (1 + 4 * params.resolution)).foldlM
          (fun a c => a.write iframe c
            (cyl_entry M params sample q (d.myframes.getD iframe 0) c)) d.a
          >>= fun a => pure { d with a := a } := by
  have h := cyl_store_blocks iframe (Cplx.ofReal (M.sqrt (1 / 2)))
    (AllMCScatterDevice.coefficients M params sample q (d.myframes.getD iframe 0)).A
    (AllMCScatterDevice.coefficients M params sample q (d.myframes.getD iframe 0)).B
    (AllMCScatterDevice.coefficients M params sample q (d.myframes.getD iframe 0)).C
    (AllMCScatterDevice.coefficients M params sample q (d.myframes.getD iframe 0)).D
    params.resolution
  unfold AllMCScatterDevice.scatter_frame_norm1
  simp only []
  rw [List.range_add, List.foldlM_append]
  have h0 : (List.range 1).foldlM
      (fun a c => a.write iframe c
        (cyl_entry M params sample q (d.myframes.getD iframe 0) c)) d.a
      = d.a.write iframe 0
        ((AllMCScatterDevice.coefficients M params sample q (d.myframes.getD iframe 0)).A 0) := by
    show (do
      let a1 ← d.a.write iframe 0 (cyl_entry M params sample q (d.myframes.getD iframe 0) 0)
      pure a1) = _
    rw [bind_pure]
    rfl
  rw [h0]
  cases d.a.write iframe 0
      ((AllMCScatterDevice.coefficients M params sample q (d.myframes.getD iframe 0)).A 0) with
  | error e => rfl
  | ok a0 =>
    have hc : (List.map (fun x => 1 + x) (List.range (4 * params.resolution))).foldlM
        (fun a c => a.write iframe c
          (cyl_entry M params sample q (d.myframes.getD iframe 0) c)) a0
        = (List.range (4 * params.resolution)).foldlM
          (fun a c => a.write iframe (1 + c)
            (if c % 4 = 0 then Cplx.ofReal (M.sqrt (1 / 2)) *
                (AllMCScatterDevice.coefficients M params sample q
                  (d.myframes.getD iframe 0)).A (c / 4 + 1)
             else if c % 4 = 1 then Cplx.ofReal (M.sqrt (1 / 2)) *
                (AllMCScatterDevice.coefficients M params sample q
                  (d.myframes.getD iframe 0)).B (c / 4 + 1)
             else if c % 4 = 2 then Cplx.ofReal (M.sqrt (1 / 2)) *
                (AllMCScatterDevice.coefficients M params sample q
                  (d.myframes.getD iframe 0)).C (c / 4 + 1)
             else Cplx.ofReal (M.sqrt (1 / 2)) *
                (AllMCScatterDevice.coefficients M params sample q
                  (d.myframes.getD iframe 0)).D (c / 4 + 1)))
          a0 := by
      rw [List.foldlM_map]
      apply foldlM_congr_mem
      intro c _ b
      unfold cyl_entry
      rw [if_neg (by omega), Nat.add_sub_cancel_left]
    simp only [bind, Except.bind, pure, Except.pure] at h ⊢
    rw [hc, h a0]

end KernelStores

section SphereLayout

variable {R : Type} [LinearOrderedField R]

theorem sum_odd (n : Nat) : ∑ l in Finset.range n, (2 * l + 1) = n * n := by
  induction n with
  | zero => rfl
  | succ n ih =>
    rw [Finset.sum_range_succ, ih]
    ring

theorem column_unique (L c : Nat) (hc : c < (L + 1) * (L + 1)) :
    ∃! p : Nat × Int, p.1 ≤ L ∧ -(p.1 : Int) ≤ p.2 ∧ p.2 ≤ (p.1 : Int) ∧
      ((p.1 * p.1 + p.1 : Nat) : Int) + p.2 = (c : Int) := by
  have h1 : Nat.sqrt c * Nat.sqrt c ≤ c := Nat.sqrt_le c
  have h2 : c < (Nat.sqrt c + 1) * (Nat.sqrt c + 1) := Nat.lt_succ_sqrt c
  have h3 : Nat.sqrt c < L + 1 := Nat.sqrt_lt.mpr hc
  have e : (Nat.sqrt c + 1) * (Nat.sqrt c + 1)
      = Nat.sqrt c * Nat.sqrt c + 2 * Nat.sqrt c + 1 := by ring
  refine ⟨(Nat.sqrt c, (c : Int) - ((Nat.sqrt c * Nat.sqrt c + Nat.sqrt c : Nat) : Int)),
    ⟨by omega, by simp only []; omega, by simp only []; omega, by simp only []; omega⟩, ?_⟩
  rintro ⟨l, m⟩ ⟨_, g2, g3, g4⟩
  simp only [] at g2 g3 g4
  have hl : l = Nat.sqrt c := by
    apply Nat.eq_sqrt.mpr
    have e2 : (l + 1) * (l + 1) = l * l + 2 * l + 1 := by ring
    constructor
    · omega
    · omega
  subst hl
  have hm : m = (c : Int) - ((Nat.sqrt c * Nat.sqrt c + Nat.sqrt c : Nat) : Int) := by omega
  rw [hm]

/-- C15. Spherical column count and layout: the constructor's matrix has
`maxoffset = Σ_{l ≤ L} (2l+1) = (L+1)²` columns; `scatter_frame_norm1` is the
sequence of stores into the columns `0, 1, …, (L+1)² - 1` of row `iframe`, one
store per column in this order, and on a row of a matrix of that width every
store is in range, so the kernel returns; the value stored in column
`l² + l + m` is `almv[l][m+l] / sqrt(4π)`, the coefficient `(l, m)`; and
`(l, m) ↦ l² + l + m` maps the pairs with `l ≤ L`, `-l ≤ m ≤ l` one-to-one onto
the column indices below `(L+1)²`. -/
theorem spherical_column_layout (M : Numerics R) (params : Params R) (sample : Sample R)
    (d : Device R) (iframe : Nat) (q : CartesianCoor3D R) (hi : iframe < d.a.size1)
    (hC : d.a.size2 = AllMSScatterDevice.maxoffset params.resolution) :
    (∀ NN rank d0, AllMSScatterDevice.new params sample NN rank = .ok d0 →
      d0.a.size2 = (params.resolution + 1) * (params.resolution + 1)) ∧
    AllMSScatterDevice.maxoffset params.resolution
      = ∑ l in Finset.range (params.resolution + 1), (2 * l + 1) ∧
    AllMSScatterDevice.maxoffset params.resolution
      = (params.resolution + 1) * (params.resolution + 1) ∧
    AllMSScatterDevice.scatter_frame_norm1 M params sample d iframe q
      = (List.range ((params.resolution + 1) * (params.resolution + 1))).foldlM
          (fun a c => a.write iframe c
            (sph_entry M params sample q (d.myframes.getD iframe 0) c)) d.a
          >>= (fun a => pure { d with a := a }) ∧
    (∃ d2, AllMSScatterDevice.scatter_frame_norm1 M params sample d iframe q = .ok d2 ∧
      d2.a.size1 = d.a.size1 ∧ d2.a.size2 = d.a.size2 ∧
      ∀ (l : Nat) (m : Int), l ≤ params.resolution → -(l : Int) ≤ m → m ≤ (l : Int) →
        (((l * l + l : Nat) : Int) + m).toNat
          < (params.resolution + 1) * (params.resolution + 1) ∧
        d2.a.data iframe (((l * l + l : Nat) : Int) + m).toNat
          = Cplx.divReal
              ((AllMSScatterDevice.almv M params sample q (d.myframes.getD iframe 0)).entry l
                (m + (l : Int)).toNat)
              (M.sqrt (4 * M.pi))) ∧
    (∀ c, c < (params.resolution + 1) * (params.resolution + 1) →
      ∃! p : Nat × Int, p.1 ≤ params.resolution ∧ -(p.1 : Int) ≤ p.2 ∧ p.2 ≤ (p.1 : Int) ∧
        ((p.1 * p.1 + p.1 : Nat) : Int) + p.2 = (c : Int)) := by
  refine ⟨?_, ?_, maxoffset_eq _, sph_kernel_stores M params sample d iframe q, ?_,
    fun c hc => column_unique params.resolution c hc⟩
  · intro NN rank d0 h0
    unfold AllMSScatterDevice.new at h0
    simp only [] at h0
    split_ifs at h0
    cases h0
    exact maxoffset_eq _
  · rw [maxoffset_eq, sum_odd]
  · obtain ⟨d2, h0, _, h2, h3, h4⟩ := sph_scatter_frame M params sample d iframe q hi hC
    refine ⟨d2, h0, h2, h3, ?_⟩
    intro l m hl hm1 hm2
    have hcol : (((l * l + l : Nat) : Int) + m).toNat = l * l + (m + (l : Int)).toNat := by
      omega
    have hlt : l * l + (m + (l : Int)).toNat
        < (params.resolution + 1) * (params.resolution + 1) := by
      have : (l + 1) * (l + 1) ≤ (params.resolution + 1) * (params.resolution + 1) :=
        Nat.mul_le_mul (by omega) (by omega)
      have e : (l + 1) * (l + 1) = l * l + 2 * l + 1 := by ring
      omega
    rw [hcol]
    refine ⟨hlt, ?_⟩
    rw [h4, if_pos ⟨rfl, by rw [maxoffset_eq]; exact hlt⟩]
    unfold sph_entry
    rw [Nat.sqrt_add_eq l (by omega), Nat.add_sub_cancel_left]

end SphereLayout

section SphereLayoutWitness

theorem spherical_column_layout_witness :
    ∃ d2, AllMSScatterDevice.scatter_frame_norm1 example_numerics
        (example_params 2 "none" "direct" false 1000) example_sample
        ⟨[0, 1], ublas.matrix.resize 2 9⟩ 1 example_q = .ok d2 ∧
      d2.a.size1 = 2 ∧ d2.a.size2 = 9 ∧
      ∀ (l : Nat) (m : Int), l ≤ 2 → -(l : Int) ≤ m → m ≤ (l : Int) →
        (((l * l + l : Nat) : Int) + m).toNat < 9 ∧
        d2.a.data 1 (((l * l + l : Nat) : Int) + m).toNat
          = Cplx.divReal
              ((AllMSScatterDevice.almv example_numerics
                (example_params 2 "none" "direct" false 1000) example_sample example_q
                ((⟨[0, 1], ublas.matrix.resize 2 9⟩ : Device ℚ).myframes.getD 1 0)).entry
                l (m + (l : Int)).toNat)
              (example_numerics.sqrt (4 * example_numerics.pi)) :=
  (spherical_column_layout example_numerics (example_params 2 "none" "direct" false 1000)
    example_sample ⟨[0, 1], ublas.matrix.resize 2 9⟩ 1 example_q (by decide)
    (by rfl)).2.2.2.2.1

end SphereLayoutWitness

section CylinderLayout

variable {R : Type} [LinearOrderedField R]

omit [LinearOrderedField R] in
theorem sum_blocks [Field R] (h : Nat → Cplx R) (n : Nat) :
    ∑ c in Finset.range (4 * n), h c
      = ∑ l in Finset.range n, (h (4 * l) + h (4 * l + 1) + h (4 * l + 2) + h (4 * l + 3)) := by
  induction n with
  | zero => rfl
  | succ n ih =>
    rw [show 4 * (n + 1) = 4 * n + 1 + 1 + 1 + 1 by ring, Finset.sum_range_succ,
      Finset.sum_range_succ, Finset.sum_range_succ, Finset.sum_range_succ, ih,
      Finset.sum_range_succ]
    ring

theorem norm_scaled (M : Numerics R) (hsqrt : IsSqrt M) (z : Cplx R) :
    Cplx.ofReal (M.sqrt (1 / 2)) * z * Cplx.conj (Cplx.ofReal (M.sqrt (1 / 2)) * z)
      = Cplx.ofReal (1 / 2) * (z * Cplx.conj z) := by
  have h := (hsqrt (1 / 2) (by norm_num)).2
  have e : Cplx.ofReal (M.sqrt (1 / 2)) * Cplx.conj (Cplx.ofReal (M.sqrt (1 / 2)))
      = Cplx.ofReal (1 / 2) := by
    ext
    · simp
      linarith
    · simp
  rw [Cplx.conj_mul]
  calc Cplx.ofReal (M.sqrt (1 / 2)) * z * (Cplx.conj (Cplx.ofReal (M.sqrt (1 / 2))) * Cplx.conj z)
      = Cplx.ofReal (M.sqrt (1 / 2)) * Cplx.conj (Cplx.ofReal (M.sqrt (1 / 2)))
          * (z * Cplx.conj z) := by ring
    _ = Cplx.ofReal (1 / 2) * (z * Cplx.conj z) := by rw [e]

theorem cyl_entry_blocks (M : Numerics R) (params : Params R) (sample : Sample R)
    (q : CartesianCoor3D R) (frame l : Nat) (hl : 1 ≤ l) :
    cyl_entry M params sample q frame (4 * (l - 1) + 1)
      = Cplx.ofReal (M.sqrt (1 / 2)) * (AllMCScatterDevice.coefficients M params sample q frame).A l ∧
    cyl_entry M params sample q frame (4 * (l - 1) + 2)
      = Cplx.ofReal (M.sqrt (1 / 2)) * (AllMCScatterDevice.coefficients M params sample q frame).B l ∧
    cyl_entry M params sample q frame (4 * (l - 1) + 3)
      = Cplx.ofReal (M.sqrt (1 / 2)) * (AllMCScatterDevice.coefficients M params sample q frame).C l ∧
    cyl_entry M params sample q frame (4 * (l - 1) + 4)
      = Cplx.ofReal (M.sqrt (1 / 2)) * (AllMCScatterDevice.coefficients M params sample q frame).D l := by
  obtain ⟨n, rfl⟩ : ∃ n, l = n + 1 := ⟨l - 1, by omega⟩
  rw [Nat.add_sub_cancel]
  unfold cyl_entry
  refine ⟨?_, ?_, ?_, ?_⟩
  · rw [if_neg (by omega), if_pos (by omega), (by omega : (4 * n + 1 - 1) / 4 + 1 = n + 1)]
  · rw [if_neg (by omega), if_neg (by omega), if_pos (by omega),
      (by omega : (4 * n + 2 - 1) / 4 + 1 = n + 1)]
  · rw [if_neg (by omega), if_neg (by omega), if_neg (by omega), if_pos (by omega),
      (by omega : (4 * n + 3 - 1) / 4 + 1 = n + 1)]
  · rw [if_neg (by omega), if_neg (by omega), if_neg (by omega), if_neg (by omega),
      (by omega : (4 * n + 4 - 1) / 4 + 1 = n + 1)]

theorem cyl_row_fold (M : Numerics R) (hsqrt : IsSqrt M) (params : Params R)
    (sample : Sample R) (q : CartesianCoor3D R) (frame : Nat) :
    ∑ c in Finset.range (1 + 4 * params.resolution),
        cyl_entry M params sample q frame c * Cplx.conj (cyl_entry M params sample q frame c)
      = (AllMCScatterDevice.coefficients M params sample q frame).A 0
          * Cplx.conj ((AllMCScatterDevice.coefficients M params sample q frame).A 0)
        + Cplx.ofReal (1 / 2) * ∑ l in Finset.range params.resolution,
            ((AllMCScatterDevice.coefficients M params sample q frame).A (l + 1)
                * Cplx.conj ((AllMCScatterDevice.coefficients M params sample q frame).A (l + 1))
              + (AllMCScatterDevice.coefficients M params sample q frame).B (l + 1)
                * Cplx.conj ((AllMCScatterDevice.coefficients M params sample q frame).B (l + 1))
              + (AllMCScatterDevice.coefficients M params sample q frame).C (l + 1)
                * Cplx.conj ((AllMCScatterDevice.coefficients M params sample q frame).C (l + 1))
              + (AllMCScatterDevice.coefficients M params sample q frame).D (l + 1)
                * Cplx.conj
                  ((AllMCScatterDevice.coefficients M params sample q frame).D (l + 1))) := by
  rw [add_comm 1 (4 * params.resolution), Finset.sum_range_succ', sum_blocks, add_comm,
    Finset.mul_sum]
  congr 1
  apply Finset.sum_congr rfl
  intro l _
  obtain ⟨e1, e2, e3, e4⟩ := cyl_entry_blocks M params sample q frame (l + 1) (by omega)
  rw [Nat.add_sub_cancel] at e1 e2 e3 e4
  rw [show 4 * l + 1 + 1 = 4 * l + 2 by ring, show 4 * l + 2 + 1 = 4 * l + 3 by ring,
    show 4 * l + 3 + 1 = 4 * l + 4 by ring, e1, e2, e3, e4, norm_scaled M hsqrt,
    norm_scaled M hsqrt, norm_scaled M hsqrt, norm_scaled M hsqrt]
  ring

/-- C16. Cylindrical column count and layout: the constructor's matrix has
`1 + 4L` columns; `scatter_frame_norm1` is the sequence of stores into the
columns `0, 1, …, 4L` of row `iframe`, one store per column in this order, and
on a row of a matrix of that width every store is in range, so the kernel
returns; column 0 receives `A_0` and, for `1 ≤ l ≤ L`, the columns `4(l-1)+1`,
`4(l-1)+2`, `4(l-1)+3`, `4(l-1)+4` receive `sqrt(1/2)` times `A_l`, `B_l`,
`C_l`, `D_l`; for a square-root function `sqrt` the static fold of the row is
`|A_0|² + (1/2) Σ_{l=1..L} (|A_l|² + |B_l|² + |C_l|² + |D_l|²)`. -/
theorem cylindrical_column_layout (M : Numerics R) (params : Params R) (sample : Sample R)
    (d : Device R) (iframe : Nat) (q : CartesianCoor3D R) (hsqrt : IsSqrt M)
    (hi : iframe < d.a.size1) (hC : d.a.size2 = 1 + 4 * params.resolution) :
    (∀ NN rank d0, AllMCScatterDevice.new params sample NN rank = .ok d0 →
      d0.a.size2 = 1 + 4 * params.resolution) ∧
    AllMCScatterDevice.scatter_frame_norm1 M params sample d iframe q
      = (List.range (1 + 4 * params.resolution)).foldlM
          (fun a c => a.write iframe c
            (cyl_entry M params sample q (d.myframes.getD iframe 0) c)) d.a
          >>= (fun a => pure { d with a := a }) ∧
    (∃ d2, AllMCScatterDevice.scatter_frame_norm1 M params sample d iframe q = .ok d2 ∧
      d2.a.size1 = d.a.size1 ∧ d2.a.size2 = d.a.size2 ∧
      d2.a.data iframe 0
        = (AllMCScatterDevice.coefficients M params sample q (d.myframes.getD iframe 0)).A 0 ∧
      (∀ l, 1 ≤ l → l ≤ params.resolution →
        4 * (l - 1) + 4 < 1 + 4 * params.resolution ∧
        d2.a.data iframe (4 * (l - 1) + 1)
          = Cplx.ofReal (M.sqrt (1 / 2)) *
            (AllMCScatterDevice.coefficients M params sample q (d.myframes.getD iframe 0)).A l ∧
        d2.a.data iframe (4 * (l - 1) + 2)
          = Cplx.ofReal (M.sqrt (1 / 2)) *
            (AllMCScatterDevice.coefficients M params sample q (d.myframes.getD iframe 0)).B l ∧
        d2.a.data iframe (4 * (l - 1) + 3)
          = Cplx.ofReal (M.sqrt (1 / 2)) *
            (AllMCScatterDevice.coefficients M params sample q (d.myframes.getD iframe 0)).C l ∧
        d2.a.data iframe (4 * (l - 1) + 4)
          = Cplx.ofReal (M.sqrt (1 / 2)) *
            (AllMCScatterDevice.coefficients M params sample q (d.myframes.getD iframe 0)).D l) ∧
      (conjmultiply_frames d2.a).data iframe 0
        = (AllMCScatterDevice.coefficients M params sample q (d.myframes.getD iframe 0)).A 0
            * Cplx.conj
              ((AllMCScatterDevice.coefficients M params sample q (d.myframes.getD iframe 0)).A 0)
          + Cplx.ofReal (1 / 2) * ∑ l in Finset.range params.resolution,
            ((AllMCScatterDevice.coefficients M params sample q
                  (d.myframes.getD iframe 0)).A (l + 1)
                * Cplx.conj ((AllMCScatterDevice.coefficients M params sample q
                  (d.myframes.getD iframe 0)).A (l + 1))
              + (AllMCScatterDevice.coefficients M params sample q
                  (d.myframes.getD iframe 0)).B (l + 1)
                * Cplx.conj ((AllMCScatterDevice.coefficients M params sample q
                  (d.myframes.getD iframe 0)).B (l + 1))
              + (AllMCScatterDevice.coefficients M params sample q
                  (d.myframes.getD iframe 0)).C (l + 1)
                * Cplx.conj ((AllMCScatterDevice.coefficients M params sample q
                  (d.myframes.getD iframe 0)).C (l + 1))
              + (AllMCScatterDevice.coefficients M params sample q
                  (d.myframes.getD iframe 0)).D (l + 1)
                * Cplx.conj ((AllMCScatterDevice.coefficients M params sample q
                  (d.myframes.getD iframe 0)).D (l + 1)))) := by
  refine ⟨?_, cyl_kernel_stores M params sample d iframe q, ?_⟩
  · intro NN rank d0 h0
    unfold AllMCScatterDevice.new at h0
    simp only [] at h0
    split_ifs at h0
    cases h0
    rfl
  · obtain ⟨d2, h0, _, h2, h3, h4⟩ := cyl_scatter_frame M params sample d iframe q hi hC
    refine ⟨d2, h0, h2, h3, ?_, ?_, ?_⟩
    · rw [h4, if_pos ⟨rfl, by omega⟩]
      rfl
    · intro l hl1 hl2
      obtain ⟨e1, e2, e3, e4⟩ :=
        cyl_entry_blocks M params sample q (d.myframes.getD iframe 0) l hl1
      refine ⟨by omega, ?_, ?_, ?_, ?_⟩
      · rw [h4, if_pos ⟨rfl, by omega⟩, e1]
      · rw [h4, if_pos ⟨rfl, by omega⟩, e2]
      · rw [h4, if_pos ⟨rfl, by omega⟩, e3]
      · rw [h4, if_pos ⟨rfl, by omega⟩, e4]
    · unfold conjmultiply_frames
      rw [(conjmultiply_rows d2.a (by omega) _).2.2 iframe 0, if_pos ⟨by omega, rfl⟩]
      unfold row_norm2
      rw [h3, hC, ← cyl_row_fold M hsqrt params sample q]
      apply Finset.sum_congr rfl
      intro c hc
      rw [h4, if_pos ⟨rfl, Finset.mem_range.mp hc⟩]

end CylinderLayout

section CylinderLayoutWitness

theorem cylindrical_column_layout_witness :
    let M : Numerics ℝ :=
      ⟨Real.sqrt, fun z => ⟨Real.exp z.re * Real.cos z.im, Real.exp z.re * Real.sin z.im⟩,
        Real.cos, Real.sin, Real.pi, fun _ _ => 1, fun _ _ => 0, fun _ _ _ _ => 0⟩
    let params : Params ℝ := ⟨false, "none", "direct", false, 1, ⟨0, 0, 1⟩, 0⟩
    let sample : Sample ℝ := ⟨1, 1, fun _ => ⟨[1], [0], [1]⟩, fun _ => [], fun _ => [1]⟩
    let q : CartesianCoor3D ℝ := ⟨1, 0, 2⟩
    let d : Device ℝ := ⟨[0], ublas.matrix.resize 1 5⟩
    IsSqrt M ∧
    AllMCScatterDevice.scatter_frame_norm1 M params sample d 0 q
      = (List.range 5).foldlM
          (fun a c => a.write 0 c (cyl_entry M params sample q (d.myframes.getD 0 0) c)) d.a
          >>= (fun a => pure { d with a := a }) ∧
    ∃ d2, AllMCScatterDevice.scatter_frame_norm1 M params sample d 0 q = .ok d2 ∧
      d2.a.size2 = 5 ∧
      (conjmultiply_frames d2.a).data 0 0
        = (AllMCScatterDevice.coefficients M params sample q (d.myframes.getD 0 0)).A 0
            * Cplx.conj
              ((AllMCScatterDevice.coefficients M params sample q (d.myframes.getD 0 0)).A 0)
          + Cplx.ofReal (1 / 2) * ∑ l in Finset.range params.resolution,
            ((AllMCScatterDevice.coefficients M params sample q
                  (d.myframes.getD 0 0)).A (l + 1)
                * Cplx.conj ((AllMCScatterDevice.coefficients M params sample q
                  (d.myframes.getD 0 0)).A (l + 1))
              + (AllMCScatterDevice.coefficients M params sample q
                  (d.myframes.getD 0 0)).B (l + 1)
                * Cplx.conj ((AllMCScatterDevice.coefficients M params sample q
                  (d.myframes.getD 0 0)).B (l + 1))
              + (AllMCScatterDevice.coefficients M params sample q
                  (d.myframes.getD 0 0)).C (l + 1)
                * Cplx.conj ((AllMCScatterDevice.coefficients M params sample q
                  (d.myframes.getD 0 0)).C (l + 1))
              + (AllMCScatterDevice.coefficients M params sample q
                  (d.myframes.getD 0 0)).D (l + 1)
                * Cplx.conj ((AllMCScatterDevice.coefficients M params sample q
                  (d.myframes.getD 0 0)).D (l + 1))) := by
  intro M params sample q d
  have hsqrt : IsSqrt M := real_isSqrt _ _ _ _ _ _ _
  have h := cylindrical_column_layout M params sample d 0 q hsqrt (by decide) rfl
  obtain ⟨d2, h0, _, h2, _, _, h5⟩ := h.2.2
  exact ⟨hsqrt, h.2.1, d2, h0, h2, h5⟩

end CylinderLayoutWitness

section SumLemmas

variable {R : Type} [CommRing R]

theorem Cplx.ofReal_sum (g : Nat → R) (n : Nat) :
    ∑ j in Finset.range n, Cplx.ofReal (g j) = Cplx.ofReal (∑ j in Finset.range n, g j) := by
  induction n with
  | zero => ext <;> simp
  | succ n ih =>
    rw [Finset.sum_range_succ, Finset.sum_range_succ, ih]
    ext <;> simp

end SumLemmas

section Monopole

variable {R : Type} [LinearOrderedField R]

theorem sph_entry_monopole (M : Numerics R) (params : Params R) (sample : Sample R)
    (q : CartesianCoor3D R) (frame : Nat) (hsqrt : IsSqrt M) (hpi : 0 < M.pi)
    (hY : ∀ theta phi,
      M.spherical_harmonic 0 0 theta phi = Cplx.ofReal (1 / M.sqrt (4 * M.pi)))
    (hj : ∀ x, M.sph_bessel 0 x = sinc M x) :
    sph_entry M params sample q frame 0
      = Cplx.ofReal (∑ j in Finset.range sample.noa,
          (sample.get_all q).getD j 0 * sinc M (q.length M * (sample.load frame).c1.getD j 0)) := by
  have hs := (hsqrt (4 * M.pi) (by linarith)).2
  have hs0 : M.sqrt (4 * M.pi) ≠ 0 := by
    intro h0
    rw [h0, mul_zero] at hs
    linarith
  unfold sph_entry
  rw [Nat.sqrt_zero, almv_formula M params sample q frame 0 0 (Nat.zero_le _) (Nat.zero_le _)]
  have hterm : ∀ j, sph_term M (sample.load frame) (sample.get_all q) (q.length M) j 0
      (((0 : Nat) : Int) - ((0 : Nat) : Int))
      = Cplx.ofReal (M.sqrt (4 * M.pi) * ((sample.get_all q).getD j 0
          * sinc M (q.length M * (sample.load frame).c1.getD j 0))) := by
    intro j
    unfold sph_term
    rw [show (((0 : Nat) : Int) - ((0 : Nat) : Int)) = 0 by norm_num, hY, hj]
    generalize M.sqrt (4 * M.pi) = s at hs hs0 ⊢
    rw [← hs]
    ext
    · simp
      field_simp
      ring
    · simp
  rw [Finset.sum_congr rfl (fun j _ => hterm j), Cplx.ofReal_sum, ← Finset.mul_sum]
  generalize M.sqrt (4 * M.pi) = s at hs hs0 ⊢
  ext
  · simp [Cplx.divReal]
    field_simp
  · simp [Cplx.divReal]

theorem sph_monopole_static (M : Numerics R) (params : Params R) (sample : Sample R)
    (d : Device R) (iframe : Nat) (q : CartesianCoor3D R)
    (hL : params.resolution = 0) (hi : iframe < d.a.size1) (hC : d.a.size2 = 1)
    (hsqrt : IsSqrt M) (hpi : 0 < M.pi)
    (hY : ∀ theta phi,
      M.spherical_harmonic 0 0 theta phi = Cplx.ofReal (1 / M.sqrt (4 * M.pi)))
    (hj : ∀ x, M.sph_bessel 0 x = sinc M x) :
    ∃ d2, AllMSScatterDevice.scatter_frame_norm1 M params sample d iframe q = .ok d2 ∧
      (conjmultiply_frames d2.a).data iframe 0
        = Cplx.ofReal (∑ j in Finset.range sample.noa, ∑ k in Finset.range sample.noa,
            (sample.get_all q).getD j 0 * (sample.get_all q).getD k 0 *
              (sinc M (q.length M * (sample.load (d.myframes.getD iframe 0)).c1.getD j 0)
                * sinc M (q.length M * (sample.load (d.myframes.getD iframe 0)).c1.getD k 0))) := by
  have hmax : AllMSScatterDevice.maxoffset params.resolution = 1 := by
    rw [maxoffset_eq, hL]
  obtain ⟨d2, h0, _, h2, h3, h4⟩ := sph_scatter_frame M params sample d iframe q hi
    (by rw [hmax]; exact hC)
  refine ⟨d2, h0, ?_⟩
  unfold conjmultiply_frames
  rw [(conjmultiply_rows d2.a (by omega) _).2.2 iframe 0, if_pos ⟨by omega, rfl⟩]
  unfold row_norm2
  rw [h3, hC, Finset.sum_range_one, h4, if_pos ⟨rfl, by omega⟩,
    sph_entry_monopole M params sample q _ hsqrt hpi hY hj]
  ext
  · simp
    rw [Finset.sum_mul_sum]
    apply Finset.sum_congr rfl
    intro j _
    apply Finset.sum_congr rfl
    intro k _
    ring
  · simp

end Monopole

section MonopoleClaim

variable {R : Type} [LinearOrderedField R]

/-- C11 (as the code has it). Spherical kernel with resolution `L = 0`
followed by the static fold, for a square-root function `sqrt`, `π > 0`,
`Y_{0,0} = 1/sqrt(4π)` and `j_0 = sinc`: the static intensity of the frame is
`(Σ_j f_j sinc(|q| r_j))² = Σ_j Σ_k f_j f_k sinc(|q| r_j) sinc(|q| r_k)`, with
`r_j` the radial coordinate of atom `j` (its distance from the origin).  When
every atom is at the origin this is `Σ_j Σ_k f_j f_k`, the isotropic average
of coinciding atoms. -/
theorem spherical_monopole_intensity (M : Numerics R) (params : Params R) (sample : Sample R)
    (d : Device R) (iframe : Nat) (q : CartesianCoor3D R)
    (hL : params.resolution = 0) (hi : iframe < d.a.size1) (hC : d.a.size2 = 1)
    (hsqrt : IsSqrt M) (hpi : 0 < M.pi)
    (hY : ∀ theta phi,
      M.spherical_harmonic 0 0 theta phi = Cplx.ofReal (1 / M.sqrt (4 * M.pi)))
    (hj : ∀ x, M.sph_bessel 0 x = sinc M x) :
    ∃ d2, AllMSScatterDevice.scatter_frame_norm1 M params sample d iframe q = .ok d2 ∧
      (conjmultiply_frames d2.a).data iframe 0
        = Cplx.ofReal (∑ j in Finset.range sample.noa, ∑ k in Finset.range sample.noa,
            (sample.get_all q).getD j 0 * (sample.get_all q).getD k 0 *
              (sinc M (q.length M * (sample.load (d.myframes.getD iframe 0)).c1.getD j 0)
                * sinc M (q.length M * (sample.load (d.myframes.getD iframe 0)).c1.getD k 0))) ∧
      ((∀ j, j < sample.noa → (sample.load (d.myframes.getD iframe 0)).c1.getD j 0 = 0) →
        (conjmultiply_frames d2.a).data iframe 0
          = Cplx.ofReal (∑ j in Finset.range sample.noa, ∑ k in Finset.range sample.noa,
              (sample.get_all q).getD j 0 * (sample.get_all q).getD k 0)) := by
  obtain ⟨d2, h0, h1⟩ := sph_monopole_static M params sample d iframe q hL hi hC hsqrt hpi hY hj
  refine ⟨d2, h0, h1, ?_⟩
  intro hr
  rw [h1]
  congr 1
  apply Finset.sum_congr rfl
  intro j hj1
  apply Finset.sum_congr rfl
  intro k hk1
  rw [hr j (Finset.mem_range.mp hj1), hr k (Finset.mem_range.mp hk1), mul_zero]
  simp [sinc]

end MonopoleClaim

section MonopoleWitness

theorem real_monopole_numerics :
    let M : Numerics ℝ :=
      ⟨Real.sqrt, fun z => ⟨Real.exp z.re * Real.cos z.im, Real.exp z.re * Real.sin z.im⟩,
        Real.cos, Real.sin, Real.pi, fun _ _ => 0,
        fun _ x => if x = 0 then 1 else Real.sin x / x,
        fun _ _ _ _ => ⟨1 / Real.sqrt (4 * Real.pi), 0⟩⟩
    IsSqrt M ∧ 0 < M.pi ∧
    (∀ theta phi,
      M.spherical_harmonic 0 0 theta phi = Cplx.ofReal (1 / M.sqrt (4 * M.pi))) ∧
    (∀ x, M.sph_bessel 0 x = sinc M x) := by
  intro M
  exact ⟨real_isSqrt _ _ _ _ _ _ _, Real.pi_pos, fun _ _ => rfl, fun _ => rfl⟩

theorem spherical_monopole_intensity_witness :
    let M : Numerics ℝ :=
      ⟨Real.sqrt, fun z => ⟨Real.exp z.re * Real.cos z.im, Real.exp z.re * Real.sin z.im⟩,
        Real.cos, Real.sin, Real.pi, fun _ _ => 0,
        fun _ x => if x = 0 then 1 else Real.sin x / x,
        fun _ _ _ _ => ⟨1 / Real.sqrt (4 * Real.pi), 0⟩⟩
    let params : Params ℝ := ⟨false, "none", "direct", false, 0, ⟨0, 0, 1⟩, 0⟩
    let sample : Sample ℝ :=
      ⟨1, 2, fun _ => ⟨[1, 2], [0, 1], [1, 2]⟩, fun _ => [], fun _ => [1, 3]⟩
    let q : CartesianCoor3D ℝ := ⟨1, 0, 0⟩
    let d : Device ℝ := ⟨[0], ublas.matrix.resize 1 1⟩
    ∃ d2, AllMSScatterDevice.scatter_frame_norm1 M params sample d 0 q = .ok d2 ∧
      (conjmultiply_frames d2.a).data 0 0
        = Cplx.ofReal (∑ j in Finset.range sample.noa, ∑ k in Finset.range sample.noa,
            (sample.get_all q).getD j 0 * (sample.get_all q).getD k 0 *
              (sinc M (q.length M * (sample.load (d.myframes.getD 0 0)).c1.getD j 0)
                * sinc M (q.length M * (sample.load (d.myframes.getD 0 0)).c1.getD k 0))) := by
  intro M params sample q d
  obtain ⟨g1, g2, g3, g4⟩ := real_monopole_numerics
  obtain ⟨d2, h0, h1, _⟩ := spherical_monopole_intensity M params sample d 0 q rfl
    (by decide) rfl g1 g2 g3 g4
  exact ⟨d2, h0, h1⟩

/-- C11, counterexample. Over the reals, with the real `sqrt`, `sin`, `π`,
`j_0 = sinc` and `Y_{0,0} = 1/sqrt(4π)`: one atom with `f = 1` at distance `π`
from the origin (position `(π, 0, 0)`, spherical coordinates `r = π`,
`phi = 0`, `theta = π/2`) and `q = (1, 0, 0)`.  The kernel with `L = 0`
followed by the static fold gives `sinc(π)² = 0`, while the isotropic average
`f·f·sinc(|q|·|r - r|) = sinc(0)` is `1`. -/
theorem isotropic_average_counterexample :
    let M : Numerics ℝ :=
      ⟨Real.sqrt, fun z => ⟨Real.exp z.re * Real.cos z.im, Real.exp z.re * Real.sin z.im⟩,
        Real.cos, Real.sin, Real.pi, fun _ _ => 0,
        fun _ x => if x = 0 then 1 else Real.sin x / x,
        fun _ _ _ _ => ⟨1 / Real.sqrt (4 * Real.pi), 0⟩⟩
    let params : Params ℝ := ⟨false, "none", "direct", false, 0, ⟨0, 0, 1⟩, 0⟩
    let sample : Sample ℝ :=
      ⟨1, 1, fun _ => ⟨[Real.pi], [0], [Real.pi / 2]⟩, fun _ => [], fun _ => [1]⟩
    let q : CartesianCoor3D ℝ := ⟨1, 0, 0⟩
    let d : Device ℝ := ⟨[0], ublas.matrix.resize 1 1⟩
    ∃ d2, AllMSScatterDevice.scatter_frame_norm1 M params sample d 0 q = .ok d2 ∧
      (conjmultiply_frames d2.a).data 0 0 = 0 ∧
      Cplx.ofReal (spec_isotropic M [⟨Real.pi, 0, 0⟩] (sample.get_all q) q) = 1 ∧
      (conjmultiply_frames d2.a).data 0 0
        ≠ Cplx.ofReal (spec_isotropic M [⟨Real.pi, 0, 0⟩] (sample.get_all q) q) := by
  intro M params sample q d
  obtain ⟨g1, g2, g3, g4⟩ := real_monopole_numerics
  obtain ⟨d2, h0, h1⟩ := sph_monopole_static M params sample d 0 q rfl (by decide) rfl
    g1 g2 g3 g4
  have hq : q.length M = 1 := by
    simp [CartesianCoor3D.length, q, M]
  have hv : (conjmultiply_frames d2.a).data 0 0 = 0 := by
    rw [h1, hq]
    simp [sample, sinc, d, M, Real.pi_ne_zero]
    rfl
  have hs : Cplx.ofReal (spec_isotropic M [⟨Real.pi, 0, 0⟩] (sample.get_all q) q) = 1 := by
    unfold spec_isotropic
    simp [sample, sinc, CartesianCoor3D.sub, CartesianCoor3D.length, M]
    rfl
  refine ⟨d2, h0, hv, hs, ?_⟩
  rw [hv, hs]
  intro h
  have := congrArg Cplx.re h
  simp at this

end MonopoleWitness

section UnitBroadcast

open unit_broadcast

theorem broadcast_status (size : Nat) (raised : Option Raised) (rank : Nat)
    (hsize : 1 ≤ size) (hrank : rank < size) :
    (broadcast ((List.range size).map (initstatus raised)) 0).getD rank true
      = raised.isNone := by
  unfold broadcast
  rw [List.getD_eq_getElem _ _ (by simpa using hrank), List.getElem_map,
    List.getD_eq_getElem _ _ (by simpa using hsize), List.getElem_map, List.getElem_range]
  unfold initstatus
  rw [if_pos rfl]
  cases raised with
  | none => rfl
  | some e => cases e <;> rfl

theorem main_raised (size : Nat) (e : Raised) (rank : Nat) (hsize : 1 ≤ size)
    (hrank : rank < size) :
    main size (some e) rank
      = (1, (if rank = 0 then [Step.initialization] else []) ++ [Step.broadcast_initstatus]) := by
  unfold main
  simp only [broadcast_status size (some e) rank hsize hrank]
  rfl

theorem main_returned (size : Nat) (rank : Nat) (hsize : 1 ≤ size) (hrank : rank < size) :
    main size none rank
      = (0, (if rank = 0 then [Step.initialization] else []) ++
          [Step.broadcast_initstatus, Step.barrier, Step.broadcast_params, Step.barrier,
            Step.broadcast_database, Step.barrier, Step.broadcast_sample, Step.barrier]) := by
  unfold main
  simp only [broadcast_status size none rank hsize hrank]
  rfl

/-- C17. Initialization failure exit code of `unit_broadcast`: in a world of
`size ≥ 1` ranks only rank 0 runs the initialisation; every rank returns 1
exactly when the initialisation on rank 0 raised an exception (of any of the
three kinds), and then no rank goes past the broadcast of the status;
otherwise every rank goes on to the broadcasts of params, database and sample
and returns 0. -/
theorem unit_broadcast_exit_code (size : Nat) (raised : Option Raised) (hsize : 1 ≤ size) :
    (∀ rank, rank < size → (Step.initialization ∈ (main size raised rank).2 ↔ rank = 0)) ∧
    ((∀ rank, rank < size → (main size raised rank).1 = 1) ↔ ∃ e, raised = some e) ∧
    (∀ rank, rank < size → ((main size raised rank).1 = 1 ↔ ∃ e, raised = some e)) ∧
    ((∃ e, raised = some e) → ∀ rank, rank < size →
      (main size raised rank).2
        = (if rank = 0 then [Step.initialization] else []) ++ [Step.broadcast_initstatus]) ∧
    (raised = none → ∀ rank, rank < size →
      (main size raised rank).1 = 0 ∧
      (main size raised rank).2
        = (if rank = 0 then [Step.initialization] else []) ++
          [Step.broadcast_initstatus, Step.barrier, Step.broadcast_params, Step.barrier,
            Step.broadcast_database, Step.barrier, Step.broadcast_sample, Step.barrier]) := by
  have hcode : ∀ rank, rank < size → ((main size raised rank).1 = 1 ↔ ∃ e, raised = some e) := by
    intro rank hrank
    cases raised with
    | none =>
      rw [main_returned size rank hsize hrank]
      constructor
      · intro h
        cases h
      · rintro ⟨e, he⟩
        cases he
    | some e =>
      rw [main_raised size e rank hsize hrank]
      exact ⟨fun _ => ⟨e, rfl⟩, fun _ => rfl⟩
  refine ⟨?_, ?_, hcode, ?_, ?_⟩
  · intro rank hrank
    cases raised with
    | none =>
      rw [main_returned size rank hsize hrank]
      by_cases h0 : rank = 0
      · simp [h0]
      · simp [h0]
    | some e =>
      rw [main_raised size e rank hsize hrank]
      by_cases h0 : rank = 0
      · simp [h0]
      · simp [h0]
  · constructor
    · intro h
      exact (hcode 0 (by omega)).mp (h 0 (by omega))
    · intro h rank hrank
      exact (hcode rank hrank).mpr h
  · rintro ⟨e, rfl⟩ rank hrank
    rw [main_raised size e rank hsize hrank]
  · rintro rfl rank hrank
    rw [main_returned size rank hsize hrank]
    exact ⟨rfl, rfl⟩

theorem unit_broadcast_exit_code_witness :
    (∀ rank, rank < 3 → (main 3 (some Raised.std_exception) rank).1 = 1) ∧
    (∀ rank, rank < 3 → (main 3 none rank).1 = 0) :=
  ⟨fun rank hrank =>
    ((unit_broadcast_exit_code 3 (some Raised.std_exception) (by decide)).2.2.1 rank hrank).mpr
      ⟨_, rfl⟩,
   fun rank hrank => ((unit_broadcast_exit_code 3 none (by decide)).2.2.2.2 rfl rank hrank).1⟩

end UnitBroadcast

section ShiftInvariance

variable {R : Type} [LinearOrderedField R]

omit [LinearOrderedField R] in
theorem shifted_devs_hold [Field R] (NF NN col : Nat) (A : Nat → Cplx R) (c : Cplx R)
    (devs : List (Device R)) (hold : HoldsColumn NF NN col A devs) :
    HoldsColumn NF NN col (fun k => A k + c) (shifted_devs c devs) := by
  refine ⟨?_, ?_⟩
  · unfold shifted_devs
    rw [List.map_map]
    exact hold.1
  · intro d hd
    unfold shifted_devs at hd
    rw [List.mem_map] at hd
    obtain ⟨d0, hd0, rfl⟩ := hd
    obtain ⟨h1, h2, h3⟩ := hold.2 d0 hd0
    refine ⟨h1, h2, ?_⟩
    intro j hj
    show d0.a.data j col + c = A (d0.myframes.getD j 0) + c
    rw [h3 j hj]

theorem mean_shift (NF : Nat) (hNF : 1 ≤ NF) (A : Nat → Cplx R) (c : Cplx R) :
    Cplx.ofReal (1 / (NF : R)) * ∑ k in Finset.range NF, (A k + c)
      = Cplx.ofReal (1 / (NF : R)) * ∑ k in Finset.range NF, A k + c := by
  have hn : (NF : R) ≠ 0 := Nat.cast_ne_zero.mpr (by omega)
  rw [Finset.sum_add_distrib, mul_add, Finset.sum_const, Finset.card_range, nsmul_eq_mul]
  congr 1
  ext
  · simp [(Cplx.natCast_parts NF).1, (Cplx.natCast_parts NF).2]
    field_simp
  · simp [(Cplx.natCast_parts NF).1, (Cplx.natCast_parts NF).2]
    field_simp

theorem spec_autocorrelation_shift (NF : Nat) (hNF : 1 ≤ NF) (A : Nat → Cplx R) (c : Cplx R)
    (tau : Nat) :
    spec_autocorrelation NF true (fun k => A k + c) tau = spec_autocorrelation NF true A tau := by
  unfold spec_autocorrelation
  simp only [if_true]
  rw [mean_shift NF hNF A c]
  congr 1
  apply Finset.sum_congr rfl
  intro k _
  have e : ∀ x : Cplx R,
      x + c - (Cplx.ofReal (1 / (NF : R)) * ∑ k in Finset.range NF, A k + c)
        = x - Cplx.ofReal (1 / (NF : R)) * ∑ k in Finset.range NF, A k := by
    intro x
    ring
  rw [e, e]

theorem correlate_shift (NF NN col : Nat) (A : Nat → Cplx R) (c : Cplx R)
    (devs devs2 : List (Device R)) (hNF : 1 ≤ NF) (hNN : 1 ≤ NN)
    (hold : HoldsColumn NF NN col A devs)
    (hold2 : HoldsColumn NF NN col (fun k => A k + c) devs2) :
    correlate_frames NF true devs2 col 0 = correlate_frames NF true devs col 0 := by
  rw [correlate_frames_eq NF NN col true _ devs2 hNN hold2,
    correlate_frames_eq NF NN col true _ devs hNN hold]
  congr 1
  apply List.map_congr_left
  intro tau _
  exact spec_autocorrelation_shift NF hNF A c tau

theorem correlate_constant_zeromean (NF NN col : Nat) (c : Cplx R) (devs : List (Device R))
    (hNF : 1 ≤ NF) (hNN : 1 ≤ NN) (hold : HoldsColumn NF NN col (fun _ => c) devs) :
    correlate_frames NF true devs col 0 = .ok (List.replicate NF 0) := by
  rw [correlate_frames_eq NF NN col true _ devs hNN hold]
  congr 1
  have h : ∀ tau, spec_autocorrelation NF true (fun _ => c) tau = 0 := by
    intro tau
    have h0 := spec_autocorrelation_shift NF hNF (fun _ => 0) c tau
    simp only [zero_add] at h0
    rw [h0, spec_autocorrelation_zero]
  simp [h]

/-- C21. Zero-mean correlation is shift invariant: with the zero-mean option
on, for `NF ≥ 1` frames on `NN ≥ 1` ranks, direct correlation of a column that
holds the series `A k + c` returns on rank 0 the same vector as direct
correlation of a column that holds `A k`, a vector of length `NF`; a column
that holds the constant `c` in every frame correlates to 0 at every lag. -/
theorem zeromean_shift_invariant (NF NN col : Nat) (A : Nat → Cplx R) (c : Cplx R)
    (devs devs2 : List (Device R)) (hNF : 1 ≤ NF) (hNN : 1 ≤ NN)
    (hold : HoldsColumn NF NN col A devs)
    (hold2 : HoldsColumn NF NN col (fun k => A k + c) devs2) :
    (∃ s, correlate_frames NF true devs col 0 = .ok s ∧
      correlate_frames NF true devs2 col 0 = .ok s ∧ s.length = NF ∧
      ∀ tau, tau < NF → s.getD tau 0 = spec_autocorrelation NF true A tau) ∧
    (∀ devs3 : List (Device R), HoldsColumn NF NN col (fun _ => c) devs3 →
      correlate_frames NF true devs3 col 0 = .ok (List.replicate NF 0)) := by
  refine ⟨⟨_, correlate_frames_eq NF NN col true A devs hNN hold, ?_, by simp, ?_⟩, ?_⟩
  · rw [correlate_shift NF NN col A c devs devs2 hNF hNN hold hold2]
    exact correlate_frames_eq NF NN col true A devs hNN hold
  · intro tau htau
    exact getD_map_range _ NF tau htau
  · intro devs3 hold3
    exact correlate_constant_zeromean NF NN col c devs3 hNF hNN hold3

end ShiftInvariance

section ShiftInvarianceWitness

theorem zeromean_shift_invariant_witness :
    (∃ s, correlate_frames 3 true example_devs 1 0 = .ok s ∧
      correlate_frames 3 true (shifted_devs ⟨5, -2⟩ example_devs) 1 0 = .ok s ∧ s.length = 3 ∧
      ∀ tau, tau < 3 → s.getD tau 0 = spec_autocorrelation 3 true (example_series 1) tau) ∧
    correlate_frames 3 true (constant_devs 3 2 (⟨5, -2⟩ : Cplx ℚ)) 0 0
      = .ok (List.replicate 3 0) :=
  ⟨(zeromean_shift_invariant 3 2 1 (example_series 1) ⟨5, -2⟩ example_devs
      (shifted_devs ⟨5, -2⟩ example_devs) (by decide) (by decide)
      (example_devs_hold 1 (by decide))
      (shifted_devs_hold 3 2 1 _ _ _ (example_devs_hold 1 (by decide)))).1,
   (zeromean_shift_invariant 3 2 0 (fun _ => 0) ⟨5, -2⟩ (constant_devs 3 2 0)
      (constant_devs 3 2 ⟨5, -2⟩) (by decide) (by decide)
      (constant_devs_hold 3 2 0)
      (by
        have h := constant_devs_hold 3 2 (⟨5, -2⟩ : Cplx ℚ)
        have e : (fun k : Nat => (fun _ : Nat => (0 : Cplx ℚ)) k + (⟨5, -2⟩ : Cplx ℚ))
            = fun _ => ⟨5, -2⟩ := by
          funext k
          ext <;> simp
        rw [e]
        exact h)).2 _ (constant_devs_hold 3 2 ⟨5, -2⟩)⟩

end ShiftInvarianceWitness

section QueueLemmas

open concurrent_queue

variable {Data : Type}

theorem step_invariant (t : Thread Data) (c : Call Data)
    (h : t.popped ++ t.queue.the_queue = t.pushed) :
    (t.step c).popped ++ (t.step c).queue.the_queue = (t.step c).pushed := by
  unfold Thread.step
  by_cases hw : t.waiting = true
  · rw [if_pos hw]
    exact h
  · rw [if_neg hw]
    cases c with
    | push data =>
      show t.popped ++ (t.queue.the_queue ++ [data]) = t.pushed ++ [data]
      rw [← List.append_assoc, h]
    | try_pop =>
      unfold concurrent_queue.try_pop
      cases hq : t.queue.the_queue with
      | nil =>
        show t.popped ++ t.queue.the_queue = t.pushed
        exact h
      | cons front rest =>
        show (t.popped ++ [front]) ++ rest = t.pushed
        rw [← h, hq]
        simp
    | wait_and_pop =>
      unfold concurrent_queue.wait_and_pop
      cases hq : t.queue.the_queue with
      | nil =>
        show t.popped ++ t.queue.the_queue = t.pushed
        exact h
      | cons front rest =>
        show (t.popped ++ [front]) ++ rest = t.pushed
        rw [← h, hq]
        simp

theorem run_invariant (calls : List (Call Data)) (t : Thread Data)
    (h : t.popped ++ t.queue.the_queue = t.pushed) :
    (Thread.run calls t).popped ++ (Thread.run calls t).queue.the_queue
      = (Thread.run calls t).pushed := by
  unfold Thread.run
  induction calls generalizing t with
  | nil => exact h
  | cons c cs ih => exact ih (t.step c) (step_invariant t c h)

theorem step_waiting (t : Thread Data) (c : Call Data) (hw : t.waiting = true) :
    t.step c = t := by
  unfold Thread.step
  rw [if_pos hw]

theorem run_waiting (calls : List (Call Data)) (t : Thread Data) (hw : t.waiting = true) :
    Thread.run calls t = t := by
  unfold Thread.run
  induction calls with
  | nil => rfl
  | cons c cs ih =>
    rw [List.foldl_cons, step_waiting t c hw]
    exact ih

theorem step_pushed (t : Thread Data) (c : Call Data) :
    ((t.step c).waiting = false → (t.step c).pushed = t.pushed ++ pushes [c]) ∧
    ((t.step c).waiting = true → (t.step c).pushed = t.pushed) := by
  unfold Thread.step
  by_cases hw : t.waiting = true
  · rw [if_pos hw]
    refine ⟨fun h => ?_, fun _ => rfl⟩
    rw [hw] at h
    cases h
  · rw [if_neg hw]
    cases c with
    | push data =>
      refine ⟨fun _ => rfl, fun h => ?_⟩
      exact absurd (show t.waiting = true from h) hw
    | try_pop =>
      unfold concurrent_queue.try_pop
      cases t.queue.the_queue with
      | nil =>
        refine ⟨fun _ => ?_, fun _ => rfl⟩
        show t.pushed = t.pushed ++ pushes [Call.try_pop]
        simp [pushes]
      | cons front rest =>
        refine ⟨fun _ => ?_, fun _ => rfl⟩
        show t.pushed = t.pushed ++ pushes [Call.try_pop]
        simp [pushes]
    | wait_and_pop =>
      unfold concurrent_queue.wait_and_pop
      cases t.queue.the_queue with
      | nil =>
        refine ⟨fun h => ?_, fun _ => rfl⟩
        have h2 : true = false := h
        cases h2
      | cons front rest =>
        refine ⟨fun _ => ?_, fun _ => rfl⟩
        show t.pushed = t.pushed ++ pushes [Call.wait_and_pop]
        simp [pushes]

theorem pushes_cons (c : Call Data) (cs : List (Call Data)) :
    pushes (c :: cs) = pushes [c] ++ pushes cs := by
  cases c <;> simp [pushes]

theorem run_pushed (calls : List (Call Data)) (t : Thread Data) (hw : t.waiting = false) :
    (∃ rest, t.pushed ++ pushes calls = (Thread.run calls t).pushed ++ rest) ∧
    ((Thread.run calls t).waiting = false →
      (Thread.run calls t).pushed = t.pushed ++ pushes calls) := by
  induction calls generalizing t with
  | nil => exact ⟨⟨[], by simp [Thread.run, pushes]⟩, fun _ => by simp [Thread.run, pushes]⟩
  | cons c cs ih =>
    have hrun : Thread.run (c :: cs) t = Thread.run cs (t.step c) := rfl
    rw [hrun, pushes_cons]
    cases hs : (t.step c).waiting with
    | true =>
      rw [run_waiting cs _ hs, (step_pushed t c).2 hs]
      exact ⟨⟨pushes [c] ++ pushes cs, rfl⟩, fun h => by rw [hs] at h; cases h⟩
    | false =>
      obtain ⟨⟨rest, h1⟩, h2⟩ := ih (t.step c) hs
      rw [(step_pushed t c).1 hs] at h1 h2
      refine ⟨⟨rest, ?_⟩, ?_⟩
      · rw [← List.append_assoc, h1]
      · intro h
        rw [h2 h, List.append_assoc]

end QueueLemmas

section QueueClaim

open concurrent_queue

variable {Data : Type}

/-- C22. The queue `concurrent_queue` is first-in first-out for one thread:
after every sequence of `push`, `try_pop` and `wait_and_pop` calls on a new
queue, the values popped followed by the values still queued are the values
pushed, in the order they were pushed, so the popped values are the first of
the pushed ones, each once; the pushed values are those of the calls made (all
of them unless the thread waits for ever in `wait_and_pop` on an empty queue).
`try_pop` on an empty queue returns false and leaves the queue and its output
argument as they were; on a non-empty queue it returns true, yields the oldest
element and takes one off `size()`; `wait_and_pop` on a non-empty queue does
the same; `push` adds one to `size()`; `empty()` holds exactly when `size()`
is 0. -/
theorem concurrent_queue_fifo (calls : List (Call Data)) (popped_value : Data) :
    ((Thread.run calls (Thread.start popped_value)).popped
        ++ (Thread.run calls (Thread.start popped_value)).queue.the_queue
      = (Thread.run calls (Thread.start popped_value)).pushed) ∧
    (∃ rest, pushes calls = (Thread.run calls (Thread.start popped_value)).pushed ++ rest) ∧
    ((Thread.run calls (Thread.start popped_value)).waiting = false →
      (Thread.run calls (Thread.start popped_value)).pushed = pushes calls) ∧
    (∀ (q : concurrent_queue Data) (v : Data), q.empty = true →
      q.try_pop v = (false, q, v) ∧ q.wait_and_pop v = none) ∧
    (∀ (q : concurrent_queue Data) (v : Data), q.empty = false →
      ∃ front rest, q.the_queue = front :: rest ∧
        q.try_pop v = (true, ⟨rest⟩, front) ∧ q.wait_and_pop v = some (⟨rest⟩, front) ∧
        (q.try_pop v).2.1.size + 1 = q.size) ∧
    (∀ (q : concurrent_queue Data) (data : Data),
      (q.push data).size = q.size + 1 ∧ (q.push data).the_queue = q.the_queue ++ [data]) ∧
    (∀ q : concurrent_queue Data, q.empty = true ↔ q.size = 0) := by
  refine ⟨run_invariant calls _ rfl, ?_, ?_, ?_, ?_, ?_, ?_⟩
  · obtain ⟨rest, h⟩ := (run_pushed calls (Thread.start popped_value) rfl).1
    exact ⟨rest, by simpa [Thread.start] using h⟩
  · intro h
    have := (run_pushed calls (Thread.start popped_value) rfl).2 h
    simpa [Thread.start] using this
  · intro q v h
    unfold concurrent_queue.empty at h
    unfold concurrent_queue.try_pop concurrent_queue.wait_and_pop
    cases hq : q.the_queue with
    | nil => exact ⟨rfl, rfl⟩
    | cons front rest => rw [hq] at h; cases h
  · intro q v h
    unfold concurrent_queue.empty at h
    unfold concurrent_queue.try_pop concurrent_queue.wait_and_pop concurrent_queue.size
    cases hq : q.the_queue with
    | nil => rw [hq] at h; cases h
    | cons front rest => exact ⟨front, rest, rfl, rfl, rfl, rfl⟩
  · intro q data
    unfold concurrent_queue.push concurrent_queue.size
    simp
  · intro q
    unfold concurrent_queue.empty concurrent_queue.size
    cases q.the_queue <;> simp

end QueueClaim

section QueueWitness

open concurrent_queue

theorem concurrent_queue_fifo_witness :
    (Thread.run [Call.push 1, Call.push 2, Call.try_pop, Call.push 3, Call.wait_and_pop]
      (Thread.start (0 : Nat))).popped = [1, 2] ∧
    (Thread.run [Call.push 1, Call.push 2, Call.try_pop, Call.push 3, Call.wait_and_pop]
      (Thread.start (0 : Nat))).queue.the_queue = [3] ∧
    (Thread.run [Call.push 1, Call.push 2, Call.try_pop, Call.push 3, Call.wait_and_pop]
      (Thread.start (0 : Nat))).popped
        ++ (Thread.run [Call.push 1, Call.push 2, Call.try_pop, Call.push 3, Call.wait_and_pop]
          (Thread.start (0 : Nat))).queue.the_queue
      = (Thread.run [Call.push 1, Call.push 2, Call.try_pop, Call.push 3, Call.wait_and_pop]
          (Thread.start (0 : Nat))).pushed ∧
    (Thread.run [Call.wait_and_pop, Call.push 1] (Thread.start (0 : Nat))).waiting = true ∧
    (Thread.run [Call.wait_and_pop, Call.push 1] (Thread.start (0 : Nat))).pushed = [] :=
  ⟨rfl, rfl,
    (concurrent_queue_fifo
      [Call.push 1, Call.push 2, Call.try_pop, Call.push 3, Call.wait_and_pop] (0 : Nat)).1,
    rfl, rfl⟩

end QueueWitness
